import Mathlib

/-! Quartz: render-pass compilation, frame pacing and the asset registry.

A shallow embedding of `qz::gfx::RenderPass`, `qz::gfx::Renderer` and
`qz::assets` (sources under `src/qz`).  Device handles, formats and raw float
bit patterns are natural numbers; a `std::vector` is a `List`; a call that does
not return normally yields a `Fault`.
-/

namespace qz

/-- Reasons for which a call does not return a value: `std::abort` (also reached
through a failed `assert`), or behaviour the language leaves undefined (indexing a
vector out of range, reading an indeterminate value). -/
inductive Fault where
  | abort
  | undefined
  deriving DecidableEq, Repr

/-! ## Constants of `vulkan_core.h` used by the sources -/

def VK_SUCCESS : Int := 0

def VK_IMAGE_ASPECT_COLOR_BIT : Nat := 0x1
def VK_IMAGE_ASPECT_DEPTH_BIT : Nat := 0x2
def VK_IMAGE_ASPECT_STENCIL_BIT : Nat := 0x4

def VK_IMAGE_LAYOUT_UNDEFINED : Nat := 0
def VK_IMAGE_LAYOUT_COLOR_ATTACHMENT_OPTIMAL : Nat := 2
def VK_IMAGE_LAYOUT_DEPTH_STENCIL_ATTACHMENT_OPTIMAL : Nat := 3
def VK_IMAGE_LAYOUT_TRANSFER_SRC_OPTIMAL : Nat := 6
def VK_IMAGE_LAYOUT_DEPTH_ATTACHMENT_OPTIMAL : Nat := 1000241000
def VK_IMAGE_LAYOUT_STENCIL_ATTACHMENT_OPTIMAL : Nat := 1000241002

def VK_ATTACHMENT_LOAD_OP_LOAD : Nat := 0
def VK_ATTACHMENT_LOAD_OP_CLEAR : Nat := 1
def VK_ATTACHMENT_LOAD_OP_DONT_CARE : Nat := 2

def VK_ATTACHMENT_STORE_OP_STORE : Nat := 0
def VK_ATTACHMENT_STORE_OP_DONT_CARE : Nat := 1

def VK_SAMPLE_COUNT_1_BIT : Nat := 1
def VK_PIPELINE_BIND_POINT_GRAPHICS : Nat := 0

/-! ## `qz/meta/constants.hpp` -/

namespace meta

def in_flight : Nat := 2
def external_subpass : Nat := 0xFFFFFFFF
def family_ignored : Nat := 0xFFFFFFFF

end meta

/-- Wrap-around of a `std::uint32_t`. -/
def u32 (n : Nat) : Nat := n % 2 ^ 32

/-- The macro `qz_vulkan_check` of `qz/util/macros.hpp`: with `QUARTZ_DEBUG` it asserts
that the result is `VK_SUCCESS`, otherwise it only evaluates the expression. -/
def qz_vulkan_check (debug : Bool) (result : Int) : Except Fault Unit :=
  if debug && result != VK_SUCCESS then .error .abort else .ok ()

/-- The macro `qz_assert`: an `assert` with `QUARTZ_DEBUG`, a no-op without. -/
def qz_assert (debug : Bool) (expr : Bool) : Except Fault Unit :=
  if debug && !expr then .error .abort else .ok ()

namespace gfx

/-! ## `qz/gfx/clear.hpp` -/

/-- The 16 bytes of a `VkClearColorValue` (a union of `float32[4]`, `int32[4]` and
`uint32[4]`), as four 32-bit patterns. -/
structure VkClearColorValue where
  w0 : Nat
  w1 : Nat
  w2 : Nat
  w3 : Nat
  deriving DecidableEq, Repr

structure VkClearDepthStencilValue where
  depth : Nat
  stencil : Nat
  deriving DecidableEq, Repr

/-- The union `VkClearValue`, with its active member. -/
inductive VkClearValue where
  | color (c : VkClearColorValue)
  | depthStencil (d : VkClearDepthStencilValue)
  deriving DecidableEq, Repr

/-- Value-initialisation `VkClearValue{}`: the first member, zeroed. -/
def VkClearValue.zero : VkClearValue := .color ⟨0, 0, 0, 0⟩

structure ClearColor where
  value : VkClearColorValue
  deriving DecidableEq, Repr

/-- The default constructor `ClearColor()`. -/
def ClearColor.default : ClearColor := ⟨⟨0, 0, 0, 0⟩⟩

structure ClearDepth where
  value : VkClearDepthStencilValue
  deriving DecidableEq, Repr

inductive ClearValue.Kind where
  | none
  | color
  | depth
  deriving DecidableEq, Repr

/-- The class `ClearValue`: the three constructors fix `_type` and the union member. -/
inductive ClearValue where
  | none
  | color (clear : ClearColor)
  | depth (clear : ClearDepth)
  deriving DecidableEq, Repr

def ClearValue.type : ClearValue → ClearValue.Kind
  | .none => .none
  | .color _ => .color
  | .depth _ => .depth

def ClearValue.value : ClearValue → VkClearValue
  | .none => VkClearValue.zero
  | .color c => .color c.value
  | .depth d => .depthStencil d.value

/-! ## `qz/gfx/image.hpp` -/

structure Image where
  handle : Nat
  view : Nat
  allocation : Nat
  aspect : Nat
  format : Nat
  mips : Nat
  width : Nat
  height : Nat
  deriving DecidableEq, Repr

structure VkExtent2D where
  width : Nat
  height : Nat
  deriving DecidableEq, Repr

/-! ## `qz/gfx/render_pass.hpp` -/

structure VkAttachmentDescription where
  flags : Nat
  format : Nat
  samples : Nat
  loadOp : Nat
  storeOp : Nat
  stencilLoadOp : Nat
  stencilStoreOp : Nat
  initialLayout : Nat
  finalLayout : Nat
  deriving DecidableEq, Repr

structure VkAttachmentReference where
  attachment : Nat
  layout : Nat
  deriving DecidableEq, Repr

structure Attachment.CreateInfo where
  image : Image
  name : String
  framebuffer : Nat
  owning : Bool
  discard : Bool
  layout : Nat
  clear : ClearValue
  deriving DecidableEq, Repr

structure Attachment where
  image : Image
  owning : Bool
  name : String
  clear : ClearValue
  framebuffer : Nat
  description : VkAttachmentDescription
  reference : VkAttachmentReference
  deriving DecidableEq, Repr

structure SubpassInfo where
  attachments : List String
  preserve : List String
  input : List String
  deriving DecidableEq, Repr

structure SubpassDependency where
  source_subpass : Nat
  dest_subpass : Nat
  source_stage : Nat
  dest_stage : Nat
  source_access : Nat
  dest_access : Nat
  deriving DecidableEq, Repr

structure RenderPass.CreateInfo where
  attachments : List Attachment.CreateInfo
  subpasses : List SubpassInfo
  dependencies : List SubpassDependency
  deriving DecidableEq, Repr

structure RenderPass where
  _handle : Nat
  _attachments : List Attachment
  _framebuffers : List Nat
  deriving DecidableEq, Repr

/-! ## Structures handed to the device by `RenderPass::create` -/

/-- A `VkSubpassDescription`; each pointer-and-count pair is a list, and the optional
depth-stencil pointer is an `Option`. -/
structure VkSubpassDescription where
  flags : Nat
  pipelineBindPoint : Nat
  inputAttachments : List VkAttachmentReference
  colorAttachments : List VkAttachmentReference
  resolveAttachments : Option (List VkAttachmentReference)
  depthStencilAttachment : Option VkAttachmentReference
  preserveAttachments : List Nat
  deriving DecidableEq, Repr

structure VkSubpassDependency where
  srcSubpass : Nat
  dstSubpass : Nat
  srcStageMask : Nat
  dstStageMask : Nat
  srcAccessMask : Nat
  dstAccessMask : Nat
  dependencyFlags : Nat
  deriving DecidableEq, Repr

structure VkRenderPassCreateInfo where
  flags : Nat
  attachments : List VkAttachmentDescription
  subpasses : List VkSubpassDescription
  dependencies : List VkSubpassDependency
  deriving DecidableEq, Repr

structure VkFramebufferCreateInfo where
  flags : Nat
  renderPass : Nat
  attachments : List Nat
  width : Nat
  height : Nat
  layers : Nat
  deriving DecidableEq, Repr

/-- The two device entry points `RenderPass::create` calls.  Each returns a `VkResult`
and the handle it wrote; `vkCreateFramebuffer` also receives the number of framebuffers
this call has created before. -/
structure Device where
  vkCreateRenderPass : VkRenderPassCreateInfo → Int × Nat
  vkCreateFramebuffer : Nat → VkFramebufferCreateInfo → Int × Nat

/-- A device on which every call succeeds; framebuffer handles are numbered from 100. -/
def Device.succeeding : Device where
  vkCreateRenderPass := fun _ => (VK_SUCCESS, 1)
  vkCreateFramebuffer := fun k _ => (VK_SUCCESS, 100 + k)

/-! ## `qz/gfx/render_pass.cpp` -/

def deduce_reference_layout (aspect : Nat) : Nat :=
  if aspect = VK_IMAGE_ASPECT_STENCIL_BIT ||| VK_IMAGE_ASPECT_DEPTH_BIT then
    VK_IMAGE_LAYOUT_DEPTH_STENCIL_ATTACHMENT_OPTIMAL
  else if aspect = VK_IMAGE_ASPECT_COLOR_BIT then
    VK_IMAGE_LAYOUT_COLOR_ATTACHMENT_OPTIMAL
  else if aspect = VK_IMAGE_ASPECT_DEPTH_BIT then
    VK_IMAGE_LAYOUT_DEPTH_ATTACHMENT_OPTIMAL
  else if aspect = VK_IMAGE_ASPECT_STENCIL_BIT then
    VK_IMAGE_LAYOUT_STENCIL_ATTACHMENT_OPTIMAL
  else
    VK_IMAGE_LAYOUT_UNDEFINED

/-- Body of the first loop of `RenderPass::create` (lines 29-51) for one attachment,
`index` being the value of the loop counter. -/
def compile_attachment (index : Nat) (each : Attachment.CreateInfo) : Attachment where
  image := each.image
  owning := each.owning
  framebuffer := each.framebuffer
  name := each.name
  clear := each.clear
  description := {
    flags := 0
    format := each.image.format
    samples := VK_SAMPLE_COUNT_1_BIT
    loadOp := if each.clear.type ≠ ClearValue.Kind.none then VK_ATTACHMENT_LOAD_OP_CLEAR
              else VK_ATTACHMENT_LOAD_OP_LOAD
    storeOp := if each.discard then VK_ATTACHMENT_STORE_OP_DONT_CARE
               else VK_ATTACHMENT_STORE_OP_STORE
    stencilLoadOp :=
      if each.image.aspect &&& VK_IMAGE_ASPECT_STENCIL_BIT ≠ 0
          ∧ each.clear.type = ClearValue.Kind.depth then
        VK_ATTACHMENT_LOAD_OP_CLEAR else VK_ATTACHMENT_LOAD_OP_DONT_CARE
    stencilStoreOp :=
      if each.image.aspect &&& VK_IMAGE_ASPECT_STENCIL_BIT ≠ 0 ∧ each.discard = true then
        VK_ATTACHMENT_STORE_OP_STORE else VK_ATTACHMENT_STORE_OP_DONT_CARE
    initialLayout := VK_IMAGE_LAYOUT_UNDEFINED
    finalLayout := each.layout }
  reference := {
    attachment := index
    layout := deduce_reference_layout each.image.aspect }

/-- The first loop of `RenderPass::create`: the attachments in input order, the
`std::uint32_t` counter `index` incremented after each. -/
def compile_attachments : Nat → List Attachment.CreateInfo → List Attachment
  | _, [] => []
  | index, each :: rest =>
    compile_attachment index each :: compile_attachments (u32 (index + 1)) rest

/-- The local `framebuffer_size` after the first loop: indeterminate (`none`) until an
iteration assigns it, and every iteration overwrites it. -/
def framebuffer_size_after : Option VkExtent2D → List Attachment → Option VkExtent2D
  | size, [] => size
  | _, attachment :: rest =>
    framebuffer_size_after (some ⟨attachment.image.width, attachment.image.height⟩) rest

/-- The scan of `RenderPass::attachment`; falling off the list is
`qz_force_assert`, an unconditional `std::abort`. -/
def attachment_scan : List Attachment → String → Except Fault Attachment
  | [], _ => .error .abort
  | attachment :: rest, name =>
    if attachment.name = name then .ok attachment else attachment_scan rest name

def RenderPass.attachment (render_pass : RenderPass) (name : String) : Except Fault Attachment :=
  attachment_scan render_pass._attachments name

/-- The local struct `SubpassStorage` of `RenderPass::create`. -/
structure SubpassStorage where
  depth_attachment : Option VkAttachmentReference
  color_attachments : List VkAttachmentReference
  input_attachments : List VkAttachmentReference
  preserve_attachments : List Nat
  deriving DecidableEq, Repr

def SubpassStorage.empty : SubpassStorage := ⟨none, [], [], []⟩

/-- Loop over `each.attachments` (lines 73-81). -/
def bind_attachments (render_pass : RenderPass) :
    List String → SubpassStorage → Except Fault SubpassStorage
  | [], storage => .ok storage
  | name :: rest, storage => do
    let attachment ← render_pass.attachment name
    if attachment.image.aspect &&&
        (VK_IMAGE_ASPECT_STENCIL_BIT ||| VK_IMAGE_ASPECT_DEPTH_BIT) ≠ 0 then
      bind_attachments render_pass rest
        { storage with depth_attachment := some attachment.reference }
    else
      bind_attachments render_pass rest
        { storage with color_attachments := storage.color_attachments ++ [attachment.reference] }

/-- Loop over `each.input` (lines 83-85). -/
def bind_input (render_pass : RenderPass) :
    List String → SubpassStorage → Except Fault SubpassStorage
  | [], storage => .ok storage
  | name :: rest, storage => do
    let attachment ← render_pass.attachment name
    bind_input render_pass rest
      { storage with input_attachments := storage.input_attachments ++ [attachment.reference] }

/-- Loop over `each.preserve` (lines 87-89). -/
def bind_preserve (render_pass : RenderPass) :
    List String → SubpassStorage → Except Fault SubpassStorage
  | [], storage => .ok storage
  | name :: rest, storage => do
    let attachment ← render_pass.attachment name
    bind_preserve render_pass rest
      { storage with
        preserve_attachments := storage.preserve_attachments ++ [attachment.reference.attachment] }

/-- One iteration of the subpass loop up to line 89: the filled `SubpassStorage`. -/
def compile_subpass_storage (render_pass : RenderPass) (each : SubpassInfo) :
    Except Fault SubpassStorage := do
  let storage ← bind_attachments render_pass each.attachments SubpassStorage.empty
  let storage ← bind_input render_pass each.input storage
  bind_preserve render_pass each.preserve storage

/-- Lines 91-101: the `VkSubpassDescription` pointing into a `SubpassStorage`. -/
def subpass_description (storage : SubpassStorage) : VkSubpassDescription where
  flags := 0
  pipelineBindPoint := VK_PIPELINE_BIND_POINT_GRAPHICS
  inputAttachments := storage.input_attachments
  colorAttachments := storage.color_attachments
  resolveAttachments := none
  depthStencilAttachment := storage.depth_attachment
  preserveAttachments := storage.preserve_attachments

/-- The subpass loop (lines 70-103). -/
def compile_subpasses (render_pass : RenderPass) :
    List SubpassInfo → Except Fault (List VkSubpassDescription)
  | [] => .ok []
  | each :: rest => do
    let storage ← compile_subpass_storage render_pass each
    let subpasses ← compile_subpasses render_pass rest
    pure (subpass_description storage :: subpasses)

/-- Body of the dependency loop (lines 108-115). -/
def compile_dependency (each : SubpassDependency) : VkSubpassDependency where
  srcSubpass := each.source_subpass
  dstSubpass := each.dest_subpass
  srcStageMask := each.source_stage
  dstStageMask := each.dest_stage
  srcAccessMask := each.source_access
  dstAccessMask := each.dest_access
  dependencyFlags := 0

/-- The call `std::vector::resize(n)` on a vector of vectors. -/
def resize (views : List (List Nat)) (n : Nat) : List (List Nat) :=
  views.take n ++ List.replicate (n - views.length) []

/-- One iteration of the grouping loop (lines 133-136).  `operator[]` with an index
that is not below `size()` is undefined. -/
def group_view (attachment_views : List (List Nat)) (each : Attachment) :
    Except Fault (List (List Nat)) :=
  let attachment_views :=
    if attachment_views.length < each.framebuffer then resize attachment_views each.framebuffer
    else attachment_views
  if each.framebuffer < attachment_views.length then
    .ok (attachment_views.set each.framebuffer
      ((attachment_views.getD each.framebuffer []) ++ [each.image.view]))
  else
    .error .undefined

/-- The grouping loop (lines 131-137), started on a vector of one empty group. -/
def group_views : List (List Nat) → List Attachment → Except Fault (List (List Nat))
  | attachment_views, [] => .ok attachment_views
  | attachment_views, each :: rest => do
    let attachment_views ← group_view attachment_views each
    group_views attachment_views rest

/-- The framebuffer loop (lines 140-151): `created` are the handles already
emplaced in `_framebuffers`, `infos` the create-infos already handed to the device. -/
def create_framebuffers (debug : Bool) (device : Device) (handle : Nat)
    (framebuffer_size : Option VkExtent2D) :
    List (List Nat) → List Nat → List VkFramebufferCreateInfo →
      Except Fault (List Nat × List VkFramebufferCreateInfo)
  | [], created, infos => .ok (created, infos)
  | each :: rest, created, infos =>
    match framebuffer_size with
    | none => .error .undefined
    | some size => do
      let framebuffer_create_info : VkFramebufferCreateInfo :=
        { flags := 0, renderPass := handle, attachments := each,
          width := size.width, height := size.height, layers := 1 }
      let result := device.vkCreateFramebuffer created.length framebuffer_create_info
      qz_vulkan_check debug result.1
      create_framebuffers debug device handle framebuffer_size rest
        (created ++ [result.2]) (infos ++ [framebuffer_create_info])

/-- What `RenderPass::create` returns, together with the create-infos it handed to
the device on the way. -/
structure Compiled where
  render_pass : RenderPass
  render_pass_create_info : VkRenderPassCreateInfo
  framebuffer_create_infos : List VkFramebufferCreateInfo
  deriving DecidableEq, Repr

/-- The function `RenderPass::create`. -/
def RenderPass.create (debug : Bool) (device : Device) (info : RenderPass.CreateInfo) :
    Except Fault Compiled := do
  let _attachments := compile_attachments 0 info.attachments
  let framebuffer_size := framebuffer_size_after none _attachments
  let attachments := _attachments.map (·.description)
  let render_pass : RenderPass := { _handle := 0, _attachments := _attachments, _framebuffers := [] }
  let subpasses ← compile_subpasses render_pass info.subpasses
  let dependencies := info.dependencies.map compile_dependency
  let render_pass_create_info : VkRenderPassCreateInfo :=
    { flags := 0, attachments := attachments, subpasses := subpasses,
      dependencies := dependencies }
  let result := device.vkCreateRenderPass render_pass_create_info
  qz_vulkan_check debug result.1
  let attachment_views ← group_views [[]] _attachments
  let (framebuffers, infos) ←
    create_framebuffers debug device result.2 framebuffer_size attachment_views [] []
  pure {
    render_pass := { _handle := result.2, _attachments := _attachments, _framebuffers := framebuffers }
    render_pass_create_info := render_pass_create_info
    framebuffer_create_infos := infos }

def RenderPass.clears (render_pass : RenderPass) : List VkClearValue :=
  render_pass._attachments.map (·.clear.value)

/-- The function `RenderPass::extent`: `_attachments[0]` of an empty vector is undefined. -/
def RenderPass.extent (render_pass : RenderPass) : Except Fault VkExtent2D :=
  match render_pass._attachments with
  | [] => .error .undefined
  | attachment :: _ => .ok ⟨attachment.image.width, attachment.image.height⟩

/-! ## `qz/meta/types.hpp` and the renderer structures of `qz/gfx/renderer.hpp` -/

end gfx

namespace meta

/-- The alias `in_flight_array<T>`, a `std::array<T, in_flight>` with `in_flight = 2`. -/
structure in_flight_array (α : Type) where
  e0 : α
  e1 : α
  deriving DecidableEq, Repr

/-- Unchecked `operator[]` of `std::array`: an index past the end is undefined. -/
def in_flight_array.get {α : Type} (a : in_flight_array α) (i : Nat) : Except Fault α :=
  if i = 0 then .ok a.e0 else if i = 1 then .ok a.e1 else .error .undefined

/-- The struct `Handle<T>`. -/
structure Handle where
  index : Nat
  deriving DecidableEq, Repr

end meta

namespace gfx

def UINT64_MAX : Nat := 2 ^ 64 - 1
def VK_PIPELINE_STAGE_COLOR_ATTACHMENT_OUTPUT_BIT : Nat := 0x400

/-- The fields of `Context` the renderer uses. -/
structure Context where
  device : Nat
  graphics : Nat
  transfer : Nat
  main_pool : Nat
  deriving DecidableEq, Repr

structure CommandBuffer where
  _active_pass : Option Nat
  _handle : Nat
  _pool : Nat
  deriving DecidableEq, Repr

def CommandBuffer.from_raw (command_pool handle : Nat) : CommandBuffer :=
  { _active_pass := none, _handle := handle, _pool := command_pool }

structure Swapchain where
  surface : Nat
  handle : Nat
  extent : VkExtent2D
  format : Nat
  images : List Image
  deriving DecidableEq, Repr

/-- The struct `FrameInfo`; the pointer `image` is the position of the pointed-to element
in `swapchain.images`. -/
structure FrameInfo where
  index : Nat
  image_idx : Nat
  img_ready : Nat
  gfx_done : Nat
  cmd_wait : Nat
  image : Nat
  deriving DecidableEq, Repr

structure Renderer where
  swapchain : Swapchain
  image_idx : Nat
  frame_idx : Nat
  gfx_cmds : meta.in_flight_array CommandBuffer
  img_ready : meta.in_flight_array Nat
  gfx_done : meta.in_flight_array Nat
  cmd_wait : meta.in_flight_array Nat
  deriving DecidableEq, Repr

structure VkSubmitInfo where
  waitSemaphores : List Nat
  waitDstStageMask : List Nat
  commandBuffers : List Nat
  signalSemaphores : List Nat
  deriving DecidableEq, Repr

structure VkPresentInfoKHR where
  waitSemaphores : List Nat
  swapchains : List Nat
  imageIndices : List Nat
  deriving DecidableEq, Repr

/-- The device entry points called by `acquire_next_frame` and `present_frame`, with
the arguments they are called with. -/
inductive DeviceCall where
  | vkAcquireNextImageKHR (device swapchain timeout semaphore fence : Nat)
  | vkWaitForFences (device : Nat) (fences : List Nat) (waitAll : Bool) (timeout : Nat)
  | vkResetFences (device : Nat) (fences : List Nat)
  | vkQueueSubmit (queue : Nat) (submit : VkSubmitInfo) (fence : Nat)
  | vkQueuePresentKHR (queue : Nat) (present : VkPresentInfoKHR)
  deriving DecidableEq, Repr

/-- What the device hands back to `Renderer::create`: the result of
`vkAllocateCommandBuffers` with the two command buffers, and per slot the result and
handle of the two `vkCreateSemaphore` calls and of `vkCreateFence`. -/
structure CreateResponse where
  allocate_result : Int
  command_buffers : meta.in_flight_array Nat
  img_ready : meta.in_flight_array (Int × Nat)
  gfx_done : meta.in_flight_array (Int × Nat)
  cmd_wait : meta.in_flight_array (Int × Nat)

/-- What the device hands back to one `acquire_next_frame`: the result of
`vkAcquireNextImageKHR`, the value of `renderer.image_idx` after that call, and the
result of `vkWaitForFences`. -/
structure AcquireResponse where
  acquire_result : Int
  image_idx : Nat
  wait_result : Int
  deriving DecidableEq, Repr

/-- What the device hands back to one `present_frame`: the results of `vkResetFences`,
`vkQueueSubmit` and `vkQueuePresentKHR`, and the value written to `present_result`. -/
structure PresentResponse where
  reset_result : Int
  submit_result : Int
  queue_present_result : Int
  present_result : Int
  deriving DecidableEq, Repr

/-! ## `qz/gfx/renderer.cpp` -/

/-- The function `Renderer::create`, given the swapchain `Swapchain::create` returned:
`Renderer renderer{}` zeroes both indices. -/
def Renderer.create (debug : Bool) (context : Context) (swapchain : Swapchain)
    (response : CreateResponse) : Except Fault Renderer := do
  qz_vulkan_check debug response.allocate_result
  qz_vulkan_check debug response.img_ready.e0.1
  qz_vulkan_check debug response.gfx_done.e0.1
  qz_vulkan_check debug response.cmd_wait.e0.1
  qz_vulkan_check debug response.img_ready.e1.1
  qz_vulkan_check debug response.gfx_done.e1.1
  qz_vulkan_check debug response.cmd_wait.e1.1
  pure {
    swapchain := swapchain
    image_idx := 0
    frame_idx := 0
    gfx_cmds := ⟨CommandBuffer.from_raw context.main_pool response.command_buffers.e0,
                 CommandBuffer.from_raw context.main_pool response.command_buffers.e1⟩
    img_ready := ⟨response.img_ready.e0.2, response.img_ready.e1.2⟩
    gfx_done := ⟨response.gfx_done.e0.2, response.gfx_done.e1.2⟩
    cmd_wait := ⟨response.cmd_wait.e0.2, response.cmd_wait.e1.2⟩ }

/-- The function `acquire_next_frame`: the renderer afterwards, the returned pair, and
the device calls in the order they were issued. -/
def acquire_next_frame (debug : Bool) (renderer : Renderer) (context : Context)
    (response : AcquireResponse) :
    Except Fault (Renderer × (CommandBuffer × FrameInfo) × List DeviceCall) := do
  let semaphore ← renderer.img_ready.get renderer.frame_idx
  let acquire := DeviceCall.vkAcquireNextImageKHR context.device renderer.swapchain.handle
    UINT64_MAX semaphore 0
  qz_vulkan_check debug response.acquire_result
  let renderer := { renderer with image_idx := response.image_idx }
  let fence ← renderer.cmd_wait.get renderer.frame_idx
  let wait := DeviceCall.vkWaitForFences context.device [fence] true UINT64_MAX
  qz_vulkan_check debug response.wait_result
  let command_buffer ← renderer.gfx_cmds.get renderer.frame_idx
  let img_ready ← renderer.img_ready.get renderer.frame_idx
  let gfx_done ← renderer.gfx_done.get renderer.frame_idx
  let cmd_wait ← renderer.cmd_wait.get renderer.frame_idx
  if renderer.image_idx < renderer.swapchain.images.length then
    pure (renderer,
      (command_buffer,
        { index := renderer.frame_idx, image_idx := renderer.image_idx, img_ready := img_ready,
          gfx_done := gfx_done, cmd_wait := cmd_wait, image := renderer.image_idx }),
      [acquire, wait])
  else
    .error .undefined

/-- The function `present_frame`: the renderer afterwards and the device calls in the
order they were issued. -/
def present_frame (debug : Bool) (renderer : Renderer) (context : Context)
    (command_buffer : CommandBuffer) (frame : FrameInfo) (response : PresentResponse) :
    Except Fault (Renderer × List DeviceCall) := do
  let wait_mask := VK_PIPELINE_STAGE_COLOR_ATTACHMENT_OUTPUT_BIT
  let submit_info : VkSubmitInfo :=
    { waitDstStageMask := [wait_mask], waitSemaphores := [frame.img_ready],
      commandBuffers := [command_buffer._handle], signalSemaphores := [frame.gfx_done] }
  let reset := DeviceCall.vkResetFences context.device [frame.cmd_wait]
  qz_vulkan_check debug response.reset_result
  let submit := DeviceCall.vkQueueSubmit context.graphics submit_info frame.cmd_wait
  qz_vulkan_check debug response.submit_result
  let present_info : VkPresentInfoKHR :=
    { waitSemaphores := [frame.gfx_done], swapchains := [renderer.swapchain.handle],
      imageIndices := [frame.image_idx] }
  let present := DeviceCall.vkQueuePresentKHR context.graphics present_info
  qz_vulkan_check debug response.queue_present_result
  qz_vulkan_check debug response.present_result
  pure ({ renderer with frame_idx := u32 (renderer.frame_idx + 1) % meta.in_flight },
    [reset, submit, present])

/-- One call made by the frame loop on the renderer. -/
inductive FrameCall where
  | acquire (response : AcquireResponse)
  | present (command_buffer : CommandBuffer) (frame : FrameInfo) (response : PresentResponse)
  deriving DecidableEq, Repr

/-- A sequence of `acquire_next_frame` and `present_frame` calls on one renderer. -/
def run_frames (debug : Bool) (context : Context) : Renderer → List FrameCall → Except Fault Renderer
  | renderer, [] => .ok renderer
  | renderer, .acquire response :: rest => do
    let result ← acquire_next_frame debug renderer context response
    run_frames debug context result.1 rest
  | renderer, .present command_buffer frame response :: rest => do
    let result ← present_frame debug renderer context command_buffer frame response
    run_frames debug context result.1 rest

/-- Number of `present_frame` calls in a sequence. -/
def count_presents : List FrameCall → Nat
  | [] => 0
  | .acquire _ :: rest => count_presents rest
  | .present _ _ _ :: rest => count_presents rest + 1

/-- A call whose device responses do not stop the program: with `QUARTZ_DEBUG` every
result is `VK_SUCCESS`, and an acquired image index lies within the `images` of the
swapchain. -/
def FrameCall.accepted (debug : Bool) (image_count : Nat) : FrameCall → Prop
  | .acquire response =>
    (debug = false ∨ (response.acquire_result = VK_SUCCESS ∧ response.wait_result = VK_SUCCESS))
      ∧ response.image_idx < image_count
  | .present _ _ response =>
    debug = false ∨ (response.reset_result = VK_SUCCESS ∧ response.submit_result = VK_SUCCESS
      ∧ response.queue_present_result = VK_SUCCESS ∧ response.present_result = VK_SUCCESS)

/-! ## `qz/gfx/buffer.hpp`, `qz/gfx/static_mesh.hpp` -/

structure Buffer where
  allocation : Nat
  capacity : Nat
  handle : Nat
  mapped : Nat
  deriving DecidableEq, Repr

structure StaticMesh.CreateInfo where
  geometry : List Nat
  indices : List Nat
  deriving DecidableEq, Repr

structure StaticMesh where
  geometry : Buffer
  indices : Buffer
  deriving DecidableEq, Repr

/-- A value-initialised `StaticMesh`: every member zero. -/
def StaticMesh.empty : StaticMesh := ⟨⟨0, 0, 0, 0⟩, ⟨0, 0, 0, 0⟩⟩

end gfx

/-! ## `qz/gfx/assets.cpp` -/

namespace assets

structure InternalStorage where
  object : gfx.StaticMesh
  done : Bool
  deriving DecidableEq, Repr

/-- The variable `assets<gfx::StaticMesh>`; the mutex `done_mutex` is held for the body
of each function below, and released when the function returns. -/
abbrev Registry := List InternalStorage

def emplace_empty (assets : Registry) : Registry × meta.Handle :=
  let assets := assets ++ [{ object := gfx.StaticMesh.empty, done := false }]
  (assets, { index := assets.length - 1 })

/-- The range assertion shared by `from_handle`, `finalize` and `is_ready`, followed by
the unchecked `operator[]`. -/
def checked_index (debug : Bool) (assets : Registry) (handle : meta.Handle) :
    Except Fault InternalStorage := do
  qz_assert debug (decide (0 ≤ handle.index) && decide (handle.index < assets.length))
  match assets[handle.index]? with
  | some record => .ok record
  | none => .error .undefined

/-- The payload seen through the reference `from_handle` returns, at the moment it
returns. -/
def from_handle (debug : Bool) (assets : Registry) (handle : meta.Handle) :
    Except Fault gfx.StaticMesh := do
  let record ← checked_index debug assets handle
  pure record.object

def finalize (debug : Bool) (assets : Registry) (handle : meta.Handle) :
    Except Fault Registry := do
  let record ← checked_index debug assets handle
  pure (assets.set handle.index { record with done := true })

def is_ready (debug : Bool) (assets : Registry) (handle : meta.Handle) :
    Except Fault Bool := do
  let record ← checked_index debug assets handle
  pure record.done

end assets

namespace gfx

/-! ## `qz/gfx/static_mesh.cpp` -/

/-- The struct `TaskData` without its context pointer. -/
structure TaskData where
  handle : meta.Handle
  vertices : List Nat
  indices : List Nat
  deriving DecidableEq, Repr

/-! ## Auxiliary notions for stating properties of the subpass loop -/

/-- The attachments a list of names resolves to through `RenderPass::attachment`, in
the order of the names; the first failing lookup aborts. -/
def resolve_all (render_pass : RenderPass) : List String → Except Fault (List Attachment)
  | [] => .ok []
  | name :: rest => do
    let attachment ← render_pass.attachment name
    let attachments ← resolve_all render_pass rest
    pure (attachment :: attachments)

/-- The test of line 76: the aspect includes the depth or the stencil bit. -/
def Attachment.depth_or_stencil (attachment : Attachment) : Bool :=
  decide (attachment.image.aspect &&&
    (VK_IMAGE_ASPECT_STENCIL_BIT ||| VK_IMAGE_ASPECT_DEPTH_BIT) ≠ 0)

/-- All names a subpass lists. -/
def SubpassInfo.names (each : SubpassInfo) : List String :=
  each.attachments ++ each.input ++ each.preserve

/-- A device whose answers do not stop `RenderPass::create`: with `QUARTZ_DEBUG` every
result it returns is `VK_SUCCESS`. -/
def Device.accepted (debug : Bool) (device : Device) : Prop :=
  debug = false
    ∨ ((∀ info, (device.vkCreateRenderPass info).1 = VK_SUCCESS)
      ∧ ∀ created info, (device.vkCreateFramebuffer created info).1 = VK_SUCCESS)

/-! ## Timing of device calls, for stating blocking behaviour -/

/-- The tick at which a sequence of device calls, issued one after the other from tick
`now` on, has returned: `returns call tick` is the tick at which the device returns from
`call` when it is called at `tick`, and `none` when it never returns. -/
def returns_at (returns : DeviceCall → Nat → Option Nat) : List DeviceCall → Nat → Option Nat
  | [], now => some now
  | call :: rest, now =>
    match returns call now with
    | none => none
    | some later => returns_at returns rest later

/-! ## A fake device for the buffers of the streaming job -/

structure Buffer.CreateInfo where
  flags : Nat
  usage : Nat
  capacity : Nat
  deriving DecidableEq, Repr

def VK_BUFFER_USAGE_TRANSFER_SRC_BIT : Nat := 0x1
def VK_BUFFER_USAGE_TRANSFER_DST_BIT : Nat := 0x2
def VK_BUFFER_USAGE_INDEX_BUFFER_BIT : Nat := 0x40
def VK_BUFFER_USAGE_VERTEX_BUFFER_BIT : Nat := 0x80
def VMA_MEMORY_USAGE_GPU_ONLY : Nat := 1
def VMA_MEMORY_USAGE_CPU_ONLY : Nat := 2

/-- The device objects created by the streaming subsystem that are alive, and the bytes
each live buffer holds.  Handles are handed out in increasing order; every call on this
device succeeds, and a mapped pointer is the handle of its buffer. -/
structure DeviceState where
  next : Nat
  buffers : List (Nat × List Nat)
  command_buffers : List Nat
  fences : List Nat
  deriving DecidableEq, Repr

def DeviceState.contents (device : DeviceState) (handle : Nat) : List Nat :=
  (device.buffers.lookup handle).getD []

def DeviceState.store (device : DeviceState) (handle : Nat) (bytes : List Nat) : DeviceState :=
  { device with
    buffers := device.buffers.map (fun entry => if entry.1 = handle then (handle, bytes) else entry) }

/-- The function `Buffer::create` on the fake device: a fresh buffer of `info.capacity`
bytes. -/
def Buffer.create (device : DeviceState) (info : Buffer.CreateInfo) : Buffer × DeviceState :=
  ({ allocation := device.next, capacity := info.capacity, handle := device.next,
     mapped := device.next },
    { device with
      next := device.next + 1
      buffers := device.buffers ++ [(device.next, List.replicate info.capacity 0)] })

/-- The function `Buffer::destroy`, up to the reset of the caller's `Buffer` object. -/
def Buffer.destroy (device : DeviceState) (buffer : Buffer) : DeviceState :=
  { device with buffers := device.buffers.filter (fun entry => entry.1 ≠ buffer.handle) }

/-- The call `std::memcpy(mapped, source, count)` into a mapped buffer. -/
def memcpy (device : DeviceState) (mapped : Nat) (source : List Nat) (count : Nat) :
    DeviceState :=
  device.store mapped (source.take count ++ (device.contents mapped).drop count)

/-- The function `CommandBuffer::allocate` on the fake device. -/
def CommandBuffer.allocate (device : DeviceState) (command_pool : Nat) :
    CommandBuffer × DeviceState :=
  (CommandBuffer.from_raw command_pool device.next,
    { device with next := device.next + 1
                  command_buffers := device.command_buffers ++ [device.next] })

/-- The function `CommandBuffer::destroy`, up to the reset of the caller's object. -/
def CommandBuffer.destroy (device : DeviceState) (command_buffer : CommandBuffer) :
    DeviceState :=
  { device with
    command_buffers := device.command_buffers.filter (fun h => h ≠ command_buffer._handle) }

/-- A recorded `vkCmdCopyBuffer` with its single region. -/
structure CopyCommand where
  source : Nat
  dest : Nat
  srcOffset : Nat
  dstOffset : Nat
  size : Nat
  deriving DecidableEq, Repr

/-- What `CommandBuffer::copy_buffer` records. -/
def CommandBuffer.copy_buffer (source dest : Buffer) : CopyCommand :=
  { source := source.handle, dest := dest.handle, srcOffset := 0, dstOffset := 0,
    size := source.capacity }

/-- Execution of one recorded copy by the fake device. -/
def DeviceState.execute (device : DeviceState) (command : CopyCommand) : DeviceState :=
  device.store command.dest
    ((device.contents command.dest).take command.dstOffset
      ++ ((device.contents command.source).drop command.srcOffset).take command.size
      ++ (device.contents command.dest).drop (command.dstOffset + command.size))

/-- The four bytes of a 32-bit pattern, lowest first. -/
def word_bytes (word : Nat) : List Nat :=
  [word % 256, word / 256 % 256, word / 65536 % 256, word / 16777216 % 256]

/-- The bytes of a `std::vector` of `float` or `std::uint32_t`, given as 32-bit patterns. -/
def payload_bytes (words : List Nat) : List Nat :=
  words.flatMap word_bytes

/-- Wrap-around of a `std::size_t`. -/
def usize (n : Nat) : Nat := n % 2 ^ 64

end gfx

namespace assets

/-! ## The vector `assets<StaticMesh>` with its storage, and references into it -/

/-- The vector behind the registry: `block` names the array that currently holds the
records and changes whenever the vector reallocates. -/
structure Table where
  block : Nat
  capacity : Nat
  records : Registry
  deriving DecidableEq, Repr

/-- A reference to the payload of a record: the array it points into and the position. -/
structure Reference where
  block : Nat
  index : Nat
  deriving DecidableEq, Repr

/-- The function `emplace_empty` on the vector with its storage: `emplace_back`
reallocates when the vector is full, to the capacity `growth` gives (the growth of
`std::vector` is left to the implementation). -/
def Table.emplace_empty (growth : Nat → Nat) (table : Table) : Table × meta.Handle :=
  let result := qz.assets.emplace_empty table.records
  if table.records.length < table.capacity then
    ({ table with records := result.1 }, result.2)
  else
    ({ block := table.block + 1, capacity := growth table.capacity, records := result.1 },
      result.2)

/-- The call `from_handle(handle)`: the reference it returns after releasing the lock. -/
def Table.from_handle (debug : Bool) (table : Table) (handle : meta.Handle) :
    Except Fault Reference := do
  let _ ← checked_index debug table.records handle
  pure { block := table.block, index := handle.index }

/-- An assignment through a reference obtained earlier: a reference into an array the
vector has left behind dangles, and writing through it is undefined. -/
def Table.assign (table : Table) (reference : Reference) (object : gfx.StaticMesh) :
    Except Fault Table :=
  if reference.block = table.block then
    match table.records[reference.index]? with
    | some record =>
      .ok { table with records := table.records.set reference.index { record with object := object } }
    | none => .error .undefined
  else
    .error .undefined

def Table.finalize (debug : Bool) (table : Table) (handle : meta.Handle) :
    Except Fault Table := do
  let records ← qz.assets.finalize debug table.records handle
  pure { table with records := records }

/-- The capacity growth of libstdc++ and libc++: doubling, from 0 to 1. -/
def doubling (capacity : Nat) : Nat := max 1 (2 * capacity)

/-! ## Sequences of steps on the registry -/

/-- One step a thread takes on the registry: a call of one of the four functions of
`assets.cpp`, or the assignment of a payload through a reference that `from_handle` has
returned, as on line 88 of `static_mesh.cpp`.  The assignment is a step of its own: the
lock is released when `from_handle` returns, and other steps can be taken before the
assignment is made. -/
inductive Call where
  | emplace_empty
  | from_handle (handle : meta.Handle)
  | assign (reference : Reference) (object : gfx.StaticMesh)
  | finalize (handle : meta.Handle)
  | is_ready (handle : meta.Handle)
  deriving DecidableEq, Repr

/-- What a step hands back to the thread that took it. -/
inductive Returned where
  | handle (handle : meta.Handle)
  | reference (reference : Reference)
  | ready (done : Bool)
  | nothing
  deriving DecidableEq, Repr

def Returned.handle? : Returned → Option meta.Handle
  | .handle issued => some issued
  | _ => none

/-- The handles a sequence of steps has issued, in the order of the `emplace_empty`
calls. -/
def issued (returned : List Returned) : List meta.Handle :=
  returned.filterMap Returned.handle?

/-- The table after one step, and what the step hands back. -/
def Call.apply (debug : Bool) (growth : Nat → Nat) (table : Table) :
    Call → Except Fault (Table × Returned)
  | .emplace_empty =>
    let result := table.emplace_empty growth
    .ok (result.1, .handle result.2)
  | .from_handle handle => do
    let reference ← table.from_handle debug handle
    pure (table, .reference reference)
  | .assign reference object => do
    let table ← table.assign reference object
    pure (table, .nothing)
  | .finalize handle => do
    let table ← table.finalize debug handle
    pure (table, .nothing)
  | .is_ready handle => do
    let done ← qz.assets.is_ready debug table.records handle
    pure (table, .ready done)

/-- A sequence of steps, taken one after the other by whichever threads: the final table
and what each step handed back. -/
def Table.run (debug : Bool) (growth : Nat → Nat) :
    Table → List Call → Except Fault (Table × List Returned)
  | table, [] => .ok (table, [])
  | table, call :: rest => do
    let step ← call.apply debug growth table
    let result ← Table.run debug growth step.1 rest
    pure (result.1, step.2 :: result.2)

/-- The condition of one step on a vector of `size` records held in the array `block`:
a call takes a handle issued before it, and an assignment goes through a reference to a
record of the array that holds the records when the assignment is made. -/
def Call.permitted (block size : Nat) : Call → Bool
  | .emplace_empty => true
  | .from_handle handle => decide (handle.index < size)
  | .assign reference _ => decide (reference.block = block) && decide (reference.index < size)
  | .finalize handle => decide (handle.index < size)
  | .is_ready handle => decide (handle.index < size)

/-- The condition `Call.permitted` on every step of a sequence that starts on a vector of
`size` records and capacity `capacity` held in the array `block`; an `emplace_empty` on a
full vector moves the records to a new array. -/
def permitted (growth : Nat → Nat) : Nat → Nat → Nat → List Call → Bool
  | _, _, _, [] => true
  | block, capacity, size, call :: rest =>
    call.permitted block size &&
      match call with
      | .emplace_empty =>
        if size < capacity then permitted growth block capacity (size + 1) rest
        else permitted growth (block + 1) (growth capacity) (size + 1) rest
      | _ => permitted growth block capacity size rest

end assets

namespace gfx

/-! ## The job of `request_static_mesh`, step by step -/

/-- How far a job has run: `recorded` after line 79, `transferred` after the block of
lines 81-87, `referenced` after the call `from_handle` of line 88 has returned,
`assigned` after the assignment of lines 88-91, `finalized` after line 92 and `released`
after line 96. -/
inductive Stage where
  | queued
  | recorded
  | transferred
  | referenced
  | assigned
  | finalized
  | released
  deriving DecidableEq, Repr

/-- A task handed to the scheduler together with the locals of its function. -/
structure Job where
  data : TaskData
  stage : Stage
  command_buffer : CommandBuffer
  commands : List CopyCommand
  vertex_staging : Buffer
  index_staging : Buffer
  geometry : Buffer
  indices : Buffer
  done : Nat
  reference : qz.assets.Reference
  deriving DecidableEq, Repr

def Job.queued (data : TaskData) : Job :=
  { data := data, stage := .queued, command_buffer := ⟨none, 0, 0⟩, commands := [],
    vertex_staging := ⟨0, 0, 0, 0⟩, index_staging := ⟨0, 0, 0, 0⟩, geometry := ⟨0, 0, 0, 0⟩,
    indices := ⟨0, 0, 0, 0⟩, done := 0, reference := ⟨0, 0⟩ }

/-- The registry, the device, the command pools of the workers and the tasks handed to
the scheduler. -/
structure World where
  assets : qz.assets.Table
  device : DeviceState
  command_pools : List Nat
  tasks : List Job
  deriving DecidableEq, Repr

/-- The function `request_static_mesh` as run by the calling thread: the handle it
returns and the world with the new pending slot and the new task. -/
def World.request_static_mesh (growth : Nat → Nat) (world : World)
    (info : StaticMesh.CreateInfo) : World × meta.Handle :=
  let result := world.assets.emplace_empty growth
  let task_data : TaskData :=
    { handle := result.2, vertices := info.geometry, indices := info.indices }
  ({ world with assets := result.1, tasks := world.tasks ++ [Job.queued task_data] }, result.2)

/-- Lines 31-79 of the task function, run on the worker `thread_index`. -/
def Job.record (world : World) (job : Job) (thread_index : Nat) : Except Fault (World × Job) :=
  match world.command_pools[thread_index]? with
  | none => .error .undefined
  | some command_pool =>
    let (command_buffer, device) := CommandBuffer.allocate world.device command_pool
    let (vertex_staging, device) := Buffer.create device
      { flags := VK_BUFFER_USAGE_TRANSFER_SRC_BIT, usage := VMA_MEMORY_USAGE_CPU_ONLY,
        capacity := usize (job.data.vertices.length * 4) }
    let device := memcpy device vertex_staging.mapped (payload_bytes job.data.vertices)
      vertex_staging.capacity
    let (index_staging, device) := Buffer.create device
      { flags := VK_BUFFER_USAGE_TRANSFER_SRC_BIT, usage := VMA_MEMORY_USAGE_CPU_ONLY,
        capacity := usize (job.data.indices.length * 4) }
    let device := memcpy device index_staging.mapped (payload_bytes job.data.indices)
      index_staging.capacity
    let (geometry, device) := Buffer.create device
      { flags := VK_BUFFER_USAGE_VERTEX_BUFFER_BIT ||| VK_BUFFER_USAGE_TRANSFER_DST_BIT,
        usage := VMA_MEMORY_USAGE_GPU_ONLY, capacity := vertex_staging.capacity }
    let (indices, device) := Buffer.create device
      { flags := VK_BUFFER_USAGE_INDEX_BUFFER_BIT ||| VK_BUFFER_USAGE_TRANSFER_DST_BIT,
        usage := VMA_MEMORY_USAGE_GPU_ONLY, capacity := index_staging.capacity }
    let commands :=
      [CommandBuffer.copy_buffer vertex_staging geometry,
        CommandBuffer.copy_buffer index_staging indices]
    let done := device.next
    let device := { device with next := device.next + 1, fences := device.fences ++ [done] }
    .ok ({ world with device := device },
      { job with stage := .recorded, command_buffer := command_buffer, commands := commands,
                 vertex_staging := vertex_staging, index_staging := index_staging,
                 geometry := geometry, indices := indices, done := done })

/-- Lines 81-87, run while holding the transfer mutex: the submit, whose copies the
device has executed when the fence signals, and the destruction of the fence. -/
def Job.transfer (world : World) (job : Job) : World × Job :=
  let device := job.commands.foldl DeviceState.execute world.device
  let device := { device with fences := device.fences.filter (fun fence => fence ≠ job.done) }
  ({ world with device := device }, { job with stage := .transferred })

/-- Lines 93-96: the staging buffers and the command buffer are released. -/
def Job.release (world : World) (job : Job) : World × Job :=
  let device := Buffer.destroy world.device job.vertex_staging
  let device := Buffer.destroy device job.index_staging
  let device := CommandBuffer.destroy device job.command_buffer
  ({ world with device := device }, { job with stage := .released })

/-- The next step of a job, run on the worker `thread_index`. -/
def Job.step (debug : Bool) (world : World) (job : Job) (thread_index : Nat) :
    Except Fault (World × Job) :=
  match job.stage with
  | .queued => job.record world thread_index
  | .recorded => .ok (job.transfer world)
  | .transferred => do
    let reference ← world.assets.from_handle debug job.data.handle
    pure (world, { job with stage := .referenced, reference := reference })
  | .referenced => do
    let assets ← world.assets.assign job.reference { geometry := job.geometry, indices := job.indices }
    pure ({ world with assets := assets }, { job with stage := .assigned })
  | .assigned => do
    let assets ← world.assets.finalize debug job.data.handle
    pure ({ world with assets := assets }, { job with stage := .finalized })
  | .finalized => .ok (job.release world)
  | .released => .ok (world, job)

/-- One step of the program: the main thread requests a mesh, or a worker runs the next
step of a task. -/
inductive Step where
  | request (info : StaticMesh.CreateInfo)
  | advance (task : Nat) (thread_index : Nat)
  deriving DecidableEq, Repr

def World.step (debug : Bool) (growth : Nat → Nat) (world : World) :
    Step → Except Fault (World × Option meta.Handle)
  | .request info =>
    let result := world.request_static_mesh growth info
    .ok (result.1, some result.2)
  | .advance task thread_index =>
    match world.tasks[task]? with
    | none => .ok (world, none)
    | some job => do
      let result ← job.step debug world thread_index
      pure ({ result.1 with tasks := result.1.tasks.set task result.2 }, none)

/-- A schedule: steps of the main thread and of the workers in the order they happen. The
result is the final world and the handles returned by the requests, in order. -/
def World.run (debug : Bool) (growth : Nat → Nat) :
    World → List Step → Except Fault (World × List meta.Handle)
  | world, [] => .ok (world, [])
  | world, step :: rest => do
    let next ← world.step debug growth step
    let result ← World.run debug growth next.1 rest
    pure (result.1, next.2.toList ++ result.2)

/-- The world at program start, with one command pool per worker. -/
def World.initial (command_pools : List Nat) : World :=
  { assets := { block := 0, capacity := 0, records := [] }
    device := { next := 1000, buffers := [], command_buffers := [], fences := [] }
    command_pools := command_pools
    tasks := [] }

/-- The bytes held by the geometry and index buffers stored under a handle, with the
readiness of the handle. -/
def World.stored (debug : Bool) (world : World) (handle : meta.Handle) :
    Except Fault (Bool × List Nat × List Nat) := do
  let ready ← qz.assets.is_ready debug world.assets.records handle
  let mesh ← qz.assets.from_handle debug world.assets.records handle
  pure (ready, world.device.contents mesh.geometry.handle,
    world.device.contents mesh.indices.handle)

/-! ## `qz/gfx/pipeline.hpp` and the vertex input of `Pipeline::create` -/

def VK_FORMAT_R32_SFLOAT : Nat := 100
def VK_FORMAT_R32G32_SFLOAT : Nat := 103
def VK_FORMAT_R32G32B32_SFLOAT : Nat := 106
def VK_FORMAT_R32G32B32A32_SFLOAT : Nat := 109
def VK_VERTEX_INPUT_RATE_VERTEX : Nat := 0

/-- The enumerators of `enum class VertexAttribute : std::uint32_t`. -/
inductive VertexAttribute where
  | vec1
  | vec2
  | vec3
  | vec4
  deriving DecidableEq, Repr

/-- The value of an enumerator: `sizeof(float[n])`, with a `float` of four bytes. -/
def VertexAttribute.underlying : VertexAttribute → Nat
  | .vec1 => 4
  | .vec2 => 8
  | .vec3 => 12
  | .vec4 => 16

structure VkVertexInputBindingDescription where
  binding : Nat
  stride : Nat
  inputRate : Nat
  deriving DecidableEq, Repr

structure VkVertexInputAttributeDescription where
  location : Nat
  binding : Nat
  format : Nat
  offset : Nat
  deriving DecidableEq, Repr

/-- The `switch` of lines 96-101 on the four enumerators. -/
def attribute_format : VertexAttribute → Nat
  | .vec1 => VK_FORMAT_R32_SFLOAT
  | .vec2 => VK_FORMAT_R32G32_SFLOAT
  | .vec3 => VK_FORMAT_R32G32B32_SFLOAT
  | .vec4 => VK_FORMAT_R32G32B32A32_SFLOAT

/-- Lines 82-88: the binding description; `std::accumulate` starts from `0u` and adds in
`unsigned int`. -/
def vertex_binding_description (attributes : List VertexAttribute) :
    VkVertexInputBindingDescription where
  binding := 0
  stride := attributes.foldl (fun value each => u32 (value + each.underlying)) 0
  inputRate := VK_VERTEX_INPUT_RATE_VERTEX

/-- The loop of lines 91-107, `location` and `offset` being the two `std::uint32_t`
counters of the loop. -/
def vertex_attribute_descriptions :
    Nat → Nat → List VertexAttribute → List VkVertexInputAttributeDescription
  | _, _, [] => []
  | location, offset, each :: rest =>
    { location := location, binding := 0, format := attribute_format each, offset := offset }
      :: vertex_attribute_descriptions (u32 (location + 1)) (u32 (offset + each.underlying)) rest

/-! ## `qz/gfx/command_buffer.cpp`: the recording calls -/

def VK_COMMAND_BUFFER_USAGE_ONE_TIME_SUBMIT_BIT : Nat := 0x1
def VK_SUBPASS_CONTENTS_INLINE : Nat := 0
def VK_INDEX_TYPE_UINT32 : Nat := 1
def VK_PIPELINE_STAGE_TRANSFER_BIT : Nat := 0x1000
def VK_PIPELINE_STAGE_BOTTOM_OF_PIPE_BIT : Nat := 0x2000
def VK_ACCESS_COLOR_ATTACHMENT_WRITE_BIT : Nat := 0x100
def VK_ACCESS_TRANSFER_WRITE_BIT : Nat := 0x1000
def VK_IMAGE_LAYOUT_TRANSFER_DST_OPTIMAL : Nat := 7
def VK_IMAGE_LAYOUT_PRESENT_SRC_KHR : Nat := 1000001002

structure Pipeline where
  handle : Nat
  layout : Nat
  deriving DecidableEq, Repr

/-- The struct `ImageMemoryBarrier`; the pointer `image` is the image it points to, if
any. -/
structure ImageMemoryBarrier where
  image : Option Image
  source_family : Nat
  dest_family : Nat
  source_stage : Nat
  dest_stage : Nat
  source_access : Nat
  dest_access : Nat
  old_layout : Nat
  new_layout : Nat
  deriving DecidableEq, Repr

/-- A `VkViewport`; the `float` fields hold the integers converted into them. -/
structure VkViewport where
  x : Nat
  y : Nat
  width : Nat
  height : Nat
  minDepth : Nat
  maxDepth : Nat
  deriving DecidableEq, Repr

structure VkRect2D where
  x : Int
  y : Int
  extent : VkExtent2D
  deriving DecidableEq, Repr

structure VkImageSubresourceLayers where
  aspectMask : Nat
  mipLevel : Nat
  baseArrayLayer : Nat
  layerCount : Nat
  deriving DecidableEq, Repr

/-- A `VkImageCopy`; both offsets of the region are zero in `copy_image`. -/
structure VkImageCopy where
  srcSubresource : VkImageSubresourceLayers
  dstSubresource : VkImageSubresourceLayers
  width : Nat
  height : Nat
  depth : Nat
  deriving DecidableEq, Repr

structure VkImageMemoryBarrier where
  srcAccessMask : Nat
  dstAccessMask : Nat
  oldLayout : Nat
  newLayout : Nat
  srcQueueFamilyIndex : Nat
  dstQueueFamilyIndex : Nat
  image : Nat
  aspectMask : Nat
  baseMipLevel : Nat
  levelCount : Nat
  baseArrayLayer : Nat
  layerCount : Nat
  deriving DecidableEq, Repr

/-- The device entry points the recording calls of `CommandBuffer` go to, with their
arguments (the command buffer itself left out). -/
inductive Command where
  | vkBeginCommandBuffer (flags : Nat)
  | vkCmdBeginRenderPass (renderPass framebuffer : Nat) (renderArea : VkRect2D)
      (clearValues : List VkClearValue) (contents : Nat)
  | vkCmdSetViewport (first : Nat) (viewports : List VkViewport)
  | vkCmdSetScissor (first : Nat) (scissors : List VkRect2D)
  | vkCmdBindPipeline (bindPoint pipeline : Nat)
  | vkCmdBindVertexBuffers (first : Nat) (buffers offsets : List Nat)
  | vkCmdBindIndexBuffer (buffer offset indexType : Nat)
  | vkCmdDrawIndexed (indexCount instanceCount firstIndex : Nat) (vertexOffset : Int)
      (firstInstance : Nat)
  | vkCmdEndRenderPass
  | vkCmdPipelineBarrier (srcStageMask dstStageMask dependencyFlags : Nat)
      (imageMemoryBarriers : List VkImageMemoryBarrier)
  | vkCmdCopyImage (srcImage srcImageLayout dstImage dstImageLayout : Nat)
      (regions : List VkImageCopy)
  | vkEndCommandBuffer
  deriving DecidableEq, Repr

/-- The function `RenderPass::framebuffer`. -/
def RenderPass.framebuffer (debug : Bool) (render_pass : RenderPass) (idx : Nat) :
    Except Fault Nat := do
  qz_assert debug (decide (0 ≤ idx) && decide (idx < render_pass._framebuffers.length))
  match render_pass._framebuffers[idx]? with
  | some framebuffer => .ok framebuffer
  | none => .error .undefined

/-- A `CommandBuffer` while it records: the pointer `_active_pass` is the Pass it points
to, and `commands` are the calls made on `_handle` since `begin`, in order. -/
structure Recording where
  _active_pass : Option RenderPass
  _handle : Nat
  commands : List Command
  deriving DecidableEq, Repr

def Recording.push (recording : Recording) (command : Command) : Recording :=
  { recording with commands := recording.commands ++ [command] }

/-- The function `CommandBuffer::begin`; `result` is what `vkBeginCommandBuffer` returns. -/
def Recording.begin (debug : Bool) (result : Int) (recording : Recording) :
    Except Fault Recording := do
  qz_vulkan_check debug result
  pure (recording.push (.vkBeginCommandBuffer VK_COMMAND_BUFFER_USAGE_ONE_TIME_SUBMIT_BIT))

def Recording.begin_render_pass (debug : Bool) (render_pass : RenderPass) (framebuffer : Nat)
    (recording : Recording) : Except Fault Recording := do
  let recording := { recording with _active_pass := some render_pass }
  let clear_values := render_pass.clears
  let target ← render_pass.framebuffer debug framebuffer
  let extent ← render_pass.extent
  pure (recording.push
    (.vkCmdBeginRenderPass render_pass._handle target ⟨0, 0, extent⟩ clear_values
      VK_SUBPASS_CONTENTS_INLINE))

/-- The overload `set_viewport(meta::viewport_tag_t)`; a null `_active_pass` is
dereferenced. -/
def Recording.set_viewport (recording : Recording) : Except Fault Recording :=
  match recording._active_pass with
  | none => .error .undefined
  | some active_pass => do
    let extent ← active_pass.extent
    pure (recording.push (.vkCmdSetViewport 0 [⟨0, 0, extent.width, extent.height, 0, 1⟩]))

/-- The overload `set_scissor(meta::scissor_tag_t)`. -/
def Recording.set_scissor (recording : Recording) : Except Fault Recording :=
  match recording._active_pass with
  | none => .error .undefined
  | some active_pass => do
    let extent ← active_pass.extent
    pure (recording.push (.vkCmdSetScissor 0 [⟨0, 0, extent⟩]))

def Recording.bind_pipeline (pipeline : Pipeline) (recording : Recording) : Recording :=
  recording.push (.vkCmdBindPipeline VK_PIPELINE_BIND_POINT_GRAPHICS pipeline.handle)

def Recording.bind_vertex_buffer (vertex : Buffer) (recording : Recording) : Recording :=
  recording.push (.vkCmdBindVertexBuffers 0 [vertex.handle] [0])

def Recording.bind_index_buffer (index : Buffer) (recording : Recording) : Recording :=
  recording.push (.vkCmdBindIndexBuffer index.handle 0 VK_INDEX_TYPE_UINT32)

def Recording.bind_static_mesh (mesh : StaticMesh) (recording : Recording) : Recording :=
  (recording.bind_vertex_buffer mesh.geometry).bind_index_buffer mesh.indices

def Recording.draw_indexed (indices instances first_index first_instance : Nat)
    (recording : Recording) : Recording :=
  recording.push (.vkCmdDrawIndexed indices instances first_index 0 first_instance)

def Recording.end_render_pass (debug : Bool) (recording : Recording) :
    Except Fault Recording := do
  qz_assert debug recording._active_pass.isSome
  pure ({ recording with _active_pass := none }.push .vkCmdEndRenderPass)

def Recording.copy_image (source dest : Image) (recording : Recording) : Recording :=
  recording.push
    (.vkCmdCopyImage source.handle VK_IMAGE_LAYOUT_TRANSFER_SRC_OPTIMAL
      dest.handle VK_IMAGE_LAYOUT_TRANSFER_DST_OPTIMAL
      [{ srcSubresource := ⟨source.aspect, 0, 0, 1⟩, dstSubresource := ⟨dest.aspect, 0, 0, 1⟩,
         width := source.width, height := source.height, depth := 1 }])

/-- The function `insert_layout_transition`; it reads through the pointer `info.image`. -/
def Recording.insert_layout_transition (info : ImageMemoryBarrier) (recording : Recording) :
    Except Fault Recording :=
  match info.image with
  | none => .error .undefined
  | some image =>
    .ok (recording.push
      (.vkCmdPipelineBarrier info.source_stage info.dest_stage 0
        [{ srcAccessMask := info.source_access, dstAccessMask := info.dest_access,
           oldLayout := info.old_layout, newLayout := info.new_layout,
           srcQueueFamilyIndex := info.source_family, dstQueueFamilyIndex := info.dest_family,
           image := image.handle, aspectMask := image.aspect, baseMipLevel := 0,
           levelCount := image.mips, baseArrayLayer := 0, layerCount := 1 }]))

/-- The function `CommandBuffer::end`; `result` is what `vkEndCommandBuffer` returns. -/
def Recording.finish (debug : Bool) (result : Int) (recording : Recording) :
    Except Fault Recording := do
  qz_vulkan_check debug result
  pure (recording.push .vkEndCommandBuffer)

/-! ## The frame loop of `main` -/

/-- The registry `assets<StaticMesh>` as each of the four registry calls of one frame finds
it; workers may finalize records between the calls. -/
structure FrameAssets where
  triangle_query : qz.assets.Registry
  triangle_read : qz.assets.Registry
  quad_query : qz.assets.Registry
  quad_read : qz.assets.Registry
  deriving DecidableEq, Repr

/-- Lines 146-150 and 152-156 of `main`: the mesh under `handle` is bound and drawn when
`is_ready` returns true, and skipped otherwise. -/
def draw_if_ready (debug : Bool) (at_query at_read : qz.assets.Registry)
    (handle : meta.Handle) (indices : Nat) (recording : Recording) :
    Except Fault Recording := do
  let ready ← qz.assets.is_ready debug at_query handle
  if ready then
    (qz.assets.from_handle debug at_read handle).map
      (fun mesh => (recording.bind_static_mesh mesh).draw_indexed indices 1 0 0)
  else
    pure recording

/-- Reading through a pointer into `swapchain.images`, such as `*frame.image`. -/
def Swapchain.image_at (swapchain : Swapchain) (pointer : Nat) : Except Fault Image :=
  match swapchain.images[pointer]? with
  | some image => .ok image
  | none => .error .undefined

/-- Lines 117-163 of `main`: what one iteration of the frame loop records into the command
buffer returned by `acquire_next_frame`.  `begin_result` and `end_result` are the results
of `vkBeginCommandBuffer` and `vkEndCommandBuffer`; `frame.image` points into
`swapchain.images`. -/
def record_frame (debug : Bool) (begin_result end_result : Int) (render_pass : RenderPass)
    (pipeline : Pipeline) (swapchain : Swapchain) (registry : FrameAssets)
    (triangle quad : meta.Handle) (command_buffer : CommandBuffer) (frame : FrameInfo) :
    Except Fault Recording := do
  let transfer_transition : ImageMemoryBarrier :=
    { image := swapchain.images[frame.image]?
      source_family := meta.family_ignored
      dest_family := meta.family_ignored
      source_stage := VK_PIPELINE_STAGE_COLOR_ATTACHMENT_OUTPUT_BIT
      dest_stage := VK_PIPELINE_STAGE_TRANSFER_BIT
      source_access := VK_ACCESS_COLOR_ATTACHMENT_WRITE_BIT
      dest_access := VK_ACCESS_TRANSFER_WRITE_BIT
      old_layout := VK_IMAGE_LAYOUT_UNDEFINED
      new_layout := VK_IMAGE_LAYOUT_TRANSFER_DST_OPTIMAL }
  let present_transition : ImageMemoryBarrier :=
    { image := swapchain.images[frame.image]?
      source_family := meta.family_ignored
      dest_family := meta.family_ignored
      source_stage := VK_PIPELINE_STAGE_TRANSFER_BIT
      dest_stage := VK_PIPELINE_STAGE_BOTTOM_OF_PIPE_BIT
      source_access := VK_ACCESS_TRANSFER_WRITE_BIT
      dest_access := 0
      old_layout := VK_IMAGE_LAYOUT_TRANSFER_DST_OPTIMAL
      new_layout := VK_IMAGE_LAYOUT_PRESENT_SRC_KHR }
  let recording : Recording :=
    { _active_pass := none, _handle := command_buffer._handle, commands := [] }
  let recording ← recording.begin debug begin_result
  let recording ← recording.begin_render_pass debug render_pass 0
  let recording ← recording.set_viewport
  let recording ← recording.set_scissor
  let recording := recording.bind_pipeline pipeline
  let recording ←
    draw_if_ready debug registry.triangle_query registry.triangle_read triangle 3 recording
  let recording ← draw_if_ready debug registry.quad_query registry.quad_read quad 6 recording
  let recording ← recording.end_render_pass debug
  let recording ← recording.insert_layout_transition transfer_transition
  let color ← render_pass.attachment "color"
  let dest ← swapchain.image_at frame.image
  let recording := recording.copy_image color.image dest
  let recording ← recording.insert_layout_transition present_transition
  recording.finish debug end_result

/-! ## The end of `main`: lines 168-179 and the functions they call -/

/-- The library entry points reached from lines 168-179 of `main`, with their arguments. -/
inductive TeardownCall where
  | vkQueueWaitIdle (queue : Nat)
  | vmaDestroyBuffer (allocator buffer allocation : Nat)
  | vkDestroyCommandPool (device pool : Nat)
  | vkDestroyPipeline (device pipeline : Nat)
  | vkDestroyPipelineLayout (device layout : Nat)
  | vkDestroyImageView (device view : Nat)
  | vmaDestroyImage (allocator image allocation : Nat)
  | vkDestroyFramebuffer (device framebuffer : Nat)
  | vkDestroyRenderPass (device render_pass : Nat)
  | vkDestroySwapchainKHR (device swapchain : Nat)
  | vkDestroySurfaceKHR (owner surface : Nat)
  | vkDestroySemaphore (device semaphore : Nat)
  | vkDestroyFence (device fence : Nat)
  | vmaDestroyAllocator (allocator : Nat)
  | vkDestroyDevice (device : Nat)
  | vkDestroyDebugUtilsMessengerEXT (owner messenger : Nat)
  | vkDestroyInstance (owner : Nat)
  | glfwDestroyWindow (window : Nat)
  | glfwTerminate
  deriving DecidableEq, Repr

/-- Whether a call destroys an object (every call above except the wait does). -/
def TeardownCall.destroys : TeardownCall → Bool
  | .vkQueueWaitIdle _ => false
  | _ => true

/-- The locals of `main` and the statics of the scheduler and of the registry when the
frame loop has ended; `allocator`, `vulkan_instance` and `validation` are the fields of
`context` of these names (`instance` in the source). -/
structure Program where
  window : Nat
  context : Context
  allocator : Nat
  vulkan_instance : Nat
  validation : Nat
  renderer : Renderer
  render_pass : RenderPass
  pipeline : Pipeline
  command_pools : List Nat
  assets : qz.assets.Registry
  deriving DecidableEq, Repr

/-- The function `wait_queue`; `result` is what `vkQueueWaitIdle` returns. -/
def wait_queue (debug : Bool) (result : Int) (queue : Nat) :
    Except Fault (List TeardownCall) := do
  qz_vulkan_check debug result
  pure [.vkQueueWaitIdle queue]

/-- The call `Buffer::destroy` makes, appended to the calls made so far. -/
def Buffer.destroy_call (allocator : Nat) (calls : List TeardownCall) (buffer : Buffer) :
    List TeardownCall :=
  calls ++ [.vmaDestroyBuffer allocator buffer.handle buffer.allocation]

def Pipeline.destroy (context : Context) (pipeline : Pipeline) : List TeardownCall :=
  [.vkDestroyPipeline context.device pipeline.handle,
    .vkDestroyPipelineLayout context.device pipeline.layout]

def Image.destroy (context : Context) (allocator : Nat) (image : Image) : List TeardownCall :=
  [.vkDestroyImageView context.device image.view,
    .vmaDestroyImage allocator image.handle image.allocation]

def RenderPass.destroy (context : Context) (allocator : Nat) (render_pass : RenderPass) :
    List TeardownCall :=
  render_pass._attachments.flatMap
      (fun each => if each.owning then Image.destroy context allocator each.image else [])
    ++ render_pass._framebuffers.map (fun framebuffer =>
      TeardownCall.vkDestroyFramebuffer context.device framebuffer)
    ++ (if render_pass._handle ≠ 0 then [.vkDestroyRenderPass context.device render_pass._handle]
        else [])

def Swapchain.destroy (context : Context) (vulkan_instance : Nat) (swapchain : Swapchain) :
    List TeardownCall :=
  swapchain.images.map (fun image => TeardownCall.vkDestroyImageView context.device image.view)
    ++ [.vkDestroySwapchainKHR context.device swapchain.handle,
      .vkDestroySurfaceKHR vulkan_instance swapchain.surface]

/-- The function `Renderer::destroy`, its loop over the two slots unrolled. -/
def Renderer.destroy (context : Context) (vulkan_instance : Nat) (renderer : Renderer) :
    List TeardownCall :=
  Swapchain.destroy context vulkan_instance renderer.swapchain
    ++ [.vkDestroySemaphore context.device renderer.img_ready.e0,
      .vkDestroySemaphore context.device renderer.gfx_done.e0,
      .vkDestroyFence context.device renderer.cmd_wait.e0,
      .vkDestroySemaphore context.device renderer.img_ready.e1,
      .vkDestroySemaphore context.device renderer.gfx_done.e1,
      .vkDestroyFence context.device renderer.cmd_wait.e1]

def Context.destroy (debug : Bool) (context : Context)
    (allocator vulkan_instance validation : Nat) : List TeardownCall :=
  [.vkDestroyCommandPool context.device context.main_pool,
    .vmaDestroyAllocator allocator,
    .vkDestroyDevice context.device]
    ++ (if debug then [.vkDestroyDebugUtilsMessengerEXT vulkan_instance validation] else [])
    ++ [.vkDestroyInstance vulkan_instance]

def Window.destroy (window : Nat) : List TeardownCall :=
  [.glfwDestroyWindow window]

def terminate_window_system : List TeardownCall :=
  [.glfwTerminate]

end gfx

namespace assets

/-- The function `free_all_resources`: it walks the records without taking `done_mutex`
and passes both buffers of each to `Buffer::destroy`, whose effect on the surroundings is
`destroy`; `Buffer::destroy` also resets the buffer object it is given. -/
def free_all_resources {σ : Type} (destroy : σ → gfx.Buffer → σ) (state : σ) :
    Registry → σ × Registry
  | [] => (state, [])
  | each :: rest =>
    let state := destroy state each.object.geometry
    let state := destroy state each.object.indices
    let result := free_all_resources destroy state rest
    (result.1, { each with object := ⟨⟨0, 0, 0, 0⟩, ⟨0, 0, 0, 0⟩⟩ } :: result.2)

end assets

namespace task

/-- The function `destroy_scheduler`: one `vkDestroyCommandPool` per worker pool and
nothing else. -/
def destroy_scheduler (context : gfx.Context) (command_pools : List Nat) :
    List gfx.TeardownCall :=
  command_pools.map (fun each => gfx.TeardownCall.vkDestroyCommandPool context.device each)

end task

namespace gfx

/-- Lines 168-179 of `main`: the calls made after the frame loop, in order;
`wait_result` is what `vkQueueWaitIdle` returns. -/
def shutdown (debug : Bool) (wait_result : Int) (program : Program) :
    Except Fault (List TeardownCall) := do
  let waited ← wait_queue debug wait_result program.context.graphics
  let freed :=
    (qz.assets.free_all_resources (Buffer.destroy_call program.allocator) [] program.assets).1
  pure (waited
    ++ freed
    ++ qz.task.destroy_scheduler program.context program.command_pools
    ++ Pipeline.destroy program.context program.pipeline
    ++ RenderPass.destroy program.context program.allocator program.render_pass
    ++ Renderer.destroy program.context program.vulkan_instance program.renderer
    ++ Context.destroy debug program.context program.allocator program.vulkan_instance
        program.validation
    ++ Window.destroy program.window
    ++ terminate_window_system)

/-! ## Lines 81-87 of the streaming job, call by call, with the transfer mutex -/

/-- How far a worker has run through the block of lines 81-87: `locked` after the
`lock_guard` of line 82 has taken `transfer_mutex`, `submitted` after the `vkQueueSubmit`
of line 83, `signalled` after the loop of line 84 has seen the fence signalled, `reset`
after line 85, `destroyed` after line 86, and `after` once the `lock_guard` has released
the mutex at line 87. -/
inductive TransferStage where
  | before
  | locked
  | submitted
  | signalled
  | reset
  | destroyed
  | after
  deriving DecidableEq, Repr

/-- Whether the worker is between the constructor and the destructor of the `lock_guard`. -/
def TransferStage.inside : TransferStage → Bool
  | .before => false
  | .after => false
  | _ => true

/-- The static `transfer_mutex` of the scheduler with its owner, the workers running the
block, and a log of the `vkQueueSubmit` calls on the transfer queue: who made the call and
who owned the mutex at that moment. -/
structure TransferState where
  transfer_mutex : Option Nat
  workers : List TransferStage
  submits : List (Nat × Option Nat)
  deriving DecidableEq, Repr

/-- One move of the schedule: the worker that runs its next call, and the result of the
device call made by that step, if it makes one. -/
structure Move where
  worker : Nat
  result : Int
  deriving DecidableEq, Repr

/-- The next call of a worker inside lines 81-87.  `std::mutex::lock` returns only when
the mutex is free, so a worker at line 82 stays there while another one owns the mutex;
the loop of line 84 is left only when `vkGetFenceStatus` returns `VK_SUCCESS`. -/
def TransferState.step (debug : Bool) (state : TransferState) (move : Move) :
    Except Fault TransferState :=
  match state.workers[move.worker]? with
  | none => .ok state
  | some .before =>
    match state.transfer_mutex with
    | none =>
      .ok { state with transfer_mutex := some move.worker
                       workers := state.workers.set move.worker .locked }
    | some _ => .ok state
  | some .locked => do
    let submits := state.submits ++ [(move.worker, state.transfer_mutex)]
    qz_vulkan_check debug move.result
    pure { state with workers := state.workers.set move.worker .submitted, submits := submits }
  | some .submitted =>
    if move.result ≠ VK_SUCCESS then .ok state
    else .ok { state with workers := state.workers.set move.worker .signalled }
  | some .signalled => .ok { state with workers := state.workers.set move.worker .reset }
  | some .reset => .ok { state with workers := state.workers.set move.worker .destroyed }
  | some .destroyed =>
    .ok { state with transfer_mutex := none
                     workers := state.workers.set move.worker .after }
  | some .after => .ok state

/-- A schedule of moves, in the order they happen. -/
def TransferState.run (debug : Bool) :
    TransferState → List Move → Except Fault TransferState
  | state, [] => .ok state
  | state, move :: rest => do
    let next ← state.step debug move
    TransferState.run debug next rest

/-- The state in which `count` workers are about to enter the block and nobody owns the
mutex. -/
def TransferState.initial (count : Nat) : TransferState :=
  { transfer_mutex := none, workers := List.replicate count .before, submits := [] }

/-- Every worker inside the block owns the mutex, and every logged submit was made by the
owner of the mutex. -/
def TransferState.exclusive (state : TransferState) : Prop :=
  (∀ (i : Nat) (stage : TransferStage),
      state.workers[i]? = some stage → stage.inside = true → state.transfer_mutex = some i)
  ∧ ∀ entry ∈ state.submits, entry.2 = some entry.1

/-! ## Live objects of the streaming subsystem -/

/-- The number of buffers, one-shot command buffers and fences created on the device and
not destroyed yet. -/
def live_count (device : DeviceState) : Nat :=
  device.buffers.length + device.command_buffers.length + device.fences.length

/-- The call `free_all_resources` of line 169 of `main` on the world of the jobs. -/
def World.free_all_resources (world : World) : World :=
  let result := qz.assets.free_all_resources Buffer.destroy world.device world.assets.records
  { world with device := result.1, assets := { world.assets with records := result.2 } }

end gfx

namespace assets

/-! ## Accesses to the records and the lock `done_mutex` -/

/-- A read or a write of a record of `assets<StaticMesh>`: the position of the record,
whether its payload `object` or its flag `done` is touched, whether it is written, and
whether the accessing thread holds `done_mutex` at that moment. -/
structure Access where
  index : Nat
  payload : Bool
  write : Bool
  done_mutex_held : Bool
  deriving DecidableEq, Repr

/-- One thread running registry code: whether it holds `done_mutex`, and the accesses to
records it has made so far. -/
structure Thread where
  done_mutex_held : Bool
  accesses : List Access
  deriving DecidableEq, Repr

/-- The constructor of a `std::lock_guard` on `done_mutex`. -/
def Thread.lock (thread : Thread) : Thread :=
  { thread with done_mutex_held := true }

/-- The destructor of the `std::lock_guard`, at the end of the function that made it. -/
def Thread.unlock (thread : Thread) : Thread :=
  { thread with done_mutex_held := false }

def Thread.access (thread : Thread) (index : Nat) (payload write : Bool) : Thread :=
  { thread with
    accesses := thread.accesses ++ [⟨index, payload, write, thread.done_mutex_held⟩] }

/-- The function `from_handle` (lines 27-32): under the lock it forms the reference
`assets[handle.index].object`, touching no record, and returns it. -/
def Thread.from_handle (thread : Thread) (_handle : meta.Handle) : Thread :=
  thread.lock.unlock

/-- The function `finalize` (lines 34-39): the flag is written under the lock. -/
def Thread.finalize (thread : Thread) (handle : meta.Handle) : Thread :=
  (thread.lock.access handle.index false true).unlock

/-- The function `is_ready` (lines 41-46): the flag is read under the lock. -/
def Thread.is_ready (thread : Thread) (handle : meta.Handle) : Thread :=
  (thread.lock.access handle.index false false).unlock

/-- The function `free_all_resources` (lines 48-53) on `size` records: no lock is taken;
`Buffer::destroy` reads each buffer of the payload and resets it. -/
def Thread.free_all_resources (thread : Thread) (size : Nat) : Thread :=
  (List.range size).foldl
    (fun thread index => (thread.access index true false).access index true true) thread

end assets

namespace gfx

/-- Lines 88-92 of the streaming job: the call `from_handle`, the assignment through the
reference it returned, and the call `finalize`. -/
def TaskData.store (data : TaskData) (thread : qz.assets.Thread) : qz.assets.Thread :=
  ((thread.from_handle data.handle).access data.handle.index true true).finalize data.handle

/-- Lines 146-150 of `main` for one handle: `is_ready`, and when it returned true the
call `from_handle` and the read of both buffers through the reference by
`bind_static_mesh`. -/
def draw_accesses (handle : meta.Handle) (ready : Bool) (thread : qz.assets.Thread) :
    qz.assets.Thread :=
  let thread := thread.is_ready handle
  if ready then (thread.from_handle handle).access handle.index true false else thread

/-! ## What a job owns on the device, by stage -/

/-- The buffers a job has created and not destroyed yet. -/
def Job.buffers (job : Job) : List Nat :=
  match job.stage with
  | .queued => []
  | .released => [job.geometry.handle, job.indices.handle]
  | _ =>
    [job.vertex_staging.handle, job.index_staging.handle, job.geometry.handle,
      job.indices.handle]

/-- The command buffer of a job between its allocation and its release. -/
def Job.command_buffers (job : Job) : List Nat :=
  match job.stage with
  | .queued => []
  | .released => []
  | _ => [job.command_buffer._handle]

/-- The fence of a job between its creation and the end of lines 81-87. -/
def Job.fences (job : Job) : List Nat :=
  match job.stage with
  | .recorded => [job.done]
  | _ => []

/-- Whether the job has passed the assignment of line 88. -/
def Job.stored (job : Job) : Bool :=
  match job.stage with
  | .assigned => true
  | .finalized => true
  | .released => true
  | _ => false

/-- Whether the job has passed the call `finalize` of line 92. -/
def Job.finalized (job : Job) : Bool :=
  match job.stage with
  | .finalized => true
  | .released => true
  | _ => false

/-- Every handle of `handles` belongs to some task, `live` telling what a task holds. -/
def owned (tasks : List Job) (live : Job → List Nat) (handles : List Nat) : Prop :=
  ∀ h ∈ handles, ∃ (k : Nat) (job : Job), tasks[k]? = some job ∧ h ∈ live job

/-- The relation between the tasks, the registry and the device that every step of a
schedule keeps: task `i` carries handle `i`, a reference it holds points at position `i`,
record `i` is ready exactly when the task has passed `finalize` and holds the task's
destination buffers once the task has passed the assignment, and every live device object
belongs to a task. -/
def World.consistent (world : World) : Prop :=
  world.assets.records.length = world.tasks.length
  ∧ (∀ (i : Nat) (job : Job), world.tasks[i]? = some job →
      job.data.handle = ⟨i⟩
      ∧ (job.stage = .referenced → job.reference.index = i)
      ∧ ∃ record, world.assets.records[i]? = some record
          ∧ record.done = job.finalized
          ∧ (job.stored = true → record.object = ⟨job.geometry, job.indices⟩))
  ∧ owned world.tasks Job.buffers (world.device.buffers.map (·.1))
  ∧ owned world.tasks Job.command_buffers world.device.command_buffers
  ∧ owned world.tasks Job.fences world.device.fences

end gfx

end qz

/-! # Properties -/

namespace qz

namespace gfx

/-! ## The grouping loop of `RenderPass::create` -/

theorem resize_length (views : List (List Nat)) (n : Nat) : (resize views n).length = n := by
  simp only [resize, List.length_append, List.length_take, List.length_replicate]
  omega

/-- On a one-element vector the grouping step is defined exactly for framebuffer index 0,
and then keeps the vector at one element. -/
theorem group_view_singleton (views : List (List Nat)) (each : Attachment)
    (hone : views.length = 1) :
    (each.framebuffer = 0 ∧ ∃ views', group_view views each = .ok views' ∧ views'.length = 1)
    ∨ (each.framebuffer ≠ 0 ∧ group_view views each = .error .undefined) := by
  by_cases hf : each.framebuffer = 0
  · left
    refine ⟨hf, ?_⟩
    simp [group_view, hf, hone]
  · right
    refine ⟨hf, ?_⟩
    by_cases h1 : 1 < each.framebuffer
    · simp [group_view, hone, h1, resize_length]
    · have : each.framebuffer = 1 := by omega
      simp [group_view, hone, this]

/-- The grouping loop returns only when every attachment has framebuffer index 0, and
then with a single group. -/
theorem group_views_ok (attachments : List Attachment) :
    ∀ (views result : List (List Nat)), views.length = 1 →
      group_views views attachments = .ok result →
      (∀ each ∈ attachments, each.framebuffer = 0) ∧ result.length = 1 := by
  induction attachments with
  | nil =>
    intro views result hone h
    simp only [group_views, Except.ok.injEq] at h
    subst h
    simp [hone]
  | cons each rest ih =>
    intro views result hone h
    rcases group_view_singleton views each hone with ⟨hf, views', hv, hone'⟩ | ⟨_, hv⟩
    · simp only [group_views, hv, bind, Except.bind] at h
      obtain ⟨hall, hlen⟩ := ih views' result hone' h
      refine ⟨?_, hlen⟩
      intro a ha
      rcases List.mem_cons.mp ha with rfl | ha
      · exact hf
      · exact hall a ha
    · simp [group_views, hv, bind, Except.bind] at h

/-- The first loop copies each framebuffer index. -/
theorem compile_attachments_framebuffer (index : Nat) (attachments : List Attachment.CreateInfo)
    (h : ∀ a ∈ compile_attachments index attachments, a.framebuffer = 0) :
    ∀ each ∈ attachments, each.framebuffer = 0 := by
  induction attachments generalizing index with
  | nil => simp
  | cons first rest ih =>
    intro each heach
    simp only [compile_attachments, List.mem_cons, forall_eq_or_imp] at h
    rcases List.mem_cons.mp heach with rfl | hrest
    · exact h.1
    · exact ih _ h.2 each hrest

/-- The framebuffer loop emplaces one handle per group. -/
theorem create_framebuffers_length (debug : Bool) (device : Device) (handle : Nat)
    (size : Option VkExtent2D) (views : List (List Nat)) :
    ∀ (created : List Nat) (infos : List VkFramebufferCreateInfo)
      (result : List Nat × List VkFramebufferCreateInfo),
      create_framebuffers debug device handle size views created infos = .ok result →
      result.1.length = created.length + views.length := by
  induction views with
  | nil =>
    intro created infos result h
    simp only [create_framebuffers, Except.ok.injEq] at h
    subst h
    simp
  | cons each rest ih =>
    intro created infos result h
    cases size with
    | none => simp [create_framebuffers] at h
    | some size =>
      simp only [create_framebuffers, bind, Except.bind] at h
      split at h
      · simp at h
      · have := ih _ _ _ h
        simp only [List.length_append, List.length_cons, List.length_nil] at this ⊢
        omega

/-- Whenever `RenderPass::create` returns, every attachment had framebuffer index 0, the
Pass has exactly one framebuffer, and its attachments are those of the first loop. -/
theorem create_ok (debug : Bool) (device : Device) (info : RenderPass.CreateInfo)
    (compiled : Compiled) (h : RenderPass.create debug device info = .ok compiled) :
    (∀ each ∈ info.attachments, each.framebuffer = 0)
      ∧ compiled.render_pass._framebuffers.length = 1
      ∧ compiled.render_pass._attachments = compile_attachments 0 info.attachments := by
  simp only [RenderPass.create, bind, Except.bind, pure, Except.pure] at h
  split at h
  · simp at h
  split at h
  · simp at h
  split at h
  · simp at h
  rename_i views hviews
  split at h
  · simp at h
  rename_i result hcreated
  simp only [Except.ok.injEq] at h
  subst h
  obtain ⟨hall, hone⟩ := group_views_ok _ [[]] views rfl hviews
  have hlen := create_framebuffers_length _ _ _ _ _ _ _ _ hcreated
  refine ⟨?_, ?_, rfl⟩
  · intro each heach
    exact compile_attachments_framebuffer 0 info.attachments hall each heach
  · simpa [hone] using hlen

/-- C1 (defect in the code): for a single attachment with framebuffer index 2 the
specification promises 3 framebuffers, but the grouping loop resizes the vector of groups
to 2 elements and then indexes element 2, which is out of range, so no Pass with 3
framebuffers results; the same happens for framebuffer indices 0 and 1, where the vector
keeps its single element and element 1 is indexed. -/
theorem create_framebuffer_index_two_out_of_range :
    (∀ debug, RenderPass.create debug Device.succeeding
        ⟨[⟨⟨10, 11, 12, 1, 44, 1, 1280, 720⟩, "color", 2, true, false, 6, .none⟩],
          [⟨["color"], [], []⟩], []⟩ = .error .undefined)
    ∧ (resize [[]] 2).length = 2
    ∧ (∀ debug, RenderPass.create debug Device.succeeding
        ⟨[⟨⟨10, 11, 12, 1, 44, 1, 1280, 720⟩, "color", 0, true, false, 6, .none⟩,
          ⟨⟨20, 21, 22, 1, 44, 1, 1280, 720⟩, "other", 1, true, false, 6, .none⟩],
          [⟨["color"], [], []⟩], []⟩ = .error .undefined) := by
  refine ⟨?_, rfl, ?_⟩ <;> intro debug <;> cases debug <;> rfl

/-! ## Attachment indices and name lookup -/

theorem compile_attachments_length (index : Nat) (attachments : List Attachment.CreateInfo) :
    (compile_attachments index attachments).length = attachments.length := by
  induction attachments generalizing index with
  | nil => rfl
  | cons first rest ih => simp [compile_attachments, ih]

/-- As long as the counter does not wrap, element `i` of the first loop's output is the
compiled `i`-th input with reference index `index + i`. -/
theorem compile_attachments_getElem? (attachments : List Attachment.CreateInfo) :
    ∀ (index i : Nat), index + attachments.length ≤ 2 ^ 32 →
      (compile_attachments index attachments)[i]?
        = (attachments[i]?).map (compile_attachment (index + i)) := by
  induction attachments with
  | nil => intro index i _; simp [compile_attachments]
  | cons first rest ih =>
    intro index i hbound
    cases i with
    | zero => simp [compile_attachments]
    | succ i =>
      simp only [compile_attachments, List.getElem?_cons_succ]
      by_cases hrest : rest = []
      · subst hrest
        simp [compile_attachments]
      · have hpos : 0 < rest.length := List.length_pos.mpr hrest
        simp only [List.length_cons] at hbound
        have hwrap : u32 (index + 1) = index + 1 := by
          unfold u32
          exact Nat.mod_eq_of_lt (by omega)
        rw [hwrap, ih (index + 1) i (by omega), show index + 1 + i = index + (i + 1) by omega]

/-- The scan of `RenderPass::attachment` over the first loop's output returns the
attachment at the first position carrying the name, and aborts when no attachment
carries it. -/
theorem attachment_scan_compile (attachments : List Attachment.CreateInfo) (name : String) :
    ∀ (index : Nat), index + attachments.length ≤ 2 ^ 32 →
      attachment_scan (compile_attachments index attachments) name
        = match attachments[(attachments.map (·.name)).indexOf name]? with
          | some each =>
            .ok (compile_attachment (index + (attachments.map (·.name)).indexOf name) each)
          | none => .error .abort := by
  induction attachments with
  | nil => intro index _; simp [compile_attachments, attachment_scan]
  | cons first rest ih =>
    intro index hbound
    simp only [List.length_cons] at hbound
    by_cases hname : first.name = name
    · simp [compile_attachments, attachment_scan, compile_attachment, hname]
    · have hidx : (List.map (·.name) (first :: rest)).indexOf name
          = (List.map (·.name) rest).indexOf name + 1 := by
        simp [List.indexOf_cons_ne _ hname]
      rw [hidx]
      simp only [compile_attachments, attachment_scan, List.getElem?_cons_succ]
      rw [if_neg (by simpa [compile_attachment] using hname)]
      by_cases hrest : rest = []
      · subst hrest
        simp [compile_attachments, attachment_scan]
      · have hpos : 0 < rest.length := List.length_pos.mpr hrest
        have hwrap : u32 (index + 1) = index + 1 := by
          unfold u32
          exact Nat.mod_eq_of_lt (by omega)
        rw [hwrap, ih (index + 1) (by omega)]
        have : index + 1 + (List.map (·.name) rest).indexOf name
            = index + ((List.map (·.name) rest).indexOf name + 1) := by omega
        rw [this]

/-- A successful lookup yields the reference index `indexOf name`, counted from `index`. -/
theorem attachment_scan_reference (attachments : List Attachment.CreateInfo) (name : String)
    (index : Nat) (hbound : index + attachments.length ≤ 2 ^ 32) (attachment : Attachment)
    (h : attachment_scan (compile_attachments index attachments) name = .ok attachment) :
    attachment.reference.attachment = index + (attachments.map (·.name)).indexOf name
      ∧ name ∈ attachments.map (·.name) := by
  rw [attachment_scan_compile attachments name index hbound] at h
  split at h
  · rename_i each heach
    simp only [Except.ok.injEq] at h
    subst h
    refine ⟨rfl, ?_⟩
    have hlt := (List.getElem?_eq_some.mp heach).1
    rw [← List.indexOf_lt_length]
    simpa using hlt
  · simp at h

/-! ## The subpass loop -/

theorem attachment_scan_name (attachments : List Attachment) (name : String) (a : Attachment)
    (h : attachment_scan attachments name = .ok a) : a.name = name ∧ a ∈ attachments := by
  induction attachments with
  | nil => simp [attachment_scan] at h
  | cons first rest ih =>
    simp only [attachment_scan] at h
    split at h
    · simp only [Except.ok.injEq] at h
      subst h
      simp [*]
    · obtain ⟨h1, h2⟩ := ih h
      exact ⟨h1, List.mem_cons_of_mem _ h2⟩

/-- The lookup returns exactly for the names some attachment carries; otherwise it aborts. -/
theorem attachment_scan_total (attachments : List Attachment) (name : String) :
    (name ∈ attachments.map (·.name) ∧ ∃ a, attachment_scan attachments name = .ok a)
    ∨ (name ∉ attachments.map (·.name) ∧ attachment_scan attachments name = .error .abort) := by
  induction attachments with
  | nil => right; simp [attachment_scan]
  | cons first rest ih =>
    by_cases hname : first.name = name
    · left
      simp [attachment_scan, hname]
    · rcases ih with ⟨hmem, a, ha⟩ | ⟨hmem, ha⟩
      · left
        refine ⟨by simp [hmem], a, ?_⟩
        simp [attachment_scan, hname, ha]
      · right
        refine ⟨?_, ?_⟩
        · simp only [List.map_cons, List.mem_cons, not_or]
          exact ⟨fun h => hname h.symm, hmem⟩
        · simp [attachment_scan, hname, ha]

/-- Resolving a list of names returns exactly when every name is carried by some
attachment; otherwise it aborts. -/
theorem resolve_all_total (render_pass : RenderPass) (names : List String) :
    ((∀ name ∈ names, name ∈ render_pass._attachments.map (·.name))
      ∧ ∃ resolved, resolve_all render_pass names = .ok resolved)
    ∨ ((∃ name ∈ names, name ∉ render_pass._attachments.map (·.name))
      ∧ resolve_all render_pass names = .error .abort) := by
  induction names with
  | nil => left; simp [resolve_all]
  | cons name rest ih =>
    rcases attachment_scan_total render_pass._attachments name with ⟨hmem, a, ha⟩ | ⟨hmem, ha⟩
    · rcases ih with ⟨hall, resolved, hres⟩ | ⟨hex, hres⟩
      · left
        refine ⟨?_, a :: resolved, ?_⟩
        · intro n hn
          rcases List.mem_cons.mp hn with rfl | hn
          · exact hmem
          · exact hall n hn
        · simp [resolve_all, RenderPass.attachment, ha, hres, bind, Except.bind, pure, Except.pure]
      · right
        obtain ⟨n, hn, hnot⟩ := hex
        refine ⟨⟨n, List.mem_cons_of_mem _ hn, hnot⟩, ?_⟩
        simp [resolve_all, RenderPass.attachment, ha, hres, bind, Except.bind]
    · right
      refine ⟨⟨name, List.mem_cons_self _ _, hmem⟩, ?_⟩
      simp [resolve_all, RenderPass.attachment, ha, bind, Except.bind]

/-- The resolved attachments carry the listed names, in order, and belong to the Pass. -/
theorem resolve_all_names (render_pass : RenderPass) (names : List String) :
    ∀ resolved, resolve_all render_pass names = .ok resolved →
      resolved.map (·.name) = names ∧ ∀ a ∈ resolved, a ∈ render_pass._attachments := by
  induction names with
  | nil =>
    intro resolved h
    simp only [resolve_all, Except.ok.injEq] at h
    subst h
    simp
  | cons name rest ih =>
    intro resolved h
    simp only [resolve_all, RenderPass.attachment, bind, Except.bind, pure, Except.pure] at h
    split at h
    · simp at h
    rename_i a ha
    split at h
    · simp at h
    rename_i tail htail
    simp only [Except.ok.injEq] at h
    subst h
    obtain ⟨hn, hm⟩ := ih tail htail
    obtain ⟨han, ham⟩ := attachment_scan_name _ _ _ ha
    refine ⟨by simp [han, hn], ?_⟩
    intro b hb
    rcases List.mem_cons.mp hb with rfl | hb
    · exact ham
    · exact hm b hb

/-- The loop over `each.attachments`, in closed form: the colour references of the
resolved attachments are appended in order, and the depth-stencil reference becomes that
of the last resolved attachment with a depth or stencil aspect. -/
theorem bind_attachments_eq (render_pass : RenderPass) (names : List String) :
    ∀ storage : SubpassStorage,
      bind_attachments render_pass names storage
        = (resolve_all render_pass names).map (fun resolved =>
            { storage with
              depth_attachment :=
                match (resolved.filter (·.depth_or_stencil)).getLast? with
                | some a => some a.reference
                | none => storage.depth_attachment
              color_attachments := storage.color_attachments
                ++ (resolved.filter (fun a => !a.depth_or_stencil)).map (·.reference) }) := by
  induction names with
  | nil => intro storage; simp [bind_attachments, resolve_all, Except.map]
  | cons name rest ih =>
    intro storage
    simp only [bind_attachments, resolve_all, bind, Except.bind, pure, Except.pure]
    cases hlook : render_pass.attachment name with
    | error e => simp [Except.map]
    | ok a =>
      simp only []
      by_cases hds : a.image.aspect &&&
          (VK_IMAGE_ASPECT_STENCIL_BIT ||| VK_IMAGE_ASPECT_DEPTH_BIT) ≠ 0
      · have hds' : a.depth_or_stencil = true := by simp [Attachment.depth_or_stencil, hds]
        rw [if_pos hds, ih]
        cases resolve_all render_pass rest with
        | error e => simp [Except.map]
        | ok resolved =>
          simp only [Except.map, List.filter_cons, hds', if_true, List.getLast?_cons]
          cases (List.filter (·.depth_or_stencil) resolved).getLast? <;> simp
      · have hds' : a.depth_or_stencil = false := by simp [Attachment.depth_or_stencil, hds]
        rw [if_neg hds, ih]
        cases resolve_all render_pass rest with
        | error e => simp [Except.map]
        | ok resolved =>
          simp [Except.map, List.filter_cons, hds']

/-- The loop over `each.input`, in closed form. -/
theorem bind_input_eq (render_pass : RenderPass) (names : List String) :
    ∀ storage : SubpassStorage,
      bind_input render_pass names storage
        = (resolve_all render_pass names).map (fun resolved =>
            { storage with
              input_attachments := storage.input_attachments ++ resolved.map (·.reference) }) := by
  induction names with
  | nil => intro storage; simp [bind_input, resolve_all, Except.map]
  | cons name rest ih =>
    intro storage
    simp only [bind_input, resolve_all, bind, Except.bind, pure, Except.pure]
    cases hlook : render_pass.attachment name with
    | error e => simp [Except.map]
    | ok a =>
      simp only []
      rw [ih]
      cases resolve_all render_pass rest with
      | error e => simp [Except.map]
      | ok resolved => simp [Except.map]

/-- The loop over `each.preserve`, in closed form. -/
theorem bind_preserve_eq (render_pass : RenderPass) (names : List String) :
    ∀ storage : SubpassStorage,
      bind_preserve render_pass names storage
        = (resolve_all render_pass names).map (fun resolved =>
            { storage with
              preserve_attachments := storage.preserve_attachments
                ++ resolved.map (·.reference.attachment) }) := by
  induction names with
  | nil => intro storage; simp [bind_preserve, resolve_all, Except.map]
  | cons name rest ih =>
    intro storage
    simp only [bind_preserve, resolve_all, bind, Except.bind, pure, Except.pure]
    cases hlook : render_pass.attachment name with
    | error e => simp [Except.map]
    | ok a =>
      simp only []
      rw [ih]
      cases resolve_all render_pass rest with
      | error e => simp [Except.map]
      | ok resolved => simp [Except.map]

/-- The closed form of the `SubpassStorage` built from resolved attachments. -/
theorem compile_subpass_storage_total (render_pass : RenderPass) (each : SubpassInfo) :
    ((∀ name ∈ each.names, name ∈ render_pass._attachments.map (·.name))
      ∧ ∃ bound input preserve,
          resolve_all render_pass each.attachments = .ok bound
          ∧ resolve_all render_pass each.input = .ok input
          ∧ resolve_all render_pass each.preserve = .ok preserve
          ∧ compile_subpass_storage render_pass each = .ok
              { depth_attachment :=
                  ((bound.filter (·.depth_or_stencil)).getLast?).map (·.reference)
                color_attachments :=
                  (bound.filter (fun a => !a.depth_or_stencil)).map (·.reference)
                input_attachments := input.map (·.reference)
                preserve_attachments := preserve.map (·.reference.attachment) })
    ∨ ((∃ name ∈ each.names, name ∉ render_pass._attachments.map (·.name))
      ∧ compile_subpass_storage render_pass each = .error .abort) := by
  simp only [compile_subpass_storage, bind, Except.bind, bind_attachments_eq, bind_input_eq,
    bind_preserve_eq, SubpassInfo.names, List.mem_append]
  rcases resolve_all_total render_pass each.attachments with ⟨ha, bound, hb⟩ | ⟨⟨n, hn, hx⟩, hb⟩
  · rcases resolve_all_total render_pass each.input with ⟨hi, input, hin⟩ | ⟨⟨n, hn, hx⟩, hin⟩
    · rcases resolve_all_total render_pass each.preserve with
        ⟨hp, preserve, hpr⟩ | ⟨⟨n, hn, hx⟩, hpr⟩
      · left
        refine ⟨?_, bound, input, preserve, hb, hin, hpr, ?_⟩
        · rintro name ((h | h) | h)
          · exact ha name h
          · exact hi name h
          · exact hp name h
        · simp only [hb, hin, hpr, Except.map, SubpassStorage.empty, List.nil_append]
          cases (List.filter (·.depth_or_stencil) bound).getLast? <;> rfl
      · right
        exact ⟨⟨n, Or.inr hn, hx⟩, by simp [hb, hin, hpr, Except.map]⟩
    · right
      exact ⟨⟨n, Or.inl (Or.inr hn), hx⟩, by simp [hb, hin, Except.map]⟩
  · right
    exact ⟨⟨n, Or.inl (Or.inl hn), hx⟩, by simp [hb, Except.map]⟩

/-- The subpass loop returns exactly when every listed name of every subpass is carried
by some attachment, with one description per subpass; otherwise it aborts. -/
theorem compile_subpasses_total (render_pass : RenderPass) (subpasses : List SubpassInfo) :
    ((∀ each ∈ subpasses, ∀ name ∈ each.names, name ∈ render_pass._attachments.map (·.name))
      ∧ ∃ descriptions, compile_subpasses render_pass subpasses = .ok descriptions
          ∧ descriptions.length = subpasses.length)
    ∨ ((∃ each ∈ subpasses, ∃ name ∈ each.names, name ∉ render_pass._attachments.map (·.name))
      ∧ compile_subpasses render_pass subpasses = .error .abort) := by
  induction subpasses with
  | nil => left; simp [compile_subpasses]
  | cons each rest ih =>
    rcases compile_subpass_storage_total render_pass each with
      ⟨hall, _, _, _, _, _, _, hst⟩ | ⟨hex, hst⟩
    · generalize hs : SubpassStorage.mk _ _ _ _ = storage at hst
      rcases ih with ⟨hrest, descriptions, hd, hlen⟩ | ⟨⟨e, he, hx⟩, hd⟩
      · left
        refine ⟨?_, subpass_description storage :: descriptions, ?_, ?_⟩
        · intro e he
          rcases List.mem_cons.mp he with rfl | he
          · exact hall
          · exact hrest e he
        · simp only [compile_subpasses, hst, hd, bind, Except.bind, pure, Except.pure]
        · simp [hlen]
      · right
        refine ⟨⟨e, List.mem_cons_of_mem _ he, hx⟩, ?_⟩
        simp only [compile_subpasses, hst, hd, bind, Except.bind]
    · right
      refine ⟨⟨each, List.mem_cons_self _ _, hex⟩, ?_⟩
      simp only [compile_subpasses, hst, bind, Except.bind]

/-- Whenever the subpass loop returns, it has compiled every subpass: its output holds, at
the position of each subpass, the description of the storage compiled from that subpass. -/
theorem compile_subpasses_getElem? (render_pass : RenderPass) (subpasses : List SubpassInfo) :
    ∀ descriptions, compile_subpasses render_pass subpasses = .ok descriptions →
      descriptions.length = subpasses.length
      ∧ ∀ (k : Nat) (each : SubpassInfo), subpasses[k]? = some each →
        ∃ storage, compile_subpass_storage render_pass each = .ok storage
          ∧ descriptions[k]? = some (subpass_description storage) := by
  induction subpasses with
  | nil =>
    intro descriptions h
    simp only [compile_subpasses, Except.ok.injEq] at h
    subst h
    simp
  | cons first rest ih =>
    intro descriptions h
    simp only [compile_subpasses, bind, Except.bind, pure, Except.pure] at h
    cases hfirst : compile_subpass_storage render_pass first with
    | error e => simp [hfirst] at h
    | ok storage =>
      cases hrest : compile_subpasses render_pass rest with
      | error e => simp [hfirst, hrest] at h
      | ok others =>
        simp only [hfirst, hrest, Except.ok.injEq] at h
        subst h
        obtain ⟨hlen, hall⟩ := ih others hrest
        refine ⟨by simp [hlen], ?_⟩
        intro k each hk
        cases k with
        | zero =>
          simp only [List.getElem?_cons_zero, Option.some.injEq] at hk
          subst hk
          exact ⟨storage, hfirst, by simp⟩
        | succ k =>
          simp only [List.getElem?_cons_succ] at hk
          obtain ⟨st, hst, hget⟩ := hall k each hk
          exact ⟨st, hst, by simpa using hget⟩

theorem compile_attachments_names (index : Nat) (attachments : List Attachment.CreateInfo) :
    (compile_attachments index attachments).map (·.name) = attachments.map (·.name) := by
  induction attachments generalizing index with
  | nil => rfl
  | cons first rest ih => simp [compile_attachments, compile_attachment, ih]

/-- Resolved attachments of a compiled list carry the position of their name as
reference index. -/
theorem resolve_all_reference (attachments : List Attachment.CreateInfo)
    (hcount : attachments.length ≤ 2 ^ 32) (handle : Nat) (framebuffers : List Nat)
    (names : List String) :
    ∀ resolved,
      resolve_all ⟨handle, compile_attachments 0 attachments, framebuffers⟩ names = .ok resolved →
      resolved.map (·.reference.attachment)
        = names.map (fun name => (attachments.map (·.name)).indexOf name) := by
  induction names with
  | nil =>
    intro resolved h
    simp only [resolve_all, Except.ok.injEq] at h
    subst h
    rfl
  | cons name rest ih =>
    intro resolved h
    simp only [resolve_all, RenderPass.attachment, bind, Except.bind, pure, Except.pure] at h
    split at h
    · simp at h
    rename_i a ha
    split at h
    · simp at h
    rename_i tail htail
    simp only [Except.ok.injEq] at h
    subst h
    have hidx := (attachment_scan_reference attachments name 0 (by omega) a ha).1
    simp only [List.map_cons, ih tail htail, hidx, Nat.zero_add]

/-- C2: with pairwise distinct names (and no more attachments than a 32-bit counter
counts), the first loop of `RenderPass::create` gives the i-th attachment the reference
index i, `RenderPass::attachment` resolves the i-th name to index i, and the input,
preserve, colour and depth-stencil references of every compiled subpass carry the
position of the listed name in the attachment list. -/
theorem attachment_index_is_position (debug : Bool) (device : Device)
    (info : RenderPass.CreateInfo)
    (hdistinct : (info.attachments.map (·.name)).Nodup)
    (hcount : info.attachments.length ≤ 2 ^ 32) :
    (∀ compiled, RenderPass.create debug device info = .ok compiled →
        compiled.render_pass._attachments = compile_attachments 0 info.attachments)
    ∧ (∀ i each, info.attachments[i]? = some each →
        ((compile_attachments 0 info.attachments)[i]?).map (·.reference.attachment) = some i
        ∧ ∀ handle framebuffers,
            (RenderPass.attachment ⟨handle, compile_attachments 0 info.attachments, framebuffers⟩
              each.name).map (·.reference.attachment) = .ok i)
    ∧ (∀ handle framebuffers each storage,
        compile_subpass_storage ⟨handle, compile_attachments 0 info.attachments, framebuffers⟩
          each = .ok storage →
        storage.input_attachments.map (·.attachment)
            = each.input.map (fun name => (info.attachments.map (·.name)).indexOf name)
        ∧ storage.preserve_attachments
            = each.preserve.map (fun name => (info.attachments.map (·.name)).indexOf name)
        ∧ (∀ r ∈ storage.color_attachments, ∃ name ∈ each.attachments,
            r.attachment = (info.attachments.map (·.name)).indexOf name)
        ∧ (∀ r ∈ storage.depth_attachment, ∃ name ∈ each.attachments,
            r.attachment = (info.attachments.map (·.name)).indexOf name)) := by
  refine ⟨fun compiled h => (create_ok debug device info compiled h).2.2, ?_, ?_⟩
  · intro i each heach
    obtain ⟨hi, hget⟩ := List.getElem?_eq_some.mp heach
    have hpos : (info.attachments.map (·.name)).indexOf each.name = i := by
      have := List.indexOf_getElem hdistinct i (by simpa using hi)
      simpa [hget] using this
    refine ⟨?_, ?_⟩
    · rw [compile_attachments_getElem? info.attachments 0 i (by omega), heach]
      simp [compile_attachment]
    · intro handle framebuffers
      simp only [RenderPass.attachment]
      rw [attachment_scan_compile info.attachments each.name 0 (by omega), hpos, heach]
      simp [Except.map, compile_attachment]
  · intro handle framebuffers each storage hst
    rcases compile_subpass_storage_total
        ⟨handle, compile_attachments 0 info.attachments, framebuffers⟩ each with
      ⟨_, bound, input, preserve, hb, hin, hpr, heq⟩ | ⟨_, herr⟩
    · rw [heq] at hst
      simp only [Except.ok.injEq] at hst
      subst hst
      have hbound := resolve_all_reference info.attachments hcount handle framebuffers _ _ hb
      have hbn := (resolve_all_names _ _ _ hb).1
      have key : ∀ a ∈ bound, ∃ name ∈ each.attachments,
          a.reference.attachment = (info.attachments.map (·.name)).indexOf name := by
        intro a ha
        obtain ⟨k, hk, rfl⟩ := List.getElem_of_mem ha
        have h1 : (bound.map (·.reference.attachment))[k]? = some bound[k].reference.attachment := by
          simp [List.getElem?_eq_getElem hk]
        have hk' : k < each.attachments.length := by
          have := congrArg List.length hbn
          simp only [List.length_map] at this
          omega
        rw [hbound] at h1
        simp only [List.getElem?_map, List.getElem?_eq_getElem hk', Option.map_some',
          Option.some.injEq] at h1
        exact ⟨each.attachments[k], List.getElem_mem _, h1.symm⟩
      refine ⟨?_, ?_, ?_, ?_⟩
      · simpa using resolve_all_reference info.attachments hcount handle framebuffers _ _ hin
      · simpa using resolve_all_reference info.attachments hcount handle framebuffers _ _ hpr
      · intro r hr
        simp only [List.mem_map, List.mem_filter] at hr
        obtain ⟨a, ⟨ha, _⟩, rfl⟩ := hr
        exact key a ha
      · intro r hr
        simp only [Option.mem_def, Option.map_eq_some'] at hr
        obtain ⟨a, ha, rfl⟩ := hr
        have hmem : a ∈ bound.filter (·.depth_or_stencil) := List.mem_of_getLast?_eq_some ha
        exact key a (List.mem_filter.mp hmem).1
    · rw [herr] at hst
      simp at hst

/-- The indices `attachment_index_is_position` speaks of, on a colour attachment
followed by a depth attachment: the name "depth" resolves to reference index 1. -/
theorem attachment_index_is_position_witness :
    (List.map (·.name)
        [(⟨⟨10, 11, 12, 1, 44, 1, 64, 64⟩, "color", 0, true, false, 6, .none⟩ : Attachment.CreateInfo),
          ⟨⟨20, 21, 22, 2, 126, 1, 64, 64⟩, "depth", 0, true, false, 3, .none⟩]).Nodup
    ∧ (RenderPass.attachment
        ⟨1, compile_attachments 0
          [⟨⟨10, 11, 12, 1, 44, 1, 64, 64⟩, "color", 0, true, false, 6, .none⟩,
            ⟨⟨20, 21, 22, 2, 126, 1, 64, 64⟩, "depth", 0, true, false, 3, .none⟩], []⟩
        "depth").map (·.reference.attachment) = .ok 1 :=
  ⟨by decide,
    ((attachment_index_is_position false Device.succeeding
      ⟨[⟨⟨10, 11, 12, 1, 44, 1, 64, 64⟩, "color", 0, true, false, 6, .none⟩,
        ⟨⟨20, 21, 22, 2, 126, 1, 64, 64⟩, "depth", 0, true, false, 3, .none⟩], [], []⟩
      (by decide) (by decide)).2.1 1
        ⟨⟨20, 21, 22, 2, 126, 1, 64, 64⟩, "depth", 0, true, false, 3, .none⟩ rfl).2 1 []⟩

/-! ## What `RenderPass::create` hands to the device -/

/-- Whenever `RenderPass::create` returns, the create-info of the Pass holds the
descriptions of the first loop, the output of the subpass loop and the mapped
dependencies. -/
theorem create_ok_info (debug : Bool) (device : Device) (info : RenderPass.CreateInfo)
    (compiled : Compiled) (h : RenderPass.create debug device info = .ok compiled) :
    compiled.render_pass_create_info.attachments
        = (compile_attachments 0 info.attachments).map (·.description)
      ∧ compile_subpasses ⟨0, compile_attachments 0 info.attachments, []⟩ info.subpasses
        = .ok compiled.render_pass_create_info.subpasses
      ∧ compiled.render_pass_create_info.dependencies
        = info.dependencies.map compile_dependency := by
  simp only [RenderPass.create, bind, Except.bind, pure, Except.pure] at h
  split at h
  · simp at h
  rename_i subpasses hsubpasses
  split at h
  · simp at h
  split at h
  · simp at h
  split at h
  · simp at h
  simp only [Except.ok.injEq] at h
  subst h
  exact ⟨rfl, hsubpasses, rfl⟩

/-- Element `i` of the first loop's output is the compiled `i`-th input, for some value
of the loop counter. -/
theorem compile_attachments_getElem?_counter (attachments : List Attachment.CreateInfo) :
    ∀ (index i : Nat), ∃ counter,
      (compile_attachments index attachments)[i]?
        = (attachments[i]?).map (compile_attachment counter) := by
  induction attachments with
  | nil => intro index i; exact ⟨0, by simp [compile_attachments]⟩
  | cons first rest ih =>
    intro index i
    cases i with
    | zero => exact ⟨index, by simp [compile_attachments]⟩
    | succ i =>
      obtain ⟨counter, hc⟩ := ih (u32 (index + 1)) i
      exact ⟨counter, by simpa [compile_attachments] using hc⟩

theorem lor_eq_zero (a b : Nat) : a ||| b = 0 ↔ a = 0 ∧ b = 0 := by
  constructor
  · intro h
    have hbit : ∀ i, (a.testBit i || b.testBit i) = false := by
      intro i
      rw [← Nat.testBit_or, h, Nat.zero_testBit]
    constructor <;> apply Nat.eq_of_testBit_eq <;> intro i <;> have := hbit i <;>
      simp only [Bool.or_eq_false_iff] at this <;> simp [this]
  · rintro ⟨rfl, rfl⟩
    rfl

/-- The test of line 76 holds exactly when the aspect has the depth bit or the stencil bit. -/
theorem depth_or_stencil_iff (a : Attachment) :
    a.depth_or_stencil = true
      ↔ a.image.aspect &&& VK_IMAGE_ASPECT_DEPTH_BIT ≠ 0
        ∨ a.image.aspect &&& VK_IMAGE_ASPECT_STENCIL_BIT ≠ 0 := by
  simp only [Attachment.depth_or_stencil, decide_eq_true_eq, Nat.and_or_distrib_left, ne_eq,
    lor_eq_zero]
  tauto

/-- C7: one colour attachment "color" (framebuffer 0, clear colour supplied, no discard)
and one subpass listing ["color"] compile, on every device without assertions and on
every succeeding device with them, to a Pass with 1 attachment, 1 subpass description
holding one colour reference to index 0 and no depth-stencil reference, 1 framebuffer,
and `clears()` equal to the one supplied clear colour. -/
theorem single_color_attachment_pass (device : Device) (image : Image) (owning : Bool)
    (layout : Nat) (clear : ClearColor) (dependencies : List SubpassDependency)
    (pass_handle : Nat) (framebuffer_handle : Nat) (debug : Bool) :
    (∃ compiled,
      RenderPass.create false device
        ⟨[⟨{ image with aspect := VK_IMAGE_ASPECT_COLOR_BIT }, "color", 0, owning, false, layout,
            .color clear⟩], [⟨["color"], [], []⟩], dependencies⟩ = .ok compiled
      ∧ compiled.render_pass._attachments.length = 1
      ∧ compiled.render_pass_create_info.attachments.length = 1
      ∧ compiled.render_pass_create_info.subpasses.map
          (fun s => (s.colorAttachments.map (·.attachment), s.depthStencilAttachment)) = [([0], none)]
      ∧ compiled.render_pass._framebuffers.length = 1
      ∧ compiled.framebuffer_create_infos.length = 1
      ∧ compiled.render_pass.clears = [.color clear.value])
    ∧ (∃ compiled,
      RenderPass.create debug ⟨fun _ => (VK_SUCCESS, pass_handle), fun _ _ => (VK_SUCCESS, framebuffer_handle)⟩
        ⟨[⟨{ image with aspect := VK_IMAGE_ASPECT_COLOR_BIT }, "color", 0, owning, false, layout,
            .color clear⟩], [⟨["color"], [], []⟩], dependencies⟩ = .ok compiled
      ∧ compiled.render_pass._attachments.length = 1
      ∧ compiled.render_pass_create_info.attachments.length = 1
      ∧ compiled.render_pass_create_info.subpasses.map
          (fun s => (s.colorAttachments.map (·.attachment), s.depthStencilAttachment)) = [([0], none)]
      ∧ compiled.render_pass._framebuffers = [framebuffer_handle]
      ∧ compiled.framebuffer_create_infos.length = 1
      ∧ compiled.render_pass.clears = [.color clear.value]) := by
  constructor
  · simp [RenderPass.create, compile_attachments, compile_attachment, compile_subpasses,
      compile_subpass_storage, bind_attachments, bind_input, bind_preserve, RenderPass.attachment,
      attachment_scan, subpass_description, SubpassStorage.empty, group_views, group_view,
      create_framebuffers, framebuffer_size_after, qz_vulkan_check, RenderPass.clears,
      ClearValue.value, VK_IMAGE_ASPECT_COLOR_BIT, VK_IMAGE_ASPECT_STENCIL_BIT,
      VK_IMAGE_ASPECT_DEPTH_BIT, bind, Except.bind, pure, Except.pure]
  · cases debug <;>
    simp [RenderPass.create, compile_attachments, compile_attachment, compile_subpasses,
      compile_subpass_storage, bind_attachments, bind_input, bind_preserve, RenderPass.attachment,
      attachment_scan, subpass_description, SubpassStorage.empty, group_views, group_view,
      create_framebuffers, framebuffer_size_after, qz_vulkan_check, RenderPass.clears,
      ClearValue.value, VK_IMAGE_ASPECT_COLOR_BIT, VK_IMAGE_ASPECT_STENCIL_BIT,
      VK_IMAGE_ASPECT_DEPTH_BIT, VK_SUCCESS, bind, Except.bind, pure, Except.pure]

/-- C8: the attachment compiled from the i-th input has load op CLEAR when a clear value
is supplied and LOAD otherwise, store op DONT_CARE when discard is requested and STORE
otherwise, initial layout UNDEFINED, the caller's final layout, and the reference layout
deduced from the aspect (colour, depth, stencil, depth|stencil); these descriptions are the
ones handed to the device. -/
theorem attachment_description_derivation (debug : Bool) (device : Device)
    (info : RenderPass.CreateInfo) (i : Nat) (each : Attachment.CreateInfo)
    (heach : info.attachments[i]? = some each) :
    (∃ a, (compile_attachments 0 info.attachments)[i]? = some a
      ∧ a.description.loadOp
          = (if each.clear.type = ClearValue.Kind.none then VK_ATTACHMENT_LOAD_OP_LOAD
             else VK_ATTACHMENT_LOAD_OP_CLEAR)
      ∧ a.description.storeOp
          = (if each.discard = true then VK_ATTACHMENT_STORE_OP_DONT_CARE
             else VK_ATTACHMENT_STORE_OP_STORE)
      ∧ a.description.initialLayout = VK_IMAGE_LAYOUT_UNDEFINED
      ∧ a.description.finalLayout = each.layout
      ∧ (each.image.aspect = VK_IMAGE_ASPECT_COLOR_BIT →
          a.reference.layout = VK_IMAGE_LAYOUT_COLOR_ATTACHMENT_OPTIMAL)
      ∧ (each.image.aspect = VK_IMAGE_ASPECT_DEPTH_BIT →
          a.reference.layout = VK_IMAGE_LAYOUT_DEPTH_ATTACHMENT_OPTIMAL)
      ∧ (each.image.aspect = VK_IMAGE_ASPECT_STENCIL_BIT →
          a.reference.layout = VK_IMAGE_LAYOUT_STENCIL_ATTACHMENT_OPTIMAL)
      ∧ (each.image.aspect = VK_IMAGE_ASPECT_DEPTH_BIT ||| VK_IMAGE_ASPECT_STENCIL_BIT →
          a.reference.layout = VK_IMAGE_LAYOUT_DEPTH_STENCIL_ATTACHMENT_OPTIMAL))
    ∧ (∀ compiled, RenderPass.create debug device info = .ok compiled →
        compiled.render_pass._attachments = compile_attachments 0 info.attachments
        ∧ compiled.render_pass_create_info.attachments
          = (compile_attachments 0 info.attachments).map (·.description)) := by
  constructor
  · obtain ⟨counter, hc⟩ := compile_attachments_getElem?_counter info.attachments 0 i
    rw [heach] at hc
    refine ⟨compile_attachment counter each, hc, ?_, rfl, rfl, rfl, ?_, ?_, ?_, ?_⟩
    · by_cases hk : each.clear.type = ClearValue.Kind.none <;> simp [compile_attachment, hk]
    all_goals
      intro haspect
      simp only [compile_attachment, haspect]
      rfl
  · intro compiled h
    exact ⟨(create_ok debug device info compiled h).2.2,
      (create_ok_info debug device info compiled h).1⟩

/-- The derivation of `attachment_description_derivation` on a depth-stencil attachment
that is cleared and discarded: load op CLEAR, store op DONT_CARE. -/
theorem attachment_description_derivation_witness :
    ∃ a, (compile_attachments 0
        [(⟨⟨20, 21, 22, 6, 129, 1, 64, 64⟩, "depth", 0, true, true, 3,
          .depth ⟨⟨0, 0⟩⟩⟩ : Attachment.CreateInfo)])[0]? = some a
      ∧ a.description.loadOp = VK_ATTACHMENT_LOAD_OP_CLEAR
      ∧ a.description.storeOp = VK_ATTACHMENT_STORE_OP_DONT_CARE
      ∧ a.reference.layout = VK_IMAGE_LAYOUT_DEPTH_STENCIL_ATTACHMENT_OPTIMAL := by
  obtain ⟨a, ha, hload, hstore, _, _, _, _, _, hlayout⟩ :=
    (attachment_description_derivation false Device.succeeding
      ⟨[⟨⟨20, 21, 22, 6, 129, 1, 64, 64⟩, "depth", 0, true, true, 3, .depth ⟨⟨0, 0⟩⟩⟩], [], []⟩
      0 ⟨⟨20, 21, 22, 6, 129, 1, 64, 64⟩, "depth", 0, true, true, 3, .depth ⟨⟨0, 0⟩⟩⟩ rfl).1
  exact ⟨a, ha, hload, hstore, hlayout rfl⟩

/-- In the storage compiled from a subpass whose listed names all resolve, the colour
references are the references of the listed attachments with neither the depth nor the
stencil bit, in listed order; the optional depth-stencil reference is present exactly when
some listed attachment has the depth or the stencil bit, and when exactly one such
attachment is listed it is the reference of that attachment. -/
theorem compile_subpass_storage_references (render_pass : RenderPass) (each : SubpassInfo)
    (hresolve : ∀ name ∈ each.names, name ∈ render_pass._attachments.map (·.name)) :
    ∃ storage listed,
      compile_subpass_storage render_pass each = .ok storage
      ∧ resolve_all render_pass each.attachments = .ok listed
      ∧ listed.map (·.name) = each.attachments
      ∧ (subpass_description storage).colorAttachments
          = (listed.filter (fun a =>
              decide (a.image.aspect &&& VK_IMAGE_ASPECT_DEPTH_BIT = 0
                ∧ a.image.aspect &&& VK_IMAGE_ASPECT_STENCIL_BIT = 0))).map (·.reference)
      ∧ (((subpass_description storage).depthStencilAttachment).isSome = true
          ↔ ∃ a ∈ listed, a.image.aspect &&& VK_IMAGE_ASPECT_DEPTH_BIT ≠ 0
              ∨ a.image.aspect &&& VK_IMAGE_ASPECT_STENCIL_BIT ≠ 0)
      ∧ (∀ a, listed.filter (fun a =>
              decide (a.image.aspect &&& VK_IMAGE_ASPECT_DEPTH_BIT ≠ 0
                ∨ a.image.aspect &&& VK_IMAGE_ASPECT_STENCIL_BIT ≠ 0)) = [a] →
          (subpass_description storage).depthStencilAttachment = some a.reference) := by
  have hfilter : (fun a : Attachment => decide (a.image.aspect &&& VK_IMAGE_ASPECT_DEPTH_BIT ≠ 0
      ∨ a.image.aspect &&& VK_IMAGE_ASPECT_STENCIL_BIT ≠ 0)) = (·.depth_or_stencil) := by
    funext a
    rw [Bool.eq_iff_iff]
    simp only [decide_eq_true_eq]
    exact (depth_or_stencil_iff a).symm
  have hcolor : (fun a : Attachment => decide (a.image.aspect &&& VK_IMAGE_ASPECT_DEPTH_BIT = 0
      ∧ a.image.aspect &&& VK_IMAGE_ASPECT_STENCIL_BIT = 0)) = (fun a => !a.depth_or_stencil) := by
    funext a
    rw [Bool.eq_iff_iff]
    simp only [decide_eq_true_eq, Bool.not_eq_true', ← Bool.not_eq_true, depth_or_stencil_iff]
    tauto
  rcases compile_subpass_storage_total render_pass each with
    ⟨_, bound, input, preserve, hb, _, _, heq⟩ | ⟨⟨name, hname, hmissing⟩, _⟩
  · refine ⟨_, bound, heq, hb, (resolve_all_names _ _ _ hb).1, ?_, ?_, ?_⟩
    · simp only [subpass_description, hcolor]
    · simp only [subpass_description, Option.isSome_map', ← depth_or_stencil_iff]
      rw [Option.isSome_iff_ne_none, ne_eq, List.getLast?_eq_none_iff, List.filter_eq_nil_iff]
      push_neg
      rfl
    · intro a ha
      rw [hfilter] at ha
      simp [subpass_description, ha]
  · exact absurd (hresolve name hname) hmissing

/-- C10: when some name listed by some subpass (attachments, input or preserve) is not
the name of an attachment, `RenderPass::create` aborts and returns no Pass; the lookup of
a name that some attachment carries returns that attachment, and when all listed names
are attachment names the subpass loop returns its descriptions. -/
theorem unknown_attachment_name_aborts (debug : Bool) (device : Device)
    (info : RenderPass.CreateInfo) :
    ((∃ each ∈ info.subpasses, ∃ name ∈ each.names, name ∉ info.attachments.map (·.name)) →
        RenderPass.create debug device info = .error .abort)
    ∧ (∀ (render_pass : RenderPass) (name : String),
        name ∈ render_pass._attachments.map (·.name) →
        ∃ a, render_pass.attachment name = .ok a ∧ a.name = name)
    ∧ ((∀ each ∈ info.subpasses, ∀ name ∈ each.names, name ∈ info.attachments.map (·.name)) →
        ∃ descriptions,
          compile_subpasses ⟨0, compile_attachments 0 info.attachments, []⟩ info.subpasses
            = .ok descriptions ∧ descriptions.length = info.subpasses.length) := by
  refine ⟨?_, ?_, ?_⟩
  · intro hmissing
    rcases compile_subpasses_total ⟨0, compile_attachments 0 info.attachments, []⟩
        info.subpasses with ⟨hall, _⟩ | ⟨_, habort⟩
    · obtain ⟨each, heach, name, hname, hnot⟩ := hmissing
      have := hall each heach name hname
      rw [compile_attachments_names] at this
      exact absurd this hnot
    · simp only [RenderPass.create, habort, bind, Except.bind]
  · intro render_pass name hname
    rcases attachment_scan_total render_pass._attachments name with ⟨_, a, ha⟩ | ⟨hnot, _⟩
    · exact ⟨a, ha, (attachment_scan_name _ _ _ ha).1⟩
    · exact absurd hname hnot
  · intro hall
    rcases compile_subpasses_total ⟨0, compile_attachments 0 info.attachments, []⟩
        info.subpasses with ⟨_, descriptions, hd, hlen⟩ | ⟨⟨each, heach, name, hname, hnot⟩, _⟩
    · exact ⟨descriptions, hd, hlen⟩
    · have := hall each heach name hname
      rw [← compile_attachments_names 0] at this
      exact absurd this hnot

/-- The abort of `unknown_attachment_name_aborts` on a subpass that preserves the
unknown name "shadow". -/
theorem unknown_attachment_name_aborts_witness :
    RenderPass.create true Device.succeeding
      ⟨[⟨⟨10, 11, 12, 1, 44, 1, 64, 64⟩, "color", 0, true, false, 6, .none⟩],
        [⟨["color"], ["shadow"], []⟩], []⟩ = .error .abort :=
  (unknown_attachment_name_aborts true Device.succeeding
    ⟨[⟨⟨10, 11, 12, 1, 44, 1, 64, 64⟩, "color", 0, true, false, 6, .none⟩],
      [⟨["color"], ["shadow"], []⟩], []⟩).1
    ⟨⟨["color"], ["shadow"], []⟩, List.mem_singleton.mpr rfl, "shadow", by decide, by decide⟩

/-! ## The frame index of the renderer -/

theorem acquire_next_frame_keeps (debug : Bool) (renderer : Renderer) (context : Context)
    (response : AcquireResponse)
    (result : Renderer × (CommandBuffer × FrameInfo) × List DeviceCall)
    (h : acquire_next_frame debug renderer context response = .ok result) :
    result.1.frame_idx = renderer.frame_idx ∧ result.1.swapchain = renderer.swapchain := by
  simp only [acquire_next_frame, bind, Except.bind, pure, Except.pure] at h
  repeat' split at h
  all_goals first
    | (simp only [Except.ok.injEq] at h; subst h; exact ⟨rfl, rfl⟩)
    | simp at h

theorem present_frame_advances (debug : Bool) (renderer : Renderer) (context : Context)
    (command_buffer : CommandBuffer) (frame : FrameInfo) (response : PresentResponse)
    (result : Renderer × List DeviceCall)
    (h : present_frame debug renderer context command_buffer frame response = .ok result) :
    result.1.frame_idx = u32 (renderer.frame_idx + 1) % meta.in_flight
      ∧ result.1.swapchain = renderer.swapchain := by
  simp only [present_frame, bind, Except.bind, pure, Except.pure] at h
  repeat' split at h
  all_goals first
    | (simp only [Except.ok.injEq] at h; subst h; exact ⟨rfl, rfl⟩)
    | simp at h

theorem acquire_next_frame_accepted (debug : Bool) (renderer : Renderer) (context : Context)
    (response : AcquireResponse) (hslot : renderer.frame_idx < meta.in_flight)
    (h : (FrameCall.acquire response).accepted debug renderer.swapchain.images.length) :
    ∃ result, acquire_next_frame debug renderer context response = .ok result := by
  obtain ⟨hdebug, himage⟩ := h
  have hget : ∀ {α : Type} (a : meta.in_flight_array α),
      ∃ x, a.get renderer.frame_idx = .ok x := by
    intro α a
    simp only [meta.in_flight] at hslot
    by_cases h0 : renderer.frame_idx = 0
    · exact ⟨a.e0, by simp [meta.in_flight_array.get, h0]⟩
    · have h1 : renderer.frame_idx = 1 := by omega
      exact ⟨a.e1, by simp [meta.in_flight_array.get, h1]⟩
  obtain ⟨x1, h1⟩ := hget renderer.img_ready
  obtain ⟨x2, h2⟩ := hget renderer.cmd_wait
  obtain ⟨x3, h3⟩ := hget renderer.gfx_cmds
  obtain ⟨x4, h4⟩ := hget renderer.gfx_done
  have hc1 : qz_vulkan_check debug response.acquire_result = .ok () := by
    rcases hdebug with hd | ⟨hs, _⟩ <;> simp [qz_vulkan_check, *]
  have hc2 : qz_vulkan_check debug response.wait_result = .ok () := by
    rcases hdebug with hd | ⟨_, hs⟩ <;> simp [qz_vulkan_check, *]
  simp [acquire_next_frame, bind, Except.bind, pure, Except.pure, h1, h2, h3, h4, hc1, hc2,
    himage]

theorem present_frame_accepted (debug : Bool) (renderer : Renderer) (context : Context)
    (command_buffer : CommandBuffer) (frame : FrameInfo) (response : PresentResponse)
    (image_count : Nat)
    (h : (FrameCall.present command_buffer frame response).accepted debug image_count) :
    ∃ result, present_frame debug renderer context command_buffer frame response = .ok result := by
  have hc : qz_vulkan_check debug response.reset_result = .ok ()
      ∧ qz_vulkan_check debug response.submit_result = .ok ()
      ∧ qz_vulkan_check debug response.queue_present_result = .ok ()
      ∧ qz_vulkan_check debug response.present_result = .ok () := by
    rcases h with hd | ⟨h1, h2, h3, h4⟩ <;> simp [qz_vulkan_check, *]
  obtain ⟨h1, h2, h3, h4⟩ := hc
  simp [present_frame, bind, Except.bind, pure, Except.pure, h1, h2, h3, h4]

theorem slot_advance (slot : Nat) (hslot : slot < meta.in_flight) :
    u32 (slot + 1) % meta.in_flight = (slot + 1) % meta.in_flight := by
  simp only [meta.in_flight] at hslot ⊢
  unfold u32
  rw [Nat.mod_eq_of_lt (a := slot + 1) (by omega)]

/-- After a sequence of calls the slot index has advanced by the number of
`present_frame` calls, modulo `in_flight`; the swapchain is the same. -/
theorem run_frames_index (debug : Bool) (context : Context) (calls : List FrameCall) :
    ∀ renderer result, renderer.frame_idx < meta.in_flight →
      run_frames debug context renderer calls = .ok result →
      result.frame_idx = (renderer.frame_idx + count_presents calls) % meta.in_flight := by
  induction calls with
  | nil =>
    intro renderer result hslot h
    simp only [run_frames, Except.ok.injEq] at h
    subst h
    simp [count_presents, Nat.mod_eq_of_lt hslot]
  | cons call rest ih =>
    intro renderer result hslot h
    cases call with
    | acquire response =>
      simp only [run_frames, bind, Except.bind] at h
      split at h
      · simp at h
      rename_i step hstep
      obtain ⟨hidx, _⟩ := acquire_next_frame_keeps _ _ _ _ _ hstep
      rw [ih step.1 result (by rw [hidx]; exact hslot) h, hidx]
      simp [count_presents]
    | present command_buffer frame response =>
      simp only [run_frames, bind, Except.bind] at h
      split at h
      · simp at h
      rename_i step hstep
      obtain ⟨hidx, _⟩ := present_frame_advances _ _ _ _ _ _ _ hstep
      rw [slot_advance _ hslot] at hidx
      have hlt : step.1.frame_idx < meta.in_flight := by
        rw [hidx]
        exact Nat.mod_lt _ (by decide)
      rw [ih step.1 result hlt h, hidx]
      simp only [count_presents, meta.in_flight]
      omega

/-- A sequence of accepted calls runs to its end. -/
theorem run_frames_accepted (debug : Bool) (context : Context) (calls : List FrameCall) :
    ∀ renderer, renderer.frame_idx < meta.in_flight →
      (∀ call ∈ calls, call.accepted debug renderer.swapchain.images.length) →
      ∃ result, run_frames debug context renderer calls = .ok result := by
  induction calls with
  | nil => intro renderer _ _; exact ⟨renderer, rfl⟩
  | cons call rest ih =>
    intro renderer hslot hall
    have hcall := hall call (List.mem_cons_self _ _)
    have hrest : ∀ c ∈ rest, c.accepted debug renderer.swapchain.images.length :=
      fun c hc => hall c (List.mem_cons_of_mem _ hc)
    cases call with
    | acquire response =>
      obtain ⟨step, hstep⟩ := acquire_next_frame_accepted debug renderer context response hslot hcall
      obtain ⟨hidx, hsc⟩ := acquire_next_frame_keeps _ _ _ _ _ hstep
      obtain ⟨result, hres⟩ := ih step.1 (by rw [hidx]; exact hslot) (by rw [hsc]; exact hrest)
      exact ⟨result, by simp only [run_frames, hstep, bind, Except.bind, hres]⟩
    | present command_buffer frame response =>
      obtain ⟨step, hstep⟩ :=
        present_frame_accepted debug renderer context command_buffer frame response _ hcall
      obtain ⟨hidx, hsc⟩ := present_frame_advances _ _ _ _ _ _ _ hstep
      have hlt : step.1.frame_idx < meta.in_flight := by
        rw [hidx]
        exact Nat.mod_lt _ (by decide)
      obtain ⟨result, hres⟩ := ih step.1 hlt (by rw [hsc]; exact hrest)
      exact ⟨result, by simp only [run_frames, hstep, bind, Except.bind, hres]⟩

theorem Renderer.create_fresh (debug : Bool) (context : Context) (swapchain : Swapchain)
    (response : CreateResponse) (renderer : Renderer)
    (h : Renderer.create debug context swapchain response = .ok renderer) :
    renderer.frame_idx = 0 ∧ renderer.swapchain = swapchain := by
  simp only [Renderer.create, bind, Except.bind, pure, Except.pure] at h
  repeat' split at h
  all_goals first
    | (simp only [Except.ok.injEq] at h; subst h; exact ⟨rfl, rfl⟩)
    | simp at h

/-- C3: a renderer returned by `Renderer::create` has `frame_idx = 0`; after any sequence
of `acquire_next_frame` and `present_frame` calls that contains k `present_frame` calls,
with whatever command buffers, frame infos and device responses, `frame_idx` is
k mod `in_flight` (= k mod 2); `acquire_next_frame` leaves `frame_idx` as it was; and every
sequence of calls the device accepts runs to its end. -/
theorem frame_index_round_robin (debug : Bool) (context : Context) (swapchain : Swapchain)
    (response : CreateResponse) (renderer : Renderer)
    (hcreate : Renderer.create debug context swapchain response = .ok renderer)
    (calls : List FrameCall) :
    renderer.frame_idx = 0
    ∧ meta.in_flight = 2
    ∧ (∀ result, run_frames debug context renderer calls = .ok result →
        result.frame_idx = count_presents calls % meta.in_flight)
    ∧ ((∀ call ∈ calls, call.accepted debug swapchain.images.length) →
        ∃ result, run_frames debug context renderer calls = .ok result)
    ∧ (∀ (current : Renderer) (acquired : AcquireResponse) result,
        acquire_next_frame debug current context acquired = .ok result →
        result.1.frame_idx = current.frame_idx) := by
  obtain ⟨hzero, hsc⟩ := Renderer.create_fresh debug context swapchain response renderer hcreate
  have hslot : renderer.frame_idx < meta.in_flight := by rw [hzero]; decide
  refine ⟨hzero, rfl, ?_, ?_, ?_⟩
  · intro result h
    rw [run_frames_index debug context calls renderer result hslot h, hzero, Nat.zero_add]
  · intro hall
    exact run_frames_accepted debug context calls renderer hslot (by rw [hsc]; exact hall)
  · intro current acquired result h
    exact (acquire_next_frame_keeps _ _ _ _ _ h).1

/-- The round robin of `frame_index_round_robin` on a renderer with three swapchain
images: after two acquired frames and three presents the slot index is 3 mod 2 = 1. -/
theorem frame_index_round_robin_witness :
    Renderer.create true ⟨1, 2, 3, 4⟩ ⟨5, 6, ⟨1280, 720⟩, 44, [⟨0, 0, 0, 1, 44, 1, 1280, 720⟩]⟩
        ⟨0, ⟨7, 8⟩, ⟨(0, 9), (0, 10)⟩, ⟨(0, 11), (0, 12)⟩, ⟨(0, 13), (0, 14)⟩⟩
      = .ok ⟨⟨5, 6, ⟨1280, 720⟩, 44, [⟨0, 0, 0, 1, 44, 1, 1280, 720⟩]⟩, 0, 0,
          ⟨⟨none, 7, 4⟩, ⟨none, 8, 4⟩⟩, ⟨9, 10⟩, ⟨11, 12⟩, ⟨13, 14⟩⟩
    ∧ ∃ result,
        run_frames true ⟨1, 2, 3, 4⟩
          ⟨⟨5, 6, ⟨1280, 720⟩, 44, [⟨0, 0, 0, 1, 44, 1, 1280, 720⟩]⟩, 0, 0,
            ⟨⟨none, 7, 4⟩, ⟨none, 8, 4⟩⟩, ⟨9, 10⟩, ⟨11, 12⟩, ⟨13, 14⟩⟩
          [.acquire ⟨0, 0, 0⟩, .present ⟨none, 7, 4⟩ ⟨0, 0, 9, 11, 13, 0⟩ ⟨0, 0, 0, 0⟩,
            .acquire ⟨0, 0, 0⟩, .present ⟨none, 8, 4⟩ ⟨1, 0, 10, 12, 14, 0⟩ ⟨0, 0, 0, 0⟩,
            .present ⟨none, 7, 4⟩ ⟨0, 0, 9, 11, 13, 0⟩ ⟨0, 0, 0, 0⟩] = .ok result
        ∧ result.frame_idx = 1 := by
  refine ⟨rfl, ?_⟩
  have h := frame_index_round_robin true ⟨1, 2, 3, 4⟩
    ⟨5, 6, ⟨1280, 720⟩, 44, [⟨0, 0, 0, 1, 44, 1, 1280, 720⟩]⟩
    ⟨0, ⟨7, 8⟩, ⟨(0, 9), (0, 10)⟩, ⟨(0, 11), (0, 12)⟩, ⟨(0, 13), (0, 14)⟩⟩ _ rfl
    [.acquire ⟨0, 0, 0⟩, .present ⟨none, 7, 4⟩ ⟨0, 0, 9, 11, 13, 0⟩ ⟨0, 0, 0, 0⟩,
      .acquire ⟨0, 0, 0⟩, .present ⟨none, 8, 4⟩ ⟨1, 0, 10, 12, 14, 0⟩ ⟨0, 0, 0, 0⟩,
      .present ⟨none, 7, 4⟩ ⟨0, 0, 9, 11, 13, 0⟩ ⟨0, 0, 0, 0⟩]
  obtain ⟨result, hrun⟩ := h.2.2.2.1 (by
    intro call hcall
    simp only [List.mem_cons, List.mem_singleton, List.not_mem_nil, or_false] at hcall
    rcases hcall with rfl | rfl | rfl | rfl | rfl <;>
      simp [FrameCall.accepted, VK_SUCCESS])
  exact ⟨result, hrun, h.2.2.1 result hrun⟩

end gfx

/-! ## The asset registry -/

namespace assets

theorem checked_index_issued (debug : Bool) (assets : Registry) (handle : meta.Handle)
    (record : InternalStorage) (h : assets[handle.index]? = some record) :
    checked_index debug assets handle = .ok record := by
  have hlt : handle.index < assets.length := (List.getElem?_eq_some.mp h).1
  simp [checked_index, qz_assert, hlt, h, bind, Except.bind]

theorem checked_index_ok (debug : Bool) (assets : Registry) (handle : meta.Handle)
    (record : InternalStorage) (h : checked_index debug assets handle = .ok record) :
    assets[handle.index]? = some record := by
  simp only [checked_index, bind, Except.bind] at h
  split at h
  · simp at h
  split at h
  · rename_i r hr
    simp only [Except.ok.injEq] at h
    rw [← h]
    exact hr
  · simp at h

/-- The range check either yields the record stored at the handle's position or, when
the position is past the end, does not return. -/
theorem checked_index_cases (debug : Bool) (assets : Registry) (handle : meta.Handle) :
    (∃ record, assets[handle.index]? = some record
        ∧ checked_index debug assets handle = .ok record)
    ∨ (assets.length ≤ handle.index ∧ ∃ e, checked_index debug assets handle = .error e) := by
  by_cases hlt : handle.index < assets.length
  · left
    exact ⟨assets[handle.index], List.getElem?_eq_getElem hlt,
      checked_index_issued _ _ _ _ (List.getElem?_eq_getElem hlt)⟩
  · right
    refine ⟨by omega, ?_⟩
    have hnone : assets[handle.index]? = none := List.getElem?_eq_none (by omega)
    cases debug <;> simp [checked_index, qz_assert, hlt, hnone, bind, Except.bind]

/-- The vector after `emplace_empty`: one pending record with the empty payload more,
whose position is the handle returned, in the same array when there was room and in a new
one otherwise. -/
theorem emplace_empty_effect (growth : Nat → Nat) (table : Table) :
    (table.emplace_empty growth).1.records
        = table.records ++ [⟨gfx.StaticMesh.empty, false⟩]
    ∧ (table.emplace_empty growth).2 = ⟨table.records.length⟩
    ∧ (table.emplace_empty growth).1.block
        = (if table.records.length < table.capacity then table.block else table.block + 1)
    ∧ (table.emplace_empty growth).1.capacity
        = (if table.records.length < table.capacity then table.capacity
            else growth table.capacity) := by
  simp only [Table.emplace_empty, emplace_empty]
  split <;> simp

/-- What one step that returns does to the table: its condition held, the table never
shrinks, only `emplace_empty` issues a handle, namely the one past the previous end, only
`emplace_empty` on a full vector changes the array, and the record at an existing
position changes its flag only by `finalize` of that position, to `true`, and its payload
only by an assignment through a reference to that position. -/
theorem apply_effect (debug : Bool) (growth : Nat → Nat) (table : Table) (call : Call)
    (step : Table × Returned) (h : call.apply debug growth table = .ok step) :
    call.permitted table.block table.records.length = true
    ∧ ((call = .emplace_empty ∧ step.2 = .handle ⟨table.records.length⟩
        ∧ step.1.records.length = table.records.length + 1
        ∧ step.1.block
            = (if table.records.length < table.capacity then table.block
                else table.block + 1)
        ∧ step.1.capacity
            = (if table.records.length < table.capacity then table.capacity
                else growth table.capacity))
      ∨ (call ≠ .emplace_empty ∧ step.2.handle? = none
        ∧ step.1.records.length = table.records.length
        ∧ step.1.block = table.block ∧ step.1.capacity = table.capacity))
    ∧ ∀ (i : Nat) (record : InternalStorage), table.records[i]? = some record →
        ∃ record', step.1.records[i]? = some record'
        ∧ (record.done = true → record'.done = true)
        ∧ (call ≠ .finalize ⟨i⟩ → record'.done = record.done)
        ∧ ((∀ reference object, call = .assign reference object → reference.index ≠ i) →
            record'.object = record.object) := by
  cases call with
  | emplace_empty =>
    simp only [Call.apply, Except.ok.injEq] at h
    subst h
    obtain ⟨hrecords, hhandle, hblock, hcapacity⟩ := emplace_empty_effect growth table
    refine ⟨rfl, Or.inl ⟨rfl, by rw [hhandle], by simp [hrecords], hblock, hcapacity⟩, ?_⟩
    intro i record hrec
    have hlt : i < table.records.length := (List.getElem?_eq_some.mp hrec).1
    refine ⟨record, ?_, id, fun _ => rfl, fun _ => rfl⟩
    simp only [hrecords]
    rw [List.getElem?_append_left hlt]
    exact hrec
  | from_handle handle =>
    rcases checked_index_cases debug table.records handle with ⟨r, hget, hc⟩ | ⟨_, e, hc⟩
    swap
    · simp [Call.apply, Table.from_handle, hc, bind, Except.bind] at h
    simp only [Call.apply, Table.from_handle, hc, bind, Except.bind, pure, Except.pure,
      Except.ok.injEq] at h
    subst h
    have hlt := (List.getElem?_eq_some.mp hget).1
    refine ⟨by simp [Call.permitted, hlt], Or.inr ⟨by simp, rfl, rfl, rfl, rfl⟩, ?_⟩
    intro i record hrec
    exact ⟨record, hrec, id, fun _ => rfl, fun _ => rfl⟩
  | is_ready handle =>
    rcases checked_index_cases debug table.records handle with ⟨r, hget, hc⟩ | ⟨_, e, hc⟩
    swap
    · simp [Call.apply, is_ready, hc, bind, Except.bind] at h
    simp only [Call.apply, is_ready, hc, bind, Except.bind, pure, Except.pure,
      Except.ok.injEq] at h
    subst h
    have hlt := (List.getElem?_eq_some.mp hget).1
    refine ⟨by simp [Call.permitted, hlt], Or.inr ⟨by simp, rfl, rfl, rfl, rfl⟩, ?_⟩
    intro i record hrec
    exact ⟨record, hrec, id, fun _ => rfl, fun _ => rfl⟩
  | assign reference object =>
    simp only [Call.apply, Table.assign, bind, Except.bind, pure, Except.pure] at h
    by_cases hblock : reference.block = table.block
    swap
    · simp [hblock] at h
    cases hget : table.records[reference.index]? with
    | none => simp [hblock, hget] at h
    | some r =>
      simp only [hblock, hget, if_true, Except.ok.injEq] at h
      subst h
      have hlt := (List.getElem?_eq_some.mp hget).1
      refine ⟨by simp [Call.permitted, hblock, hlt],
        Or.inr ⟨by simp, rfl, by simp, rfl, rfl⟩, ?_⟩
      intro i record hrec
      by_cases hi : reference.index = i
      · subst hi
        rw [hget] at hrec
        simp only [Option.some.injEq] at hrec
        subst hrec
        refine ⟨{ r with object := object }, by simp [List.getElem?_set_self hlt], id,
          fun _ => rfl, ?_⟩
        intro hno
        exact absurd rfl (hno reference object rfl)
      · exact ⟨record, by simp [List.getElem?_set_ne hi, hrec], id, fun _ => rfl,
          fun _ => rfl⟩
  | finalize handle =>
    rcases checked_index_cases debug table.records handle with ⟨r, hget, hc⟩ | ⟨_, e, hc⟩
    swap
    · simp [Call.apply, Table.finalize, finalize, hc, bind, Except.bind] at h
    simp only [Call.apply, Table.finalize, finalize, hc, bind, Except.bind, pure, Except.pure,
      Except.ok.injEq] at h
    subst h
    have hlt := (List.getElem?_eq_some.mp hget).1
    refine ⟨by simp [Call.permitted, hlt], Or.inr ⟨by simp, rfl, by simp, rfl, rfl⟩, ?_⟩
    intro i record hrec
    by_cases hi : handle.index = i
    · subst hi
      rw [hget] at hrec
      simp only [Option.some.injEq] at hrec
      subst hrec
      exact ⟨{ r with done := true }, by simp [List.getElem?_set_self hlt], fun _ => rfl,
        fun hne => absurd rfl hne, fun _ => rfl⟩
    · refine ⟨record, by simp [List.getElem?_set_ne hi, hrec], id, ?_, fun _ => rfl⟩
      intro _
      rfl

theorem is_ready_of_get (debug : Bool) (assets : Registry) (handle : meta.Handle)
    (record : InternalStorage) (h : assets[handle.index]? = some record) :
    is_ready debug assets handle = .ok record.done := by
  simp [is_ready, checked_index_issued debug assets handle record h, bind, Except.bind, pure,
    Except.pure]

theorem from_handle_of_get (debug : Bool) (assets : Registry) (handle : meta.Handle)
    (record : InternalStorage) (h : assets[handle.index]? = some record) :
    from_handle debug assets handle = .ok record.object := by
  simp [from_handle, checked_index_issued debug assets handle record h, bind, Except.bind, pure,
    Except.pure]

theorem finalize_of_get (debug : Bool) (assets : Registry) (handle : meta.Handle)
    (record : InternalStorage) (h : assets[handle.index]? = some record) :
    finalize debug assets handle = .ok (assets.set handle.index { record with done := true }) := by
  simp [finalize, checked_index_issued debug assets handle record h, bind, Except.bind, pure,
    Except.pure]

/-- A step whose condition holds returns. -/
theorem apply_permitted (debug : Bool) (growth : Nat → Nat) (table : Table) (call : Call)
    (h : call.permitted table.block table.records.length = true) :
    ∃ step, call.apply debug growth table = .ok step := by
  cases call with
  | emplace_empty => exact ⟨_, rfl⟩
  | from_handle handle =>
    simp only [Call.permitted, decide_eq_true_eq] at h
    simp [Call.apply, Table.from_handle, checked_index_issued debug table.records handle _
      (List.getElem?_eq_getElem h), bind, Except.bind, pure, Except.pure]
  | is_ready handle =>
    simp only [Call.permitted, decide_eq_true_eq] at h
    simp [Call.apply, is_ready_of_get debug table.records handle _
      (List.getElem?_eq_getElem h), bind, Except.bind, pure, Except.pure]
  | finalize handle =>
    simp only [Call.permitted, decide_eq_true_eq] at h
    simp [Call.apply, Table.finalize, finalize_of_get debug table.records handle _
      (List.getElem?_eq_getElem h), bind, Except.bind, pure, Except.pure]
  | assign reference object =>
    simp only [Call.permitted, Bool.and_eq_true, decide_eq_true_eq] at h
    simp [Call.apply, Table.assign, h.1, List.getElem?_eq_getElem h.2, bind, Except.bind, pure,
      Except.pure]

/-- A sequence of steps returns exactly when the condition of every step holds: every
call takes a handle issued before it, and every assignment goes through a reference to a
record of the array that holds the records when the assignment is made. -/
theorem run_permitted (debug : Bool) (growth : Nat → Nat) (calls : List Call) :
    ∀ table : Table,
      (∃ result, Table.run debug growth table calls = .ok result)
        ↔ permitted growth table.block table.capacity table.records.length calls = true := by
  induction calls with
  | nil => intro table; simp [Table.run, permitted]
  | cons call rest ih =>
    intro table
    constructor
    · rintro ⟨result, h⟩
      simp only [Table.run, bind, Except.bind, pure, Except.pure] at h
      split at h
      · simp at h
      rename_i step hstep
      split at h
      · simp at h
      rename_i tail htail
      obtain ⟨hcall, hkind, _⟩ := apply_effect debug growth table call step hstep
      have hrest := (ih step.1).mp ⟨tail, htail⟩
      rcases hkind with ⟨hc, _, hlen, hblock, hcapacity⟩ | ⟨hc, _, hlen, hblock, hcapacity⟩
      · subst hc
        rw [hlen, hblock, hcapacity] at hrest
        simp only [permitted, Call.permitted, Bool.true_and]
        split
        · rename_i hroom
          simpa [hroom] using hrest
        · rename_i hroom
          simpa [hroom] using hrest
      · rw [hlen, hblock, hcapacity] at hrest
        cases call with
        | emplace_empty => exact absurd rfl hc
        | from_handle handle => simp only [permitted, hcall, hrest, Bool.and_self]
        | assign reference object => simp only [permitted, hcall, hrest, Bool.and_self]
        | finalize handle => simp only [permitted, hcall, hrest, Bool.and_self]
        | is_ready handle => simp only [permitted, hcall, hrest, Bool.and_self]
    · intro h
      have hsplit : call.permitted table.block table.records.length = true
          ∧ ∀ step, call.apply debug growth table = .ok step →
              permitted growth step.1.block step.1.capacity step.1.records.length rest
                = true := by
        cases call with
        | emplace_empty =>
          refine ⟨rfl, ?_⟩
          intro step hstep
          rcases (apply_effect debug growth table _ step hstep).2.1 with
            ⟨_, _, hlen, hblock, hcapacity⟩ | ⟨hc, _⟩
          · rw [hlen, hblock, hcapacity]
            simp only [permitted, Call.permitted, Bool.true_and] at h
            split at h
            · rename_i hroom
              simpa [hroom] using h
            · rename_i hroom
              simpa [hroom] using h
          · exact absurd rfl hc
        | from_handle handle =>
          simp only [permitted, Bool.and_eq_true] at h
          refine ⟨h.1, fun step hstep => ?_⟩
          rcases (apply_effect debug growth table _ step hstep).2.1 with
            ⟨hc, _⟩ | ⟨_, _, hlen, hblock, hcapacity⟩
          · cases hc
          · rw [hlen, hblock, hcapacity]; exact h.2
        | assign reference object =>
          simp only [permitted, Bool.and_eq_true] at h
          refine ⟨h.1, fun step hstep => ?_⟩
          rcases (apply_effect debug growth table _ step hstep).2.1 with
            ⟨hc, _⟩ | ⟨_, _, hlen, hblock, hcapacity⟩
          · cases hc
          · rw [hlen, hblock, hcapacity]; exact h.2
        | finalize handle =>
          simp only [permitted, Bool.and_eq_true] at h
          refine ⟨h.1, fun step hstep => ?_⟩
          rcases (apply_effect debug growth table _ step hstep).2.1 with
            ⟨hc, _⟩ | ⟨_, _, hlen, hblock, hcapacity⟩
          · cases hc
          · rw [hlen, hblock, hcapacity]; exact h.2
        | is_ready handle =>
          simp only [permitted, Bool.and_eq_true] at h
          refine ⟨h.1, fun step hstep => ?_⟩
          rcases (apply_effect debug growth table _ step hstep).2.1 with
            ⟨hc, _⟩ | ⟨_, _, hlen, hblock, hcapacity⟩
          · cases hc
          · rw [hlen, hblock, hcapacity]; exact h.2
      obtain ⟨step, hstep⟩ := apply_permitted debug growth table call hsplit.1
      obtain ⟨result, hres⟩ := (ih step.1).mpr (hsplit.2 step hstep)
      exact ⟨(result.1, step.2 :: result.2),
        by simp only [Table.run, hstep, hres, bind, Except.bind, pure, Except.pure]⟩

/-- What a sequence of steps that returns does to the table: it grows by the number of
handles issued, these are the positions past the previous end in increasing order, and
the record at an existing position keeps a `true` flag, changes its flag only if the
sequence finalizes that position, and changes its payload only if the sequence assigns
through a reference to that position. -/
theorem run_effect (debug : Bool) (growth : Nat → Nat) (calls : List Call) :
    ∀ (table : Table) (result : Table × List Returned),
      Table.run debug growth table calls = .ok result →
      result.1.records.length = table.records.length + (issued result.2).length
      ∧ issued result.2
          = (List.range (issued result.2).length).map
              (fun n => ⟨table.records.length + n⟩)
      ∧ ∀ (i : Nat) (record : InternalStorage), table.records[i]? = some record →
          ∃ record', result.1.records[i]? = some record'
          ∧ (record.done = true → record'.done = true)
          ∧ (Call.finalize ⟨i⟩ ∉ calls → record'.done = record.done)
          ∧ ((∀ reference object, Call.assign reference object ∈ calls →
                reference.index ≠ i) →
              record'.object = record.object) := by
  induction calls with
  | nil =>
    intro table result h
    simp only [Table.run, Except.ok.injEq] at h
    subst h
    refine ⟨rfl, rfl, ?_⟩
    intro i record hrec
    exact ⟨record, hrec, id, fun _ => rfl, fun _ => rfl⟩
  | cons call rest ih =>
    intro table result h
    simp only [Table.run, bind, Except.bind, pure, Except.pure] at h
    split at h
    · simp at h
    rename_i step hstep
    split at h
    · simp at h
    rename_i tail htail
    simp only [Except.ok.injEq] at h
    subst h
    obtain ⟨_, hkind, hrecords⟩ := apply_effect debug growth table call step hstep
    obtain ⟨hlen, hissued, htable⟩ := ih step.1 tail htail
    refine ⟨?_, ?_, ?_⟩
    · rcases hkind with ⟨_, h2, h3, _⟩ | ⟨_, h2, h3, _⟩
      · simp only [issued, List.filterMap_cons, h2, Returned.handle?, List.length_cons] at hlen ⊢
        rw [hlen, h3]
        omega
      · simp only [issued, List.filterMap_cons, h2] at hlen ⊢
        rw [hlen, h3]
    · rcases hkind with ⟨_, h2, h3, _⟩ | ⟨_, h2, h3, _⟩
      · simp only [issued, List.filterMap_cons, h2, Returned.handle?, List.length_cons]
          at hissued ⊢
        rw [List.range_succ_eq_map, hissued, h3]
        simp only [List.map_cons, List.map_map, List.length_map, List.length_range,
          Nat.add_zero, List.cons.injEq, true_and]
        apply List.map_congr_left
        intro n _
        simp only [Function.comp, meta.Handle.mk.injEq]
        omega
      · simp only [issued, List.filterMap_cons, h2] at hissued ⊢
        rw [hissued, h3]
        simp
    · intro i record hrec
      obtain ⟨middle, hmid, hm1, hm2, hm4⟩ := hrecords i record hrec
      obtain ⟨final, hfin, hf1, hf2, hf3⟩ := htable i middle hmid
      refine ⟨final, hfin, fun hd => hf1 (hm1 hd), ?_, ?_⟩
      · intro hnot
        simp only [List.mem_cons, not_or] at hnot
        rw [hf2 hnot.2, hm2 (fun heq => hnot.1 heq.symm)]
      · intro hnot
        rw [hf3 (fun reference object hmem =>
            hnot reference object (List.mem_cons_of_mem _ hmem)),
          hm4 (fun reference object heq =>
            hnot reference object (by rw [heq]; exact List.mem_cons_self _ _))]

/-- On an issued handle `finalize` returns, keeps the size of the table, and leaves at the
handle's position a record whose flag is set. -/
theorem finalize_issued (debug : Bool) (assets : Registry) (handle : meta.Handle)
    (hissued : handle.index < assets.length) :
    ∃ finalized record, finalize debug assets handle = .ok finalized
      ∧ finalized.length = assets.length
      ∧ finalized[handle.index]? = some record ∧ record.done = true := by
  refine ⟨_, { assets[handle.index] with done := true },
    finalize_of_get debug assets handle _ (List.getElem?_eq_getElem hissued), by simp, ?_, rfl⟩
  simp [List.getElem?_set_self hissued]

/-- C4: after `finalize(h)` on an issued handle, `is_ready(h)` is true, and it is still
true after every sequence of steps that returns, the steps being `emplace_empty`,
`from_handle`, assignments through references to any record, `finalize` and `is_ready` on
any handles: no step resets a flag.  A sequence returns exactly when each of its calls
takes an issued handle and each of its assignments goes through a reference to a record
of the array that holds the records at that moment; an assignment through a reference
that a later reallocation has left dangling is undefined, and nothing is stated past
it. -/
theorem ready_never_reverts (debug : Bool) (growth : Nat → Nat) (table : Table)
    (handle : meta.Handle) (hissued : handle.index < table.records.length) :
    ∃ finalized, table.finalize debug handle = .ok finalized
      ∧ finalized.block = table.block ∧ finalized.capacity = table.capacity
      ∧ finalized.records.length = table.records.length
      ∧ is_ready debug finalized.records handle = .ok true
      ∧ ∀ calls,
          (∀ result, Table.run debug growth finalized calls = .ok result →
            is_ready debug result.1.records handle = .ok true)
          ∧ ((∃ result, Table.run debug growth finalized calls = .ok result)
            ↔ permitted growth table.block table.capacity table.records.length calls
                = true) := by
  obtain ⟨records, record, hfin, hlen, hget, hdone⟩ :=
    finalize_issued debug table.records handle hissued
  refine ⟨{ table with records := records }, ?_, rfl, rfl, hlen, ?_, ?_⟩
  · simp only [Table.finalize, hfin, bind, Except.bind, pure, Except.pure]
  · rw [is_ready_of_get debug _ handle _ hget, hdone]
  · intro calls
    refine ⟨?_, ?_⟩
    · intro result hrun
      obtain ⟨record', hrec, hkeep, _⟩ :=
        (run_effect debug growth calls _ result hrun).2.2 _ _ hget
      rw [is_ready_of_get debug _ handle _ hrec, hkeep hdone]
    · have h := run_permitted debug growth calls { table with records := records }
      simp only [hlen] at h
      exact h

/-- The permanence of `ready_never_reverts` on a full two-slot table with doubling growth:
slot 0 is finalized; then a reference to slot 1 is taken and written through, a slot is
emplaced, which moves the records to a new array, a reference to slot 0 is taken there and
written through, slot 1 is finalized and slot 2 is queried; slot 0 is still ready.  The
assignment through the first reference after the move is undefined. -/
theorem ready_never_reverts_witness :
    (0 : Nat) < (⟨0, 2, [⟨gfx.StaticMesh.empty, false⟩, ⟨gfx.StaticMesh.empty, false⟩]⟩
      : Table).records.length
    ∧ ∃ finalized result,
        Table.finalize true ⟨0, 2, [⟨gfx.StaticMesh.empty, false⟩, ⟨gfx.StaticMesh.empty, false⟩]⟩
          ⟨0⟩ = .ok finalized
        ∧ Table.run true doubling finalized
            [.from_handle ⟨1⟩, .assign ⟨0, 1⟩ ⟨⟨1, 36, 2, 0⟩, ⟨3, 12, 4, 0⟩⟩, .emplace_empty,
              .from_handle ⟨0⟩, .assign ⟨1, 0⟩ ⟨⟨5, 8, 6, 0⟩, ⟨7, 4, 8, 0⟩⟩, .finalize ⟨1⟩,
              .is_ready ⟨2⟩] = .ok result
        ∧ result.2 = [.reference ⟨0, 1⟩, .nothing, .handle ⟨2⟩, .reference ⟨1, 0⟩, .nothing,
            .nothing, .ready false]
        ∧ is_ready true result.1.records ⟨0⟩ = .ok true
        ∧ Table.run true doubling finalized
            [.from_handle ⟨1⟩, .emplace_empty,
              .assign ⟨0, 1⟩ ⟨⟨1, 36, 2, 0⟩, ⟨3, 12, 4, 0⟩⟩] = .error .undefined := by
  refine ⟨by decide, ?_⟩
  obtain ⟨finalized, hfin, _, _, _, _, hcalls⟩ :=
    ready_never_reverts true doubling
      ⟨0, 2, [⟨gfx.StaticMesh.empty, false⟩, ⟨gfx.StaticMesh.empty, false⟩]⟩ ⟨0⟩ (by decide)
  obtain ⟨hready, hruns⟩ := hcalls
    [.from_handle ⟨1⟩, .assign ⟨0, 1⟩ ⟨⟨1, 36, 2, 0⟩, ⟨3, 12, 4, 0⟩⟩, .emplace_empty,
      .from_handle ⟨0⟩, .assign ⟨1, 0⟩ ⟨⟨5, 8, 6, 0⟩, ⟨7, 4, 8, 0⟩⟩, .finalize ⟨1⟩,
      .is_ready ⟨2⟩]
  obtain ⟨result, hrun⟩ := hruns.mpr (by decide)
  have hvalue : (Except.ok ⟨0, 2, [⟨gfx.StaticMesh.empty, true⟩, ⟨gfx.StaticMesh.empty, false⟩]⟩
      : Except Fault Table) = .ok finalized := hfin
  simp only [Except.ok.injEq] at hvalue
  subst hvalue
  have hexplicit : (Except.ok
      (⟨1, 4, [⟨⟨⟨5, 8, 6, 0⟩, ⟨7, 4, 8, 0⟩⟩, true⟩, ⟨⟨⟨1, 36, 2, 0⟩, ⟨3, 12, 4, 0⟩⟩, true⟩,
          ⟨gfx.StaticMesh.empty, false⟩]⟩,
        [.reference ⟨0, 1⟩, .nothing, .handle ⟨2⟩, .reference ⟨1, 0⟩, .nothing, .nothing,
          .ready false])
      : Except Fault (Table × List Returned)) = .ok result := hrun
  simp only [Except.ok.injEq] at hexplicit
  subst hexplicit
  exact ⟨_, _, hfin, hrun, rfl, hready _ hrun, rfl⟩

/-- C5: the handle `emplace_empty` returns, which is also the handle
`request_static_mesh` returns, is the position past the previous end and lies within the
table, reads as the empty payload and is not ready; it stays not ready through every
sequence of steps that returns and does not call `finalize` on that handle, whatever
`emplace_empty`, `is_ready` and `from_handle` calls, assignments through references and
`finalize` calls on other handles it holds, and `finalize` on it makes it ready.  A
sequence returns exactly when each of its calls takes an issued handle and each of its
assignments goes through a reference to a record of the array that holds the records at
that moment; an assignment through a reference that a later reallocation has left
dangling is undefined, and nothing is stated past it. -/
theorem pending_until_finalized (debug : Bool) (growth : Nat → Nat) (world : gfx.World)
    (info : gfx.StaticMesh.CreateInfo) :
    (world.request_static_mesh growth info).2 = (world.assets.emplace_empty growth).2
    ∧ (world.request_static_mesh growth info).1.assets = (world.assets.emplace_empty growth).1
    ∧ (world.assets.emplace_empty growth).2.index = world.assets.records.length
    ∧ (world.assets.emplace_empty growth).2.index
        < (world.assets.emplace_empty growth).1.records.length
    ∧ from_handle debug (world.assets.emplace_empty growth).1.records
        (world.assets.emplace_empty growth).2 = .ok gfx.StaticMesh.empty
    ∧ is_ready debug (world.assets.emplace_empty growth).1.records
        (world.assets.emplace_empty growth).2 = .ok false
    ∧ (∀ calls, Call.finalize (world.assets.emplace_empty growth).2 ∉ calls →
        (∀ result,
          Table.run debug growth (world.assets.emplace_empty growth).1 calls = .ok result →
          is_ready debug result.1.records (world.assets.emplace_empty growth).2 = .ok false)
        ∧ ((∃ result,
            Table.run debug growth (world.assets.emplace_empty growth).1 calls = .ok result)
          ↔ permitted growth (world.assets.emplace_empty growth).1.block
              (world.assets.emplace_empty growth).1.capacity
              (world.assets.records.length + 1) calls = true))
    ∧ (∃ finalized,
        Table.finalize debug (world.assets.emplace_empty growth).1
          (world.assets.emplace_empty growth).2 = .ok finalized
        ∧ is_ready debug finalized.records (world.assets.emplace_empty growth).2
            = .ok true) := by
  obtain ⟨hrecords, hhandle, _, _⟩ := emplace_empty_effect growth world.assets
  have hget : (world.assets.emplace_empty growth).1.records[
      (world.assets.emplace_empty growth).2.index]? = some ⟨gfx.StaticMesh.empty, false⟩ := by
    rw [hrecords, hhandle]
    simp
  have hlen : (world.assets.emplace_empty growth).1.records.length
      = world.assets.records.length + 1 := by
    rw [hrecords]
    simp
  have hlt : (world.assets.emplace_empty growth).2.index
      < (world.assets.emplace_empty growth).1.records.length := by
    rw [hlen, hhandle]
    exact Nat.lt_succ_self _
  refine ⟨rfl, rfl, by rw [hhandle], hlt, ?_, ?_, ?_, ?_⟩
  · rw [from_handle_of_get debug _ _ _ hget]
  · rw [is_ready_of_get debug _ _ _ hget]
  · intro calls hnot
    refine ⟨?_, ?_⟩
    · intro result hrun
      obtain ⟨record', hrec, _, hsame, _⟩ :=
        (run_effect debug growth calls _ result hrun).2.2 _ _ hget
      rw [is_ready_of_get debug _ _ _ hrec, hsame hnot]
    · have h := run_permitted debug growth calls (world.assets.emplace_empty growth).1
      rw [hlen] at h
      exact h
  · obtain ⟨finalized, record, hfin, _, hrec, hdone⟩ :=
      finalize_issued debug (world.assets.emplace_empty growth).1.records
        (world.assets.emplace_empty growth).2 hlt
    refine ⟨{ (world.assets.emplace_empty growth).1 with records := finalized }, ?_, ?_⟩
    · simp only [Table.finalize, hfin, bind, Except.bind, pure, Except.pure]
    · rw [is_ready_of_get debug _ _ _ hrec, hdone]

/-- The pending slot of `pending_until_finalized` for a request on a full table with one
ready slot and doubling growth: the new handle has index 1 and is still pending after
slot 0 is finalized again, a reference to the new slot is taken and written through,
another slot is emplaced and the new slot is queried. -/
theorem pending_until_finalized_witness :
    ((⟨⟨0, 1, [⟨gfx.StaticMesh.empty, true⟩]⟩, ⟨1000, [], [], []⟩, [70], []⟩
        : gfx.World).request_static_mesh doubling ⟨[1, 2, 3], [0, 1, 2]⟩).2 = ⟨1⟩
    ∧ ∃ result,
        Table.run true doubling
          ((⟨0, 1, [⟨gfx.StaticMesh.empty, true⟩]⟩ : Table).emplace_empty doubling).1
          [.finalize ⟨0⟩, .from_handle ⟨1⟩, .assign ⟨1, 1⟩ ⟨⟨1, 36, 2, 0⟩, ⟨3, 12, 4, 0⟩⟩,
            .emplace_empty, .is_ready ⟨1⟩] = .ok result
        ∧ result.2 = [.nothing, .reference ⟨1, 1⟩, .nothing, .handle ⟨2⟩, .ready false]
        ∧ is_ready true result.1.records ⟨1⟩ = .ok false := by
  have h := pending_until_finalized true doubling
    ⟨⟨0, 1, [⟨gfx.StaticMesh.empty, true⟩]⟩, ⟨1000, [], [], []⟩, [70], []⟩ ⟨[1, 2, 3], [0, 1, 2]⟩
  refine ⟨rfl, ?_⟩
  obtain ⟨hready, hruns⟩ := h.2.2.2.2.2.2.1
    [.finalize ⟨0⟩, .from_handle ⟨1⟩, .assign ⟨1, 1⟩ ⟨⟨1, 36, 2, 0⟩, ⟨3, 12, 4, 0⟩⟩,
      .emplace_empty, .is_ready ⟨1⟩] (by decide)
  obtain ⟨result, hrun⟩ := hruns.mpr (by decide)
  have hexplicit : (Except.ok
      (⟨2, 4, [⟨gfx.StaticMesh.empty, true⟩, ⟨⟨⟨1, 36, 2, 0⟩, ⟨3, 12, 4, 0⟩⟩, false⟩,
          ⟨gfx.StaticMesh.empty, false⟩]⟩,
        [.nothing, .reference ⟨1, 1⟩, .nothing, .handle ⟨2⟩, .ready false])
      : Except Fault (Table × List Returned)) = .ok result := hrun
  simp only [Except.ok.injEq] at hexplicit
  subst hexplicit
  exact ⟨_, hrun, rfl, hready _ hrun⟩

/-- C6: on a registry that starts empty the n-th `emplace_empty` call returns the handle
with index n, whatever other steps are interleaved, so the issued handles are pairwise
distinct and as many as the table has slots; no step shrinks the table, so after any
sequence of steps that returns every handle that was in range is still in range and
`from_handle`, `is_ready` and `finalize` return for it.  A sequence returns exactly when
each of its calls takes an issued handle and each of its assignments goes through a
reference to a record of the array that holds the records at that moment; in particular
every sequence of `emplace_empty`, `from_handle`, `finalize` and `is_ready` calls on
issued handles returns. -/
theorem handles_append_only (debug : Bool) (growth : Nat → Nat) (calls : List Call) :
    (∀ (block capacity : Nat) result,
        Table.run debug growth ⟨block, capacity, []⟩ calls = .ok result →
        issued result.2 = (List.range (issued result.2).length).map meta.Handle.mk
        ∧ (issued result.2).Nodup
        ∧ result.1.records.length = (issued result.2).length)
    ∧ (∀ table : Table,
        (∃ result, Table.run debug growth table calls = .ok result)
          ↔ permitted growth table.block table.capacity table.records.length calls = true)
    ∧ (∀ (table : Table) result, Table.run debug growth table calls = .ok result →
        table.records.length ≤ result.1.records.length
        ∧ ∀ handle : meta.Handle, handle.index < table.records.length →
            handle.index < result.1.records.length
            ∧ Table.from_handle debug result.1 handle = .ok ⟨result.1.block, handle.index⟩
            ∧ (∃ object, from_handle debug result.1.records handle = .ok object)
            ∧ (∃ ready, is_ready debug result.1.records handle = .ok ready)
            ∧ (∃ finalized, Table.finalize debug result.1 handle = .ok finalized)) := by
  refine ⟨?_, run_permitted debug growth calls, ?_⟩
  · intro block capacity result hrun
    obtain ⟨hlen, hissued, _⟩ := run_effect debug growth calls _ result hrun
    have hrange : issued result.2
        = (List.range (issued result.2).length).map meta.Handle.mk := by
      rw [hissued]
      simp only [List.length_nil, Nat.zero_add, List.length_map, List.length_range]
    refine ⟨hrange, ?_, by simpa using hlen⟩
    rw [hrange]
    apply List.Nodup.map _ (List.nodup_range _)
    intro a b hab
    exact congrArg meta.Handle.index hab
  · intro table result hrun
    obtain ⟨hlen, _, htable⟩ := run_effect debug growth calls table result hrun
    refine ⟨by omega, ?_⟩
    intro handle hlt
    obtain ⟨record', hrec, _⟩ := htable _ _ (List.getElem?_eq_getElem hlt)
    refine ⟨by omega, ?_, ⟨_, from_handle_of_get debug _ _ _ hrec⟩,
      ⟨_, is_ready_of_get debug _ _ _ hrec⟩, ?_⟩
    · simp only [Table.from_handle, checked_index_issued debug _ _ _ hrec, bind, Except.bind,
        pure, Except.pure]
    · simp only [Table.finalize, finalize_of_get debug _ _ _ hrec, bind, Except.bind, pure,
        Except.pure]
      exact ⟨_, rfl⟩

/-- The numbering of `handles_append_only` on three `emplace_empty` calls on the empty
registry with doubling growth, interleaved with two `finalize` calls and a write through
a reference to slot 0 taken after the second call has moved the records: the handles
issued are 0, 1 and 2. -/
theorem handles_append_only_witness :
    ∃ result,
      Table.run true doubling ⟨0, 0, []⟩
        [.emplace_empty, .emplace_empty, .finalize ⟨1⟩, .from_handle ⟨0⟩,
          .assign ⟨2, 0⟩ ⟨⟨1, 36, 2, 0⟩, ⟨3, 12, 4, 0⟩⟩, .emplace_empty,
          .finalize ⟨0⟩] = .ok result
      ∧ issued result.2 = [⟨0⟩, ⟨1⟩, ⟨2⟩]
      ∧ result.1.records.length = 3 := by
  have h := handles_append_only true doubling
    [.emplace_empty, .emplace_empty, .finalize ⟨1⟩, .from_handle ⟨0⟩,
      .assign ⟨2, 0⟩ ⟨⟨1, 36, 2, 0⟩, ⟨3, 12, 4, 0⟩⟩, .emplace_empty, .finalize ⟨0⟩]
  obtain ⟨result, hrun⟩ := (h.2.1 ⟨0, 0, []⟩).mpr (by decide)
  obtain ⟨hrange, _, hlen⟩ := h.1 0 0 result hrun
  have hcount : (issued result.2).length = 3 := by
    have hexplicit : Table.run true doubling ⟨0, 0, []⟩
        [.emplace_empty, .emplace_empty, .finalize ⟨1⟩, .from_handle ⟨0⟩,
          .assign ⟨2, 0⟩ ⟨⟨1, 36, 2, 0⟩, ⟨3, 12, 4, 0⟩⟩, .emplace_empty,
          .finalize ⟨0⟩]
        = .ok (_, [.handle ⟨0⟩, .handle ⟨1⟩, .nothing, .reference ⟨2, 0⟩, .nothing,
            .handle ⟨2⟩, .nothing]) := rfl
    rw [hexplicit] at hrun
    simp only [Except.ok.injEq] at hrun
    rw [← hrun]
    rfl
  refine ⟨result, hrun, ?_, by omega⟩
  rw [hrange, hcount]
  rfl

end assets

namespace gfx

/-! ## Framebuffers, extent and clear values of a compiled Pass -/

/-- With every framebuffer index 0 the grouping loop appends every view, in declaration
order, to the single group. -/
theorem group_views_zero (attachments : List Attachment) :
    ∀ group : List Nat, (∀ each ∈ attachments, each.framebuffer = 0) →
      group_views [group] attachments = .ok [group ++ attachments.map (·.image.view)] := by
  induction attachments with
  | nil => intro group _; simp [group_views]
  | cons each rest ih =>
    intro group hzero
    have h0 : each.framebuffer = 0 := hzero each (List.mem_cons_self _ _)
    have hstep : group_view [group] each = .ok [group ++ [each.image.view]] := by
      simp [group_view, h0]
    simp only [group_views, hstep, bind, Except.bind]
    rw [ih _ (fun a ha => hzero a (List.mem_cons_of_mem _ ha))]
    simp

theorem compile_attachments_views (index : Nat) (attachments : List Attachment.CreateInfo) :
    (compile_attachments index attachments).map (·.image.view)
      = attachments.map (·.image.view) := by
  induction attachments generalizing index with
  | nil => rfl
  | cons first rest ih => simp [compile_attachments, compile_attachment, ih]

theorem compile_attachments_zero (index : Nat) (attachments : List Attachment.CreateInfo)
    (h : ∀ each ∈ attachments, each.framebuffer = 0) :
    ∀ a ∈ compile_attachments index attachments, a.framebuffer = 0 := by
  induction attachments generalizing index with
  | nil => simp [compile_attachments]
  | cons first rest ih =>
    intro a ha
    simp only [compile_attachments, List.mem_cons] at ha
    rcases ha with rfl | ha
    · exact h first (List.mem_cons_self _ _)
    · exact ih _ (fun e he => h e (List.mem_cons_of_mem _ he)) a ha

/-- After the first loop `framebuffer_size` holds the size of the last attachment. -/
theorem framebuffer_size_after_last (attachments : List Attachment) :
    ∀ size : Option VkExtent2D,
      framebuffer_size_after size attachments
        = match attachments.getLast? with
          | some last => some ⟨last.image.width, last.image.height⟩
          | none => size := by
  induction attachments with
  | nil => intro size; rfl
  | cons first rest ih =>
    intro size
    simp only [framebuffer_size_after, ih, List.getLast?_cons]
    cases rest.getLast? <;> rfl

theorem compile_attachments_getLast? (attachments : List Attachment.CreateInfo) :
    ∀ index, ((compile_attachments index attachments).getLast?).map (·.image)
      = (attachments.getLast?).map (·.image) := by
  induction attachments with
  | nil => intro index; rfl
  | cons first rest ih =>
    intro index
    have := ih (u32 (index + 1))
    simp only [compile_attachments, List.getLast?_cons]
    cases h1 : (compile_attachments (u32 (index + 1)) rest).getLast? <;>
      cases h2 : rest.getLast? <;> simp_all [compile_attachment]

/-- Every create-info of the framebuffer loop carries the Pass handle and the width and
height of `framebuffer_size`, and its views are those of its group. -/
theorem create_framebuffers_infos (debug : Bool) (device : Device) (handle : Nat)
    (size : Option VkExtent2D) (views : List (List Nat)) :
    ∀ (created : List Nat) (infos : List VkFramebufferCreateInfo)
      (result : List Nat × List VkFramebufferCreateInfo),
      create_framebuffers debug device handle size views created infos = .ok result →
      ∃ extent, (views ≠ [] → size = some extent)
        ∧ result.2 = infos ++ views.map (fun group =>
            { flags := 0, renderPass := handle, attachments := group, width := extent.width,
              height := extent.height, layers := 1 }) := by
  induction views with
  | nil =>
    intro created infos result h
    simp only [create_framebuffers, Except.ok.injEq] at h
    subst h
    exact ⟨⟨0, 0⟩, by simp⟩
  | cons each rest ih =>
    intro created infos result h
    cases size with
    | none => simp [create_framebuffers] at h
    | some size =>
      simp only [create_framebuffers, bind, Except.bind] at h
      split at h
      · simp at h
      · obtain ⟨extent, hsize, hinfos⟩ := ih _ _ _ h
        refine ⟨size, fun _ => rfl, ?_⟩
        by_cases hrest : rest = []
        · subst hrest
          simp only [create_framebuffers, Except.ok.injEq] at h
          subst h
          simp
        · have := hsize hrest
          simp only [Option.some.injEq] at this
          subst this
          rw [hinfos]
          simp

/-- On an accepted device the framebuffer loop returns, given a determinate size. -/
theorem create_framebuffers_accepted (debug : Bool) (device : Device) (handle : Nat)
    (size : VkExtent2D) (haccepted : device.accepted debug) (views : List (List Nat)) :
    ∀ (created : List Nat) (infos : List VkFramebufferCreateInfo),
      ∃ result, create_framebuffers debug device handle (some size) views created infos
        = .ok result := by
  induction views with
  | nil => intro created infos; exact ⟨(created, infos), rfl⟩
  | cons each rest ih =>
    intro created infos
    have hcheck : ∀ info, qz_vulkan_check debug (device.vkCreateFramebuffer created.length info).1
        = .ok () := by
      intro info
      rcases haccepted with hd | ⟨_, hs⟩
      · simp [qz_vulkan_check, hd]
      · simp [qz_vulkan_check, hs]
    simp only [create_framebuffers, hcheck, bind, Except.bind]
    exact ih _ _

/-- If `RenderPass::create` is given at least one attachment, framebuffer index 0
throughout, subpasses that list attachment names only, and an accepted device, then it
returns a Pass. -/
theorem create_returns (debug : Bool) (device : Device) (info : RenderPass.CreateInfo)
    (hattachments : info.attachments ≠ [])
    (hzero : ∀ each ∈ info.attachments, each.framebuffer = 0)
    (hnames : ∀ each ∈ info.subpasses, ∀ name ∈ each.names,
      name ∈ info.attachments.map (·.name))
    (haccepted : device.accepted debug) :
    ∃ compiled, RenderPass.create debug device info = .ok compiled := by
  rcases compile_subpasses_total ⟨0, compile_attachments 0 info.attachments, []⟩
      info.subpasses with ⟨_, descriptions, hd, _⟩ | ⟨⟨each, heach, name, hname, hnot⟩, _⟩
  swap
  · have := hnames each heach name hname
    rw [← compile_attachments_names 0] at this
    exact absurd this hnot
  have hcheck : ∀ rpci, qz_vulkan_check debug (device.vkCreateRenderPass rpci).1 = .ok () := by
    intro rpci
    rcases haccepted with hdebug | ⟨hs, _⟩
    · simp [qz_vulkan_check, hdebug]
    · simp [qz_vulkan_check, hs]
  have hgroup := group_views_zero (compile_attachments 0 info.attachments) []
    (compile_attachments_zero 0 info.attachments hzero)
  obtain ⟨last, hlast⟩ : ∃ last, (compile_attachments 0 info.attachments).getLast? = some last := by
    cases h : (compile_attachments 0 info.attachments).getLast? with
    | some last => exact ⟨last, rfl⟩
    | none =>
      rw [List.getLast?_eq_none_iff] at h
      have := compile_attachments_length 0 info.attachments
      rw [h] at this
      exact absurd (List.length_eq_zero.mp this.symm) hattachments
  have hsize := framebuffer_size_after_last (compile_attachments 0 info.attachments) none
  rw [hlast] at hsize
  obtain ⟨result, hresult⟩ := create_framebuffers_accepted debug device
    (device.vkCreateRenderPass
      { flags := 0, attachments := (compile_attachments 0 info.attachments).map (·.description),
        subpasses := descriptions,
        dependencies := info.dependencies.map compile_dependency }).2
    ⟨last.image.width, last.image.height⟩ haccepted
    [[] ++ (compile_attachments 0 info.attachments).map (·.image.view)] [] []
  simp only [RenderPass.create, hd, hcheck, hgroup, hsize, hresult, bind, Except.bind, pure,
    Except.pure]
  exact ⟨_, rfl⟩

/-- C9: whenever `RenderPass::create` returns, the create-info it has handed to the device
holds one subpass description per declared subpass, in declared order.  In the description
of each declared subpass the colour references are the references of the attachments the
subpass lists with neither the depth nor the stencil bit, in listed order; the optional
depth-stencil reference is present exactly when some listed attachment has the depth or the
stencil bit, and when exactly one such attachment is listed it is the reference of that
attachment.  Given at least one attachment, framebuffer index 0 throughout, subpasses that
list attachment names only and an accepted device, `RenderPass::create` returns. -/
theorem subpass_color_and_depth_references (debug : Bool) (device : Device)
    (info : RenderPass.CreateInfo) :
    (∀ compiled, RenderPass.create debug device info = .ok compiled →
      compiled.render_pass_create_info.subpasses.length = info.subpasses.length
      ∧ ∀ (k : Nat) (each : SubpassInfo), info.subpasses[k]? = some each →
        ∃ description listed,
          compiled.render_pass_create_info.subpasses[k]? = some description
          ∧ resolve_all ⟨0, compile_attachments 0 info.attachments, []⟩ each.attachments
              = .ok listed
          ∧ listed.map (·.name) = each.attachments
          ∧ description.colorAttachments
              = (listed.filter (fun a =>
                  decide (a.image.aspect &&& VK_IMAGE_ASPECT_DEPTH_BIT = 0
                    ∧ a.image.aspect &&& VK_IMAGE_ASPECT_STENCIL_BIT = 0))).map (·.reference)
          ∧ ((description.depthStencilAttachment).isSome = true
              ↔ ∃ a ∈ listed, a.image.aspect &&& VK_IMAGE_ASPECT_DEPTH_BIT ≠ 0
                  ∨ a.image.aspect &&& VK_IMAGE_ASPECT_STENCIL_BIT ≠ 0)
          ∧ (∀ a, listed.filter (fun a =>
                  decide (a.image.aspect &&& VK_IMAGE_ASPECT_DEPTH_BIT ≠ 0
                    ∨ a.image.aspect &&& VK_IMAGE_ASPECT_STENCIL_BIT ≠ 0)) = [a] →
              description.depthStencilAttachment = some a.reference))
    ∧ (info.attachments ≠ [] → (∀ each ∈ info.attachments, each.framebuffer = 0) →
        (∀ each ∈ info.subpasses, ∀ name ∈ each.names, name ∈ info.attachments.map (·.name)) →
        device.accepted debug →
        ∃ compiled, RenderPass.create debug device info = .ok compiled) := by
  refine ⟨?_, create_returns debug device info⟩
  intro compiled h
  obtain ⟨_, hsubpasses, _⟩ := create_ok_info debug device info compiled h
  obtain ⟨hlen, hall⟩ := compile_subpasses_getElem? _ _ _ hsubpasses
  refine ⟨hlen, ?_⟩
  intro k each hk
  obtain ⟨storage, hstorage, hget⟩ := hall k each hk
  have hresolve : ∀ name ∈ each.names,
      name ∈ (compile_attachments 0 info.attachments).map (·.name) := by
    intro name hname
    rcases compile_subpass_storage_total ⟨0, compile_attachments 0 info.attachments, []⟩ each
      with ⟨hnames, _⟩ | ⟨_, herr⟩
    · exact hnames name hname
    · rw [herr] at hstorage
      cases hstorage
  obtain ⟨storage', listed, hstorage', hlisted, hnames, hcolor, hdepth, hone⟩ :=
    compile_subpass_storage_references ⟨0, compile_attachments 0 info.attachments, []⟩ each
      hresolve
  rw [hstorage] at hstorage'
  simp only [Except.ok.injEq] at hstorage'
  subst hstorage'
  exact ⟨_, listed, hget, hlisted, hnames, hcolor, hdepth, hone⟩

/-- The references of `subpass_color_and_depth_references` for a Pass with the attachments
"color" and "depth" whose one subpass lists "depth" then "color": the device is handed one
subpass description, with one colour reference to index 0 and the depth attachment as
depth-stencil reference. -/
theorem subpass_color_and_depth_references_witness :
    ∃ compiled description,
      RenderPass.create true Device.succeeding
        ⟨[⟨⟨10, 11, 12, 1, 44, 1, 64, 64⟩, "color", 0, true, false, 6, .none⟩,
          ⟨⟨20, 21, 22, 2, 126, 1, 64, 64⟩, "depth", 0, true, false, 3, .none⟩],
          [⟨["depth", "color"], [], []⟩], []⟩ = .ok compiled
      ∧ compiled.render_pass_create_info.subpasses.length = 1
      ∧ compiled.render_pass_create_info.subpasses[0]? = some description
      ∧ description.colorAttachments = [⟨0, VK_IMAGE_LAYOUT_COLOR_ATTACHMENT_OPTIMAL⟩]
      ∧ description.depthStencilAttachment
          = some ⟨1, VK_IMAGE_LAYOUT_DEPTH_ATTACHMENT_OPTIMAL⟩ := by
  obtain ⟨hlen, hall⟩ :=
    (subpass_color_and_depth_references true Device.succeeding
      ⟨[⟨⟨10, 11, 12, 1, 44, 1, 64, 64⟩, "color", 0, true, false, 6, .none⟩,
        ⟨⟨20, 21, 22, 2, 126, 1, 64, 64⟩, "depth", 0, true, false, 3, .none⟩],
        [⟨["depth", "color"], [], []⟩], []⟩).1 _ rfl
  obtain ⟨description, listed, hget, hl, _, hcolor, _, hdepth⟩ :=
    hall 0 ⟨["depth", "color"], [], []⟩ rfl
  have hlisted : (Except.ok
      [compile_attachment 1 ⟨⟨20, 21, 22, 2, 126, 1, 64, 64⟩, "depth", 0, true, false, 3, .none⟩,
        compile_attachment 0 ⟨⟨10, 11, 12, 1, 44, 1, 64, 64⟩, "color", 0, true, false, 6, .none⟩]
      : Except Fault (List Attachment)) = .ok listed := hl
  simp only [Except.ok.injEq] at hlisted
  subst hlisted
  exact ⟨_, description, rfl, hlen, hget, hcolor.trans rfl, hdepth _ rfl⟩

end gfx

namespace gfx

/-- C11: the dependency list handed to the device has the length and order of the input
list, its i-th entry copies the i-th input's source and destination subpass, stage masks
and access masks with empty dependency flags, and the external sentinel 0xFFFFFFFF passes
through unchanged; `RenderPass::create` returns such a Pass whenever it is given an
attachment, framebuffer index 0 throughout, known names and an accepted device. -/
theorem dependencies_copied_in_order (debug : Bool) (device : Device)
    (info : RenderPass.CreateInfo) :
    (∀ compiled, RenderPass.create debug device info = .ok compiled →
        compiled.render_pass_create_info.dependencies.length = info.dependencies.length
        ∧ ∀ (i : Nat) (each : SubpassDependency), info.dependencies[i]? = some each →
            compiled.render_pass_create_info.dependencies[i]? = some
              ({ srcSubpass := each.source_subpass, dstSubpass := each.dest_subpass,
                 srcStageMask := each.source_stage, dstStageMask := each.dest_stage,
                 srcAccessMask := each.source_access, dstAccessMask := each.dest_access,
                 dependencyFlags := 0 } : VkSubpassDependency))
    ∧ (∀ each : SubpassDependency,
        (each.source_subpass = meta.external_subpass →
          (compile_dependency each).srcSubpass = 0xFFFFFFFF)
        ∧ (each.dest_subpass = meta.external_subpass →
          (compile_dependency each).dstSubpass = 0xFFFFFFFF))
    ∧ (info.attachments ≠ [] → (∀ each ∈ info.attachments, each.framebuffer = 0) →
        (∀ each ∈ info.subpasses, ∀ name ∈ each.names, name ∈ info.attachments.map (·.name)) →
        device.accepted debug →
        ∃ compiled, RenderPass.create debug device info = .ok compiled) := by
  refine ⟨?_, ?_, create_returns debug device info⟩
  · intro compiled h
    obtain ⟨_, _, hdeps⟩ := create_ok_info debug device info compiled h
    rw [hdeps]
    refine ⟨by simp, ?_⟩
    intro i each heach
    simp [List.getElem?_map, heach, compile_dependency]
  · intro each
    exact ⟨fun h => by rw [compile_dependency, h]; rfl,
      fun h => by rw [compile_dependency, h]; rfl⟩

/-- The copy of `dependencies_copied_in_order` on the Pass of `main`: the dependency from
the external sentinel to subpass 0 reaches the device unchanged. -/
theorem dependencies_copied_in_order_witness :
    ∃ compiled,
      RenderPass.create true Device.succeeding
        ⟨[⟨⟨10, 11, 12, 1, 44, 1, 1280, 720⟩, "color", 0, true, false, 6,
            .color ClearColor.default⟩],
          [⟨["color"], [], []⟩], [⟨meta.external_subpass, 0, 0x400, 0x400, 0, 0x100⟩]⟩
        = .ok compiled
      ∧ compiled.render_pass_create_info.dependencies[0]?
          = some ⟨0xFFFFFFFF, 0, 0x400, 0x400, 0, 0x100, 0⟩ := by
  have h := dependencies_copied_in_order true Device.succeeding
    ⟨[⟨⟨10, 11, 12, 1, 44, 1, 1280, 720⟩, "color", 0, true, false, 6,
        .color ClearColor.default⟩],
      [⟨["color"], [], []⟩], [⟨meta.external_subpass, 0, 0x400, 0x400, 0, 0x100⟩]⟩
  obtain ⟨compiled, hc⟩ := h.2.2 (by simp) (by simp) (by simp [SubpassInfo.names])
    (Or.inr ⟨fun _ => rfl, fun _ _ => rfl⟩)
  exact ⟨compiled, hc, (h.1 compiled hc).2 0 _ rfl⟩

/-- C12 (defect in the code, the one behind C1): for attachments with framebuffer indices
1, 0 and 1 the framebuffer of group 1 should receive the views of the first and third
attachment, but the grouping loop indexes group 1 of a one-element vector already for the
first attachment, which is out of range, so no framebuffer is created at all. -/
theorem create_group_one_out_of_range :
    (∀ debug, RenderPass.create debug Device.succeeding
        ⟨[⟨⟨10, 11, 12, 1, 44, 1, 64, 64⟩, "albedo", 1, true, false, 6, .none⟩,
          ⟨⟨20, 21, 22, 2, 126, 1, 64, 64⟩, "depth", 0, true, false, 3, .none⟩,
          ⟨⟨30, 31, 32, 1, 44, 1, 64, 64⟩, "normal", 1, true, false, 6, .none⟩],
          [], []⟩ = .error .undefined)
    ∧ group_view [[]]
        (compile_attachment 0 ⟨⟨10, 11, 12, 1, 44, 1, 64, 64⟩, "albedo", 1, true, false, 6, .none⟩)
        = .error .undefined := by
  refine ⟨?_, rfl⟩
  intro debug
  cases debug <;> rfl

/-- Whenever `RenderPass::create` returns, the framebuffer create-infos are, group by
group, the views of the grouping loop with the Pass handle and the width and height of
`framebuffer_size`, and one framebuffer handle is kept per create-info. -/
theorem create_ok_framebuffers (debug : Bool) (device : Device) (info : RenderPass.CreateInfo)
    (compiled : Compiled) (h : RenderPass.create debug device info = .ok compiled) :
    ∃ views extent, group_views [[]] (compile_attachments 0 info.attachments) = .ok views
      ∧ framebuffer_size_after none (compile_attachments 0 info.attachments) = some extent
      ∧ compiled.framebuffer_create_infos = views.map (fun group =>
          { flags := 0, renderPass := compiled.render_pass._handle, attachments := group,
            width := extent.width, height := extent.height, layers := 1 })
      ∧ compiled.framebuffer_create_infos.length = compiled.render_pass._framebuffers.length := by
  simp only [RenderPass.create, bind, Except.bind, pure, Except.pure] at h
  split at h
  · simp at h
  split at h
  · simp at h
  split at h
  · simp at h
  rename_i views hviews
  split at h
  · simp at h
  rename_i result hcreated
  simp only [Except.ok.injEq] at h
  subst h
  obtain ⟨_, hlen⟩ := group_views_ok _ [[]] views rfl hviews
  have hviews_ne : views ≠ [] := by
    intro hnil
    rw [hnil] at hlen
    simp at hlen
  obtain ⟨extent, hsize, hinfos⟩ := create_framebuffers_infos _ _ _ _ _ _ _ _ hcreated
  have hcount := create_framebuffers_length _ _ _ _ _ _ _ _ hcreated
  refine ⟨views, extent, hviews, hsize hviews_ne, by simpa using hinfos, ?_⟩
  simp only [hinfos, List.nil_append, List.length_map]
  simpa using hcount.symm

/-- Whenever `RenderPass::create` returns, the attachment list is not empty, every
framebuffer create-info carries the width and height `framebuffer_size` holds after the
first loop, which are those of the attachment compiled last, and `extent()` returns the
width and height of the first attachment. -/
theorem create_ok_sizes (debug : Bool) (device : Device)
    (info : RenderPass.CreateInfo) (compiled : Compiled)
    (h : RenderPass.create debug device info = .ok compiled) :
    ∃ first last, info.attachments.head? = some first
      ∧ info.attachments.getLast? = some last
      ∧ compiled.framebuffer_create_infos ≠ []
      ∧ compiled.framebuffer_create_infos.length = compiled.render_pass._framebuffers.length
      ∧ (∀ f ∈ compiled.framebuffer_create_infos,
          f.width = last.image.width ∧ f.height = last.image.height)
      ∧ compiled.render_pass.extent = .ok ⟨first.image.width, first.image.height⟩ := by
  have hattachments := (create_ok debug device info compiled h).2.2
  obtain ⟨views, extent, hviews, hsome, hinfos, hcount⟩ :=
    create_ok_framebuffers debug device info compiled h
  have hnonempty : compiled.framebuffer_create_infos ≠ [] := by
    obtain ⟨_, hlen⟩ := group_views_ok _ [[]] views rfl hviews
    intro hnil
    rw [hinfos] at hnil
    rw [List.map_eq_nil_iff] at hnil
    rw [hnil] at hlen
    simp at hlen
  rw [framebuffer_size_after_last] at hsome
  cases hlast : (compile_attachments 0 info.attachments).getLast? with
  | none => rw [hlast] at hsome; simp at hsome
  | some compiled_last =>
    rw [hlast] at hsome
    simp only [Option.some.injEq] at hsome
    have himage := compile_attachments_getLast? info.attachments 0
    rw [hlast] at himage
    cases hl : info.attachments.getLast? with
    | none => rw [hl] at himage; simp at himage
    | some last =>
      rw [hl] at himage
      simp only [Option.map_some', Option.some.injEq] at himage
      cases hattach : info.attachments with
      | nil => rw [hattach] at hl; simp at hl
      | cons first rest =>
        have hsizes : ∀ f ∈ compiled.framebuffer_create_infos,
            f.width = last.image.width ∧ f.height = last.image.height := by
          intro f hf
          rw [hinfos] at hf
          simp only [List.mem_map] at hf
          obtain ⟨group, _, rfl⟩ := hf
          simp only [← hsome, himage, and_self]
        have hextent : compiled.render_pass.extent
            = .ok ⟨first.image.width, first.image.height⟩ := by
          simp [RenderPass.extent, hattachments, hattach, compile_attachments,
            compile_attachment]
        exact ⟨first, last, rfl, rfl, hnonempty, hcount, hsizes, hextent⟩

/-- C13: for an attachment list whose images all share one width and height (a Pass of
mixed sizes is not supported), whenever `RenderPass::create` returns a Pass the list is
not empty, at least one framebuffer is created, every framebuffer is created with the
width and height of the first attachment's image, and `extent()` of the Pass returns that
same width and height; `RenderPass::create` returns such a Pass whenever it is given an
attachment, framebuffer index 0 throughout, known names and an accepted device. -/
theorem framebuffers_sized_to_first_attachment (debug : Bool) (device : Device)
    (info : RenderPass.CreateInfo)
    (hsame : ∀ each ∈ info.attachments, ∀ other ∈ info.attachments,
      each.image.width = other.image.width ∧ each.image.height = other.image.height) :
    (∀ compiled, RenderPass.create debug device info = .ok compiled →
      ∃ first, info.attachments.head? = some first
        ∧ compiled.framebuffer_create_infos ≠ []
        ∧ compiled.framebuffer_create_infos.length = compiled.render_pass._framebuffers.length
        ∧ (∀ f ∈ compiled.framebuffer_create_infos,
            f.width = first.image.width ∧ f.height = first.image.height)
        ∧ compiled.render_pass.extent = .ok ⟨first.image.width, first.image.height⟩
        ∧ ∀ f ∈ compiled.framebuffer_create_infos,
            compiled.render_pass.extent = .ok ⟨f.width, f.height⟩)
    ∧ (info.attachments ≠ [] → (∀ each ∈ info.attachments, each.framebuffer = 0) →
        (∀ each ∈ info.subpasses, ∀ name ∈ each.names, name ∈ info.attachments.map (·.name)) →
        device.accepted debug →
        ∃ compiled, RenderPass.create debug device info = .ok compiled) := by
  refine ⟨?_, create_returns debug device info⟩
  intro compiled h
  obtain ⟨first, last, hfirst, hlast, hnonempty, hcount, hsizes, hextent⟩ :=
    create_ok_sizes debug device info compiled h
  obtain ⟨hw, hh⟩ := hsame last (List.mem_of_getLast?_eq_some hlast) first
    (List.mem_of_mem_head? hfirst)
  refine ⟨first, hfirst, hnonempty, hcount, ?_, hextent, ?_⟩
  · intro f hf
    obtain ⟨h1, h2⟩ := hsizes f hf
    exact ⟨h1.trans hw, h2.trans hh⟩
  · intro f hf
    obtain ⟨h1, h2⟩ := hsizes f hf
    rw [hextent, h1, h2, hw, hh]

/-- The sizes of `framebuffers_sized_to_first_attachment` on a Pass with a colour and a
depth attachment of 1280x720 each: one framebuffer of 1280x720, which is also the
extent. -/
theorem framebuffers_sized_to_first_attachment_witness :
    ∃ compiled,
      RenderPass.create true Device.succeeding
        ⟨[⟨⟨10, 11, 12, 1, 44, 1, 1280, 720⟩, "color", 0, true, false, 6,
            .color ClearColor.default⟩,
          ⟨⟨20, 21, 22, 2, 126, 1, 1280, 720⟩, "depth", 0, true, false, 3, .none⟩],
          [⟨["color", "depth"], [], []⟩], []⟩ = .ok compiled
      ∧ compiled.framebuffer_create_infos ≠ []
      ∧ (∀ f ∈ compiled.framebuffer_create_infos, f.width = 1280 ∧ f.height = 720)
      ∧ compiled.render_pass.extent = .ok ⟨1280, 720⟩ := by
  have h := framebuffers_sized_to_first_attachment true Device.succeeding
    ⟨[⟨⟨10, 11, 12, 1, 44, 1, 1280, 720⟩, "color", 0, true, false, 6,
        .color ClearColor.default⟩,
      ⟨⟨20, 21, 22, 2, 126, 1, 1280, 720⟩, "depth", 0, true, false, 3, .none⟩],
      [⟨["color", "depth"], [], []⟩], []⟩ (by simp)
  obtain ⟨compiled, hc⟩ := h.2 (by simp) (by simp) (by simp [SubpassInfo.names])
    (Or.inr ⟨fun _ => rfl, fun _ _ => rfl⟩)
  obtain ⟨first, hfirst, hnonempty, _, hsizes, hextent, _⟩ := h.1 compiled hc
  simp only [List.head?_cons, Option.some.injEq] at hfirst
  subst hfirst
  exact ⟨compiled, hc, hnonempty, hsizes, hextent⟩

theorem compile_attachments_clears (index : Nat) (attachments : List Attachment.CreateInfo) :
    (compile_attachments index attachments).map (·.clear) = attachments.map (·.clear) := by
  induction attachments generalizing index with
  | nil => rfl
  | cons first rest ih => simp [compile_attachments, compile_attachment, ih]

/-- C14: `clears()` has one element per attachment, and for the Pass compiled from an
attachment list its i-th element is the clear value supplied for the i-th attachment: the
colour, the depth-stencil pair, or the all-zero value when none was supplied. -/
theorem clears_follow_attachments (debug : Bool) (device : Device)
    (info : RenderPass.CreateInfo) :
    (∀ render_pass : RenderPass,
        render_pass.clears.length = render_pass._attachments.length
        ∧ ∀ (i : Nat) (a : Attachment), render_pass._attachments[i]? = some a →
            render_pass.clears[i]? = some a.clear.value)
    ∧ (∀ (handle : Nat) (framebuffers : List Nat) (i : Nat) (each : Attachment.CreateInfo),
        info.attachments[i]? = some each →
        (RenderPass.clears ⟨handle, compile_attachments 0 info.attachments, framebuffers⟩).length
            = info.attachments.length
        ∧ (RenderPass.clears ⟨handle, compile_attachments 0 info.attachments, framebuffers⟩)[i]?
            = some (match each.clear with
              | .none => VkClearValue.color ⟨0, 0, 0, 0⟩
              | .color clear => VkClearValue.color clear.value
              | .depth clear => VkClearValue.depthStencil clear.value))
    ∧ (∀ compiled, RenderPass.create debug device info = .ok compiled →
        compiled.render_pass.clears = info.attachments.map (·.clear.value)) := by
  have hclears : ∀ handle framebuffers,
      RenderPass.clears ⟨handle, compile_attachments 0 info.attachments, framebuffers⟩
        = info.attachments.map (·.clear.value) := by
    intro handle framebuffers
    have := congrArg (List.map ClearValue.value) (compile_attachments_clears 0 info.attachments)
    simpa [RenderPass.clears, List.map_map, Function.comp] using this
  refine ⟨?_, ?_, ?_⟩
  · intro render_pass
    refine ⟨by simp [RenderPass.clears], ?_⟩
    intro i a ha
    simp [RenderPass.clears, List.getElem?_map, ha]
  · intro handle framebuffers i each heach
    rw [hclears]
    refine ⟨by simp, ?_⟩
    simp only [List.getElem?_map, heach, Option.map_some', Option.some.injEq]
    cases each.clear <;> rfl
  · intro compiled h
    have hattachments := (create_ok debug device info compiled h).2.2
    have := hclears compiled.render_pass._handle compiled.render_pass._framebuffers
    rw [← hattachments] at this
    exact this

/-- The list of `clears_follow_attachments` for a colour attachment cleared to a colour,
a depth attachment cleared to depth 1 (bit pattern 0x3F800000) and stencil 0, and an
attachment without clear value. -/
theorem clears_follow_attachments_witness :
    (RenderPass.clears ⟨1, compile_attachments 0
        [⟨⟨10, 11, 12, 1, 44, 1, 64, 64⟩, "color", 0, true, false, 6, .color ⟨⟨1, 2, 3, 4⟩⟩⟩,
          ⟨⟨20, 21, 22, 2, 126, 1, 64, 64⟩, "depth", 0, true, false, 3,
            .depth ⟨⟨0x3F800000, 0⟩⟩⟩,
          ⟨⟨30, 31, 32, 1, 44, 1, 64, 64⟩, "normal", 0, true, false, 6, .none⟩], [100]⟩)[2]?
      = some (VkClearValue.color ⟨0, 0, 0, 0⟩) :=
  ((clears_follow_attachments false Device.succeeding
    ⟨[⟨⟨10, 11, 12, 1, 44, 1, 64, 64⟩, "color", 0, true, false, 6, .color ⟨⟨1, 2, 3, 4⟩⟩⟩,
      ⟨⟨20, 21, 22, 2, 126, 1, 64, 64⟩, "depth", 0, true, false, 3, .depth ⟨⟨0x3F800000, 0⟩⟩⟩,
      ⟨⟨30, 31, 32, 1, 44, 1, 64, 64⟩, "normal", 0, true, false, 6, .none⟩], [], []⟩).2.1
    1 [100] 2 ⟨⟨30, 31, 32, 1, 44, 1, 64, 64⟩, "normal", 0, true, false, 6, .none⟩ rfl).2

end gfx

namespace gfx

/-! ## The device calls of `acquire_next_frame` and `present_frame` -/

theorem in_flight_array_get_slot {α : Type} (a : meta.in_flight_array α) (slot : Nat)
    (hslot : slot < meta.in_flight) : ∃ x, a.get slot = .ok x := by
  simp only [meta.in_flight] at hslot
  by_cases h0 : slot = 0
  · exact ⟨a.e0, by simp [meta.in_flight_array.get, h0]⟩
  · have h1 : slot = 1 := by omega
    exact ⟨a.e1, by simp [meta.in_flight_array.get, h1]⟩

/-- What `acquire_next_frame` returns when it returns: the command buffer and the three
primitives of the active slot, the image index handed back by the surface, and the two
device calls in the order they were issued. -/
theorem acquire_next_frame_ok (debug : Bool) (renderer : Renderer) (context : Context)
    (response : AcquireResponse)
    (result : Renderer × (CommandBuffer × FrameInfo) × List DeviceCall)
    (h : acquire_next_frame debug renderer context response = .ok result) :
    ∃ command_buffer img_ready gfx_done cmd_wait,
      renderer.gfx_cmds.get renderer.frame_idx = .ok command_buffer
      ∧ renderer.img_ready.get renderer.frame_idx = .ok img_ready
      ∧ renderer.gfx_done.get renderer.frame_idx = .ok gfx_done
      ∧ renderer.cmd_wait.get renderer.frame_idx = .ok cmd_wait
      ∧ response.image_idx < renderer.swapchain.images.length
      ∧ (debug = true →
          response.acquire_result = VK_SUCCESS ∧ response.wait_result = VK_SUCCESS)
      ∧ result =
          ({ renderer with image_idx := response.image_idx },
            (command_buffer,
              { index := renderer.frame_idx, image_idx := response.image_idx,
                img_ready := img_ready, gfx_done := gfx_done, cmd_wait := cmd_wait,
                image := response.image_idx }),
            [DeviceCall.vkAcquireNextImageKHR context.device renderer.swapchain.handle
                UINT64_MAX img_ready 0,
              DeviceCall.vkWaitForFences context.device [cmd_wait] true UINT64_MAX]) := by
  simp only [acquire_next_frame, bind, Except.bind, pure, Except.pure] at h
  cases h1 : renderer.img_ready.get renderer.frame_idx with
  | error e => simp [h1] at h
  | ok img_ready =>
    cases h2 : renderer.cmd_wait.get renderer.frame_idx with
    | error e => simp only [h1, h2] at h; split at h <;> simp at h
    | ok cmd_wait =>
      cases h3 : renderer.gfx_cmds.get renderer.frame_idx with
      | error e => simp only [h1, h2, h3] at h; (repeat' split at h) <;> simp at h
      | ok command_buffer =>
        cases h4 : renderer.gfx_done.get renderer.frame_idx with
        | error e => simp only [h1, h2, h3, h4] at h; (repeat' split at h) <;> simp at h
        | ok gfx_done =>
          simp only [h1, h2, h3, h4] at h
          split at h
          · simp at h
          rename_i hcheck1
          split at h
          · simp at h
          rename_i hcheck2
          split at h
          · rename_i himage
            simp only [Except.ok.injEq] at h
            refine ⟨command_buffer, img_ready, gfx_done, cmd_wait, rfl, rfl, rfl, rfl, himage,
              ?_, h.symm⟩
            intro hdebug
            subst hdebug
            constructor
            · by_contra hne
              simp [qz_vulkan_check, hne] at hcheck1
            · by_contra hne
              simp [qz_vulkan_check, hne] at hcheck2
          · simp at h

/-- What `present_frame` returns when it returns: the slot index advanced, and the three
device calls in the order they were issued. -/
theorem present_frame_ok (debug : Bool) (renderer : Renderer) (context : Context)
    (command_buffer : CommandBuffer) (frame : FrameInfo) (response : PresentResponse)
    (result : Renderer × List DeviceCall)
    (h : present_frame debug renderer context command_buffer frame response = .ok result) :
    result =
      ({ renderer with frame_idx := u32 (renderer.frame_idx + 1) % meta.in_flight },
        [DeviceCall.vkResetFences context.device [frame.cmd_wait],
          DeviceCall.vkQueueSubmit context.graphics
            { waitSemaphores := [frame.img_ready],
              waitDstStageMask := [VK_PIPELINE_STAGE_COLOR_ATTACHMENT_OUTPUT_BIT],
              commandBuffers := [command_buffer._handle],
              signalSemaphores := [frame.gfx_done] } frame.cmd_wait,
          DeviceCall.vkQueuePresentKHR context.graphics
            { waitSemaphores := [frame.gfx_done], swapchains := [renderer.swapchain.handle],
              imageIndices := [frame.image_idx] }]) := by
  simp only [present_frame, bind, Except.bind, pure, Except.pure] at h
  repeat' split at h
  all_goals first
    | (simp only [Except.ok.injEq] at h; exact h.symm)
    | simp at h

end gfx

namespace gfx

/-- C15, as stated, fails: on a renderer in slot 0 the first device call of
`acquire_next_frame` is the request for the next image, which signals `img_ready[0]`, and
the wait on the fence `cmd_wait[0]` is issued after it. -/
theorem acquire_requests_image_before_wait :
    ∃ result,
      acquire_next_frame true
        ⟨⟨5, 6, ⟨1280, 720⟩, 44, [⟨0, 0, 0, 1, 44, 1, 1280, 720⟩]⟩, 0, 0,
          ⟨⟨none, 7, 4⟩, ⟨none, 8, 4⟩⟩, ⟨9, 10⟩, ⟨11, 12⟩, ⟨13, 14⟩⟩
        ⟨1, 2, 3, 4⟩ ⟨0, 0, 0⟩ = .ok result
      ∧ result.2.2.head? = some (DeviceCall.vkAcquireNextImageKHR 1 6 UINT64_MAX 9 0)
      ∧ result.2.2.indexOf (DeviceCall.vkAcquireNextImageKHR 1 6 UINT64_MAX 9 0)
          < result.2.2.indexOf (DeviceCall.vkWaitForFences 1 [13] true UINT64_MAX)
      ∧ result.2.2.indexOf (DeviceCall.vkWaitForFences 1 [13] true UINT64_MAX)
          < result.2.2.length :=
  ⟨_, rfl, rfl, by decide, by decide⟩

/-- C15, amended: whenever `acquire_next_frame` returns it has issued exactly two device
calls, first the request for the next presentable image, with no timeout and signalling
`img_ready[frame_idx]`, and then the wait with no timeout on the fence
`cmd_wait[frame_idx]`. -/
theorem acquire_image_request_then_wait (debug : Bool) (renderer : Renderer)
    (context : Context) (response : AcquireResponse)
    (result : Renderer × (CommandBuffer × FrameInfo) × List DeviceCall)
    (h : acquire_next_frame debug renderer context response = .ok result) :
    ∃ img_ready cmd_wait,
      renderer.img_ready.get renderer.frame_idx = .ok img_ready
      ∧ renderer.cmd_wait.get renderer.frame_idx = .ok cmd_wait
      ∧ result.2.2 =
          [DeviceCall.vkAcquireNextImageKHR context.device renderer.swapchain.handle
              UINT64_MAX img_ready 0,
            DeviceCall.vkWaitForFences context.device [cmd_wait] true UINT64_MAX] := by
  obtain ⟨_, img_ready, _, cmd_wait, _, h1, _, h2, _, _, hresult⟩ :=
    acquire_next_frame_ok debug renderer context response result h
  exact ⟨img_ready, cmd_wait, h1, h2, by rw [hresult]⟩

/-- The order of `acquire_image_request_then_wait` on a renderer in slot 1. -/
theorem acquire_image_request_then_wait_witness :
    ∃ result,
      acquire_next_frame true
        ⟨⟨5, 6, ⟨1280, 720⟩, 44, [⟨0, 0, 0, 1, 44, 1, 1280, 720⟩]⟩, 0, 1,
          ⟨⟨none, 7, 4⟩, ⟨none, 8, 4⟩⟩, ⟨9, 10⟩, ⟨11, 12⟩, ⟨13, 14⟩⟩
        ⟨1, 2, 3, 4⟩ ⟨0, 0, 0⟩ = .ok result
      ∧ result.2.2 =
          [DeviceCall.vkAcquireNextImageKHR 1 6 UINT64_MAX 10 0,
            DeviceCall.vkWaitForFences 1 [14] true UINT64_MAX] := by
  obtain ⟨result, hresult⟩ := acquire_next_frame_accepted true
    ⟨⟨5, 6, ⟨1280, 720⟩, 44, [⟨0, 0, 0, 1, 44, 1, 1280, 720⟩]⟩, 0, 1,
      ⟨⟨none, 7, 4⟩, ⟨none, 8, 4⟩⟩, ⟨9, 10⟩, ⟨11, 12⟩, ⟨13, 14⟩⟩
    ⟨1, 2, 3, 4⟩ ⟨0, 0, 0⟩ (by decide) (by simp [FrameCall.accepted, VK_SUCCESS])
  obtain ⟨img_ready, cmd_wait, h1, h2, htrace⟩ :=
    acquire_image_request_then_wait true _ _ _ result hresult
  have e1 : img_ready = 10 := by
    have : (Except.ok 10 : Except Fault Nat) = .ok img_ready := h1
    simpa using this.symm
  have e2 : cmd_wait = 14 := by
    have : (Except.ok 14 : Except Fault Nat) = .ok cmd_wait := h2
    simpa using this.symm
  subst e1
  subst e2
  exact ⟨result, hresult, htrace⟩

/-- C16 (as stated, refuted): without `QUARTZ_DEBUG` the result of the wait is not looked
at; on a renderer in slot 0 whose wait on `cmd_wait[0]` fails with
`VK_ERROR_DEVICE_LOST` (-4), so that the fence is not known to be signaled,
`acquire_next_frame` still hands back the command buffer of slot 0. -/
theorem acquire_returns_after_failed_wait :
    ∃ result,
      acquire_next_frame false
        ⟨⟨5, 6, ⟨1280, 720⟩, 44, [⟨0, 0, 0, 1, 44, 1, 1280, 720⟩]⟩, 0, 0,
          ⟨⟨none, 7, 4⟩, ⟨none, 8, 4⟩⟩, ⟨9, 10⟩, ⟨11, 12⟩, ⟨13, 14⟩⟩
        ⟨1, 2, 3, 4⟩ ⟨0, 0, -4⟩ = .ok result
      ∧ result.2.1.1 = ⟨none, 7, 4⟩
      ∧ result.2.2.getLast? = some (DeviceCall.vkWaitForFences 1 [13] true UINT64_MAX)
      ∧ (-4 : Int) ≠ VK_SUCCESS :=
  ⟨_, rfl, rfl, rfl, by decide⟩

/-- C16 (amended): whenever `acquire_next_frame` returns the command buffer of the active
slot, the last device call it has issued is a wait on all of the single fence
`cmd_wait[frame_idx]` with the maximal timeout, and it does not return while that wait
has not returned.  With `QUARTZ_DEBUG` it returns only when the wait reported
`VK_SUCCESS`, and a wait that reports anything else after an accepted image request
aborts the program; without `QUARTZ_DEBUG` the result of the wait is ignored, and the
command buffer is handed back whatever the wait reported. -/
theorem acquire_waits_then_checks_with_debug (debug : Bool) (renderer : Renderer)
    (context : Context) (response : AcquireResponse) :
    (∀ result, acquire_next_frame debug renderer context response = .ok result →
      ∃ fence,
        renderer.cmd_wait.get renderer.frame_idx = .ok fence
        ∧ renderer.gfx_cmds.get renderer.frame_idx = .ok result.2.1.1
        ∧ result.2.2.getLast?
            = some (DeviceCall.vkWaitForFences context.device [fence] true UINT64_MAX)
        ∧ UINT64_MAX = 2 ^ 64 - 1
        ∧ (debug = true → response.wait_result = VK_SUCCESS)
        ∧ ∀ (returns : DeviceCall → Nat → Option Nat) (now : Nat) (first : DeviceCall)
            (called : Nat),
            result.2.2.head? = some first → returns first now = some called →
            returns (DeviceCall.vkWaitForFences context.device [fence] true UINT64_MAX) called
              = none →
            returns_at returns result.2.2 now = none)
    ∧ (debug = true → renderer.frame_idx < meta.in_flight →
        response.acquire_result = VK_SUCCESS → response.wait_result ≠ VK_SUCCESS →
        acquire_next_frame debug renderer context response = .error .abort)
    ∧ (debug = false → renderer.frame_idx < meta.in_flight →
        response.image_idx < renderer.swapchain.images.length →
        ∃ result, acquire_next_frame debug renderer context response = .ok result) := by
  refine ⟨?_, ?_, ?_⟩
  · intro result h
    obtain ⟨command_buffer, img_ready, gfx_done, cmd_wait, h3, _, _, h2, _, hdebug, hresult⟩ :=
      acquire_next_frame_ok debug renderer context response result h
    subst hresult
    refine ⟨cmd_wait, h2, h3, rfl, rfl, fun hd => (hdebug hd).2, ?_⟩
    intro returns now first called hfirst hcalled hblocked
    simp only [List.head?_cons, Option.some.injEq] at hfirst
    subst hfirst
    simp only [returns_at, hcalled, hblocked]
  · intro hdebug hslot hacquire hwait
    subst hdebug
    obtain ⟨semaphore, hsemaphore⟩ := in_flight_array_get_slot renderer.img_ready _ hslot
    obtain ⟨fence, hfence⟩ := in_flight_array_get_slot renderer.cmd_wait _ hslot
    simp [acquire_next_frame, hsemaphore, hfence, qz_vulkan_check, hacquire, hwait, bind,
      Except.bind]
  · intro hdebug hslot himage
    exact acquire_next_frame_accepted debug renderer context response hslot
      (by simp [FrameCall.accepted, hdebug, himage])

/-- The check of `acquire_waits_then_checks_with_debug` with `QUARTZ_DEBUG` on a renderer
in slot 0: a wait that reports `VK_ERROR_DEVICE_LOST` aborts, and no command buffer is
handed back. -/
theorem acquire_waits_then_checks_with_debug_witness :
    acquire_next_frame true
        ⟨⟨5, 6, ⟨1280, 720⟩, 44, [⟨0, 0, 0, 1, 44, 1, 1280, 720⟩]⟩, 0, 0,
          ⟨⟨none, 7, 4⟩, ⟨none, 8, 4⟩⟩, ⟨9, 10⟩, ⟨11, 12⟩, ⟨13, 14⟩⟩
        ⟨1, 2, 3, 4⟩ ⟨0, 0, -4⟩ = .error .abort :=
  (acquire_waits_then_checks_with_debug true
    ⟨⟨5, 6, ⟨1280, 720⟩, 44, [⟨0, 0, 0, 1, 44, 1, 1280, 720⟩]⟩, 0, 0,
      ⟨⟨none, 7, 4⟩, ⟨none, 8, 4⟩⟩, ⟨9, 10⟩, ⟨11, 12⟩, ⟨13, 14⟩⟩
    ⟨1, 2, 3, 4⟩ ⟨0, 0, -4⟩).2.1 rfl (by decide) rfl (by decide)

/-- C17: when `acquire_next_frame` returns on a renderer in slot s, it returns the command
buffer `gfx_cmds[s]` and a `FrameInfo` with index s, the image index handed back by the
surface, the primitives `img_ready[s]`, `gfx_done[s]` and `cmd_wait[s]`, and a pointer to
the swapchain image of that image index, and it leaves `frame_idx` at s; it returns
whenever s is a slot, the device accepts the calls and the image index is one of the
swapchain images. -/
theorem acquire_returns_active_slot (debug : Bool) (renderer : Renderer) (context : Context)
    (response : AcquireResponse) :
    (∀ result, acquire_next_frame debug renderer context response = .ok result →
        renderer.gfx_cmds.get renderer.frame_idx = .ok result.2.1.1
        ∧ result.2.1.2.index = renderer.frame_idx
        ∧ result.2.1.2.image_idx = response.image_idx
        ∧ renderer.img_ready.get renderer.frame_idx = .ok result.2.1.2.img_ready
        ∧ renderer.gfx_done.get renderer.frame_idx = .ok result.2.1.2.gfx_done
        ∧ renderer.cmd_wait.get renderer.frame_idx = .ok result.2.1.2.cmd_wait
        ∧ result.2.1.2.image = result.2.1.2.image_idx
        ∧ (∃ image, result.1.swapchain.images[result.2.1.2.image]? = some image)
        ∧ result.1.frame_idx = renderer.frame_idx
        ∧ result.1.image_idx = response.image_idx)
    ∧ (renderer.frame_idx < meta.in_flight →
        (FrameCall.acquire response).accepted debug renderer.swapchain.images.length →
        ∃ result, acquire_next_frame debug renderer context response = .ok result) := by
  refine ⟨?_, acquire_next_frame_accepted debug renderer context response⟩
  intro result h
  obtain ⟨command_buffer, img_ready, gfx_done, cmd_wait, h1, h2, h3, h4, himage, _, hresult⟩ :=
    acquire_next_frame_ok debug renderer context response result h
  subst hresult
  exact ⟨h1, rfl, rfl, h2, h3, h4, rfl,
    ⟨_, List.getElem?_eq_getElem himage⟩, rfl, rfl⟩

/-- The frame of `acquire_returns_active_slot` on a renderer in slot 1 whose surface hands
back image 2. -/
theorem acquire_returns_active_slot_witness :
    ∃ result,
      acquire_next_frame true
        ⟨⟨5, 6, ⟨1280, 720⟩, 44,
            [⟨40, 41, 0, 1, 44, 1, 1280, 720⟩, ⟨50, 51, 0, 1, 44, 1, 1280, 720⟩,
              ⟨60, 61, 0, 1, 44, 1, 1280, 720⟩]⟩, 0, 1,
          ⟨⟨none, 7, 4⟩, ⟨none, 8, 4⟩⟩, ⟨9, 10⟩, ⟨11, 12⟩, ⟨13, 14⟩⟩
        ⟨1, 2, 3, 4⟩ ⟨0, 2, 0⟩ = .ok result
      ∧ result.2.1.2.index = 1
      ∧ result.2.1.2.image_idx = 2
      ∧ result.1.frame_idx = 1 := by
  have h := acquire_returns_active_slot true
    ⟨⟨5, 6, ⟨1280, 720⟩, 44,
        [⟨40, 41, 0, 1, 44, 1, 1280, 720⟩, ⟨50, 51, 0, 1, 44, 1, 1280, 720⟩,
          ⟨60, 61, 0, 1, 44, 1, 1280, 720⟩]⟩, 0, 1,
      ⟨⟨none, 7, 4⟩, ⟨none, 8, 4⟩⟩, ⟨9, 10⟩, ⟨11, 12⟩, ⟨13, 14⟩⟩
    ⟨1, 2, 3, 4⟩ ⟨0, 2, 0⟩
  obtain ⟨result, hresult⟩ := h.2 (by decide) (by simp [FrameCall.accepted, VK_SUCCESS])
  obtain ⟨_, hindex, himage, _, _, _, _, _, hslot, _⟩ := h.1 result hresult
  exact ⟨result, hresult, hindex, himage, hslot⟩

/-- C18: whenever `present_frame` returns it has issued exactly three device calls in this
order: the reset of `frame.cmd_wait`; one submit to the graphics queue of the given command
buffer that waits on `frame.img_ready` at the colour-attachment-output stage, signals
`frame.gfx_done` and is fenced by `frame.cmd_wait`; and one present request on the graphics
queue for image `frame.image_idx` of the swapchain that waits on `frame.gfx_done`. It
returns whenever the device accepts the calls. -/
theorem present_submits_then_presents (debug : Bool) (renderer : Renderer) (context : Context)
    (command_buffer : CommandBuffer) (frame : FrameInfo) (response : PresentResponse) :
    (∀ result, present_frame debug renderer context command_buffer frame response = .ok result →
        result.2 =
          [DeviceCall.vkResetFences context.device [frame.cmd_wait],
            DeviceCall.vkQueueSubmit context.graphics
              { waitSemaphores := [frame.img_ready],
                waitDstStageMask := [VK_PIPELINE_STAGE_COLOR_ATTACHMENT_OUTPUT_BIT],
                commandBuffers := [command_buffer._handle],
                signalSemaphores := [frame.gfx_done] } frame.cmd_wait,
            DeviceCall.vkQueuePresentKHR context.graphics
              { waitSemaphores := [frame.gfx_done], swapchains := [renderer.swapchain.handle],
                imageIndices := [frame.image_idx] }])
    ∧ ((FrameCall.present command_buffer frame response).accepted debug
          renderer.swapchain.images.length →
        ∃ result, present_frame debug renderer context command_buffer frame response
          = .ok result) := by
  refine ⟨?_, present_frame_accepted debug renderer context command_buffer frame response _⟩
  intro result h
  rw [present_frame_ok debug renderer context command_buffer frame response result h]

/-- The calls of `present_submits_then_presents` for the frame of slot 1 and image 2. -/
theorem present_submits_then_presents_witness :
    ∃ result,
      present_frame true
        ⟨⟨5, 6, ⟨1280, 720⟩, 44, [⟨0, 0, 0, 1, 44, 1, 1280, 720⟩]⟩, 2, 1,
          ⟨⟨none, 7, 4⟩, ⟨none, 8, 4⟩⟩, ⟨9, 10⟩, ⟨11, 12⟩, ⟨13, 14⟩⟩
        ⟨1, 2, 3, 4⟩ ⟨none, 8, 4⟩ ⟨1, 2, 10, 12, 14, 2⟩ ⟨0, 0, 0, 0⟩ = .ok result
      ∧ result.2 =
          [DeviceCall.vkResetFences 1 [14],
            DeviceCall.vkQueueSubmit 2 ⟨[10], [0x400], [8], [12]⟩ 14,
            DeviceCall.vkQueuePresentKHR 2 ⟨[12], [6], [2]⟩] := by
  have h := present_submits_then_presents true
    ⟨⟨5, 6, ⟨1280, 720⟩, 44, [⟨0, 0, 0, 1, 44, 1, 1280, 720⟩]⟩, 2, 1,
      ⟨⟨none, 7, 4⟩, ⟨none, 8, 4⟩⟩, ⟨9, 10⟩, ⟨11, 12⟩, ⟨13, 14⟩⟩
    ⟨1, 2, 3, 4⟩ ⟨none, 8, 4⟩ ⟨1, 2, 10, 12, 14, 2⟩ ⟨0, 0, 0, 0⟩
  obtain ⟨result, hresult⟩ := h.2 (by simp [FrameCall.accepted, VK_SUCCESS])
  exact ⟨result, hresult, h.1 result hresult⟩

/-- C19, as stated, fails: built without `QUARTZ_DEBUG`, `present_frame` returns normally
and advances the slot index from 0 to 1 although the submit, the present request and the
present result all report `VK_ERROR_DEVICE_LOST` (-4). -/
theorem present_failure_ignored_without_debug :
    ∃ result,
      present_frame false
        ⟨⟨5, 6, ⟨1280, 720⟩, 44, [⟨0, 0, 0, 1, 44, 1, 1280, 720⟩]⟩, 0, 0,
          ⟨⟨none, 7, 4⟩, ⟨none, 8, 4⟩⟩, ⟨9, 10⟩, ⟨11, 12⟩, ⟨13, 14⟩⟩
        ⟨1, 2, 3, 4⟩ ⟨none, 7, 4⟩ ⟨0, 0, 9, 11, 13, 0⟩ ⟨0, -4, -4, -4⟩ = .ok result
      ∧ result.1.frame_idx = 1
      ∧ (-4 : Int) ≠ VK_SUCCESS :=
  ⟨_, rfl, rfl, by decide⟩

/-- C19, amended: built with `QUARTZ_DEBUG`, `present_frame` aborts, without returning and
without advancing the slot index, as soon as the submit, the present request or the present
result reports anything but success; built without it, the results are ignored and
`present_frame` returns with the slot index advanced; in neither build is a call repeated:
a returning call has issued one reset, one submit and one present request. -/
theorem present_failure_fatal_with_debug (renderer : Renderer) (context : Context)
    (command_buffer : CommandBuffer) (frame : FrameInfo) (response : PresentResponse) :
    ((response.submit_result ≠ VK_SUCCESS ∨ response.queue_present_result ≠ VK_SUCCESS
        ∨ response.present_result ≠ VK_SUCCESS) →
      present_frame true renderer context command_buffer frame response = .error .abort)
    ∧ (∃ result,
        present_frame false renderer context command_buffer frame response = .ok result
        ∧ result.1.frame_idx = u32 (renderer.frame_idx + 1) % meta.in_flight)
    ∧ (∀ debug result,
        present_frame debug renderer context command_buffer frame response = .ok result →
        result.2.length = 3
        ∧ (debug = true → response.submit_result = VK_SUCCESS
            ∧ response.queue_present_result = VK_SUCCESS
            ∧ response.present_result = VK_SUCCESS)) := by
  refine ⟨?_, ?_, ?_⟩
  · intro hfail
    simp only [present_frame, qz_vulkan_check, bind, Except.bind, pure, Except.pure,
      Bool.true_and, bne_iff_ne, ne_eq, ite_not]
    by_cases h1 : response.reset_result = VK_SUCCESS
    · by_cases h2 : response.submit_result = VK_SUCCESS
      · by_cases h3 : response.queue_present_result = VK_SUCCESS
        · by_cases h4 : response.present_result = VK_SUCCESS
          · rcases hfail with h | h | h <;> contradiction
          · simp [h1, h2, h3, h4]
        · simp [h1, h2, h3]
      · simp [h1, h2]
    · simp [h1]
  · obtain ⟨result, hresult⟩ := present_frame_accepted false renderer context command_buffer
      frame response 0 (Or.inl rfl)
    refine ⟨result, hresult, ?_⟩
    rw [present_frame_ok false renderer context command_buffer frame response result hresult]
  · intro debug result h
    have hresult := present_frame_ok debug renderer context command_buffer frame response result h
    refine ⟨by rw [hresult]; rfl, ?_⟩
    intro hdebug
    subst hdebug
    by_contra hne
    have hfail : response.submit_result ≠ VK_SUCCESS ∨ response.queue_present_result ≠ VK_SUCCESS
        ∨ response.present_result ≠ VK_SUCCESS := by
      by_contra hall
      push_neg at hall
      exact hne hall
    have habort : present_frame true renderer context command_buffer frame response
        = .error .abort := by
      simp only [present_frame, qz_vulkan_check, bind, Except.bind, pure, Except.pure,
        Bool.true_and, bne_iff_ne, ne_eq, ite_not]
      by_cases h1 : response.reset_result = VK_SUCCESS
      · by_cases h2 : response.submit_result = VK_SUCCESS
        · by_cases h3 : response.queue_present_result = VK_SUCCESS
          · by_cases h4 : response.present_result = VK_SUCCESS
            · rcases hfail with h | h | h <;> contradiction
            · simp [h1, h2, h3, h4]
          · simp [h1, h2, h3]
        · simp [h1, h2]
      · simp [h1]
    rw [habort] at h
    simp at h

/-- The abort of `present_failure_fatal_with_debug` when the submit reports
`VK_ERROR_DEVICE_LOST` (-4) in a build with `QUARTZ_DEBUG`. -/
theorem present_failure_fatal_with_debug_witness :
    present_frame true
      ⟨⟨5, 6, ⟨1280, 720⟩, 44, [⟨0, 0, 0, 1, 44, 1, 1280, 720⟩]⟩, 0, 0,
        ⟨⟨none, 7, 4⟩, ⟨none, 8, 4⟩⟩, ⟨9, 10⟩, ⟨11, 12⟩, ⟨13, 14⟩⟩
      ⟨1, 2, 3, 4⟩ ⟨none, 7, 4⟩ ⟨0, 0, 9, 11, 13, 0⟩ ⟨0, -4, 0, 0⟩ = .error .abort :=
  (present_failure_fatal_with_debug
    ⟨⟨5, 6, ⟨1280, 720⟩, 44, [⟨0, 0, 0, 1, 44, 1, 1280, 720⟩]⟩, 0, 0,
      ⟨⟨none, 7, 4⟩, ⟨none, 8, 4⟩⟩, ⟨9, 10⟩, ⟨11, 12⟩, ⟨13, 14⟩⟩
    ⟨1, 2, 3, 4⟩ ⟨none, 7, 4⟩ ⟨0, 0, 9, 11, 13, 0⟩ ⟨0, -4, 0, 0⟩).1 (Or.inl (by decide))

end gfx

namespace gfx

/-! ## Two requests and their jobs -/

/-- C20 (defect in the code): the first request's job has obtained its reference from
`from_handle` when the second request makes `emplace_back` reallocate the table, so the
job's assignment of its destination buffers goes through a dangling reference, which is
undefined, and the buffers of the first call do not reach its handle. On schedules where
no request falls between a job's `from_handle` and its assignment, the two handles are 0
and 1 and each is ready with the bytes of its own payload. -/
theorem request_reallocates_under_job_reference :
    World.run true qz.assets.doubling (World.initial [70, 71])
        [.request ⟨[0x3F800000, 0xBF000000], [0, 1, 2]⟩, .advance 0 0, .advance 0 0,
          .advance 0 0, .request ⟨[7], [2, 1]⟩, .advance 0 0] = .error .undefined
    ∧ (∃ world handles,
        World.run true qz.assets.doubling (World.initial [70, 71])
          [.request ⟨[0x3F800000, 0xBF000000], [0, 1, 2]⟩, .advance 0 0, .advance 0 0,
            .advance 0 0, .request ⟨[7], [2, 1]⟩] = .ok (world, handles)
        ∧ handles = [⟨0⟩, ⟨1⟩]
        ∧ world.tasks.map (fun job => (job.stage, job.reference.block)) =
            [(Stage.referenced, 1), (Stage.queued, 0)]
        ∧ world.assets.block = 2)
    ∧ (∃ world,
        World.run true qz.assets.doubling (World.initial [70, 71])
          [.request ⟨[0x3F800000, 0xBF000000], [0, 1, 2]⟩, .request ⟨[7], [2, 1]⟩,
            .advance 0 0, .advance 1 1, .advance 1 1, .advance 1 1, .advance 1 1, .advance 1 1,
            .advance 0 0, .advance 0 0, .advance 0 0, .advance 0 0] = .ok (world, [⟨0⟩, ⟨1⟩])
        ∧ world.stored true ⟨0⟩
            = .ok (true, payload_bytes [0x3F800000, 0xBF000000], payload_bytes [0, 1, 2])
        ∧ world.stored true ⟨1⟩ = .ok (true, payload_bytes [7], payload_bytes [2, 1])) := by
  refine ⟨rfl, ⟨_, _, rfl, rfl, rfl, rfl⟩, ⟨_, rfl, rfl, rfl⟩⟩

end gfx

namespace gfx

/-! ## Order of the colour references and the stencil store op -/

/-- C28 (as stated, refuted): a Pass declares the colour attachments "albedo" and "normal"
in this order and its subpass lists "normal" before "albedo"; the colour references handed
to the device carry the attachment indices 1, 0, which are not increasing. -/
theorem color_references_not_in_declared_order :
    ∃ compiled,
      RenderPass.create false Device.succeeding
        ⟨[⟨⟨10, 11, 12, 1, 44, 1, 64, 64⟩, "albedo", 0, true, false, 6, .none⟩,
          ⟨⟨20, 21, 22, 1, 44, 1, 64, 64⟩, "normal", 0, true, false, 6, .none⟩],
          [⟨["normal", "albedo"], [], []⟩], []⟩ = .ok compiled
      ∧ compiled.render_pass_create_info.subpasses.map
          (fun description => description.colorAttachments.map (·.attachment)) = [[1, 0]] :=
  ⟨_, rfl, rfl⟩

/-- C28 (amended): in a compiled subpass the colour references follow the order in which
the subpass lists the attachment names: they are the references of the listed attachments
with neither the depth nor the stencil bit, in listed order, and every listed attachment
carries the declared position of its name as index.  So the indices of the colour
references are strictly increasing whenever the subpass lists its attachments in declared
order.  The description of this compiled subpass is what `RenderPass::create` hands to the
device, at the position of the subpass, whenever it returns. -/
theorem color_references_follow_listed_order (info : RenderPass.CreateInfo)
    (hcount : info.attachments.length ≤ 2 ^ 32) (handle : Nat) (framebuffers : List Nat)
    (each : SubpassInfo) (storage : SubpassStorage)
    (hstorage : compile_subpass_storage
      ⟨handle, compile_attachments 0 info.attachments, framebuffers⟩ each = .ok storage) :
    (∃ listed,
      resolve_all ⟨handle, compile_attachments 0 info.attachments, framebuffers⟩
          each.attachments = .ok listed
      ∧ listed.map (·.name) = each.attachments
      ∧ listed.map (·.reference.attachment)
          = each.attachments.map (fun name => (info.attachments.map (·.name)).indexOf name)
      ∧ (subpass_description storage).colorAttachments
          = (listed.filter (fun a => !a.depth_or_stencil)).map (·.reference))
    ∧ List.Sublist ((subpass_description storage).colorAttachments.map (·.attachment))
        (each.attachments.map (fun name => (info.attachments.map (·.name)).indexOf name))
    ∧ ((each.attachments.map
          (fun name => (info.attachments.map (·.name)).indexOf name)).Pairwise (· < ·) →
        ((subpass_description storage).colorAttachments.map (·.attachment)).Pairwise (· < ·))
    ∧ (∀ (debug : Bool) (device : Device) (compiled : Compiled) (k : Nat),
        handle = 0 → framebuffers = [] →
        RenderPass.create debug device info = .ok compiled →
        info.subpasses[k]? = some each →
        compiled.render_pass_create_info.subpasses.length = info.subpasses.length
        ∧ compiled.render_pass_create_info.subpasses[k]?
            = some (subpass_description storage)) := by
  have hcreate : ∀ (debug : Bool) (device : Device) (compiled : Compiled) (k : Nat),
      handle = 0 → framebuffers = [] →
      RenderPass.create debug device info = .ok compiled →
      info.subpasses[k]? = some each →
      compiled.render_pass_create_info.subpasses.length = info.subpasses.length
      ∧ compiled.render_pass_create_info.subpasses[k]?
          = some (subpass_description storage) := by
    intro debug device compiled k hhandle hframebuffers h hk
    subst hhandle hframebuffers
    obtain ⟨_, hsubpasses, _⟩ := create_ok_info debug device info compiled h
    obtain ⟨hlen, hall⟩ := compile_subpasses_getElem? _ _ _ hsubpasses
    obtain ⟨other, hother, hget⟩ := hall k each hk
    rw [hstorage] at hother
    simp only [Except.ok.injEq] at hother
    subst hother
    exact ⟨hlen, hget⟩
  rcases compile_subpass_storage_total
      ⟨handle, compile_attachments 0 info.attachments, framebuffers⟩ each with
    ⟨_, bound, input, preserve, hb, _, _, heq⟩ | ⟨_, herr⟩
  · rw [heq] at hstorage
    simp only [Except.ok.injEq] at hstorage
    subst hstorage
    have hbound := resolve_all_reference info.attachments hcount handle framebuffers _ _ hb
    have hsub : List.Sublist
        (((bound.filter (fun a => !a.depth_or_stencil)).map (·.reference)).map (·.attachment))
        (each.attachments.map (fun name => (info.attachments.map (·.name)).indexOf name)) := by
      rw [← hbound, List.map_map]
      exact List.Sublist.map _ (List.filter_sublist bound)
    exact ⟨⟨bound, hb, (resolve_all_names _ _ _ hb).1, hbound, rfl⟩, hsub,
      fun hpair => hpair.sublist hsub, hcreate⟩
  · rw [herr] at hstorage
    simp at hstorage

/-- The order of `color_references_follow_listed_order` for a Pass whose one subpass lists
"albedo" then "normal", as declared: the colour indices are 0, 1, and the device is handed
exactly this description. -/
theorem color_references_follow_listed_order_witness :
    compile_subpass_storage
        ⟨0, compile_attachments 0
          [⟨⟨10, 11, 12, 1, 44, 1, 64, 64⟩, "albedo", 0, true, false, 6, .none⟩,
            ⟨⟨20, 21, 22, 1, 44, 1, 64, 64⟩, "normal", 0, true, false, 6, .none⟩], []⟩
        ⟨["albedo", "normal"], [], []⟩ = .ok ⟨none, [⟨0, 2⟩, ⟨1, 2⟩], [], []⟩
    ∧ ((subpass_description ⟨none, [⟨0, 2⟩, ⟨1, 2⟩], [], []⟩).colorAttachments.map
        (·.attachment)).Pairwise (· < ·)
    ∧ ∃ compiled,
        RenderPass.create false Device.succeeding
          ⟨[⟨⟨10, 11, 12, 1, 44, 1, 64, 64⟩, "albedo", 0, true, false, 6, .none⟩,
            ⟨⟨20, 21, 22, 1, 44, 1, 64, 64⟩, "normal", 0, true, false, 6, .none⟩],
            [⟨["albedo", "normal"], [], []⟩], []⟩ = .ok compiled
        ∧ compiled.render_pass_create_info.subpasses.length = 1
        ∧ compiled.render_pass_create_info.subpasses[0]?
            = some (subpass_description ⟨none, [⟨0, 2⟩, ⟨1, 2⟩], [], []⟩) :=
  have h := color_references_follow_listed_order
    ⟨[⟨⟨10, 11, 12, 1, 44, 1, 64, 64⟩, "albedo", 0, true, false, 6, .none⟩,
      ⟨⟨20, 21, 22, 1, 44, 1, 64, 64⟩, "normal", 0, true, false, 6, .none⟩],
      [⟨["albedo", "normal"], [], []⟩], []⟩
    (by decide) 0 [] ⟨["albedo", "normal"], [], []⟩ ⟨none, [⟨0, 2⟩, ⟨1, 2⟩], [], []⟩ rfl
  ⟨rfl, h.2.2.1 (by decide),
    ⟨_, rfl, h.2.2.2 false Device.succeeding _ 0 rfl rfl rfl rfl⟩⟩

/-- C29 (defect in the code): for an attachment whose aspect has the stencil bit the
stencil store op runs against the store op.  Without discard the store op is STORE and the
stencil store op DONT_CARE; with discard the store op is DONT_CARE and the stencil store
op STORE.  The specification promises DONT_CARE under discard and STORE otherwise for
both. -/
theorem stencil_store_op_reversed :
    ∃ compiled,
      RenderPass.create false Device.succeeding
        ⟨[⟨⟨20, 21, 22, 6, 129, 1, 64, 64⟩, "kept", 0, true, false, 3, .none⟩,
          ⟨⟨30, 31, 32, 6, 129, 1, 64, 64⟩, "dropped", 0, true, true, 3, .none⟩],
          [⟨["kept"], [], []⟩], []⟩ = .ok compiled
      ∧ compiled.render_pass_create_info.attachments.map
          (fun description => (description.storeOp, description.stencilStoreOp))
        = [(VK_ATTACHMENT_STORE_OP_STORE, VK_ATTACHMENT_STORE_OP_DONT_CARE),
            (VK_ATTACHMENT_STORE_OP_DONT_CARE, VK_ATTACHMENT_STORE_OP_STORE)] :=
  ⟨_, rfl, rfl⟩

end gfx

namespace gfx

/-! ## The vertex input of `Pipeline::create` -/

/-- The sum `std::accumulate` computes in `unsigned int` is the sum of the sizes modulo
2^32, from any start below 2^32. -/
theorem accumulate_underlying (attributes : List VertexAttribute) :
    ∀ value : Nat,
      attributes.foldl (fun value each => u32 (value + each.underlying)) (u32 value)
        = u32 (value + (attributes.map (·.underlying)).sum) := by
  induction attributes with
  | nil => intro value; simp
  | cons each rest ih =>
    intro value
    simp only [List.foldl_cons, List.map_cons, List.sum_cons]
    rw [show u32 (u32 value + each.underlying) = u32 (value + each.underlying) by
      simp only [u32]; omega]
    rw [ih]
    congr 1
    omega

/-- Element `i` of the attribute loop started with the counters `location` and `offset`. -/
theorem vertex_attribute_descriptions_getElem? (attributes : List VertexAttribute) :
    ∀ (location offset i : Nat) (each : VertexAttribute), attributes[i]? = some each →
      (vertex_attribute_descriptions (u32 location) (u32 offset) attributes)[i]? = some
        { location := u32 (location + i), binding := 0, format := attribute_format each,
          offset := u32 (offset + ((attributes.take i).map (·.underlying)).sum) } := by
  induction attributes with
  | nil => intro location offset i each h; simp at h
  | cons first rest ih =>
    intro location offset i each h
    cases i with
    | zero =>
      simp only [List.getElem?_cons_zero, Option.some.injEq] at h
      subst h
      simp [vertex_attribute_descriptions]
    | succ i =>
      simp only [List.getElem?_cons_succ] at h
      simp only [vertex_attribute_descriptions, List.getElem?_cons_succ]
      rw [show u32 (u32 location + 1) = u32 (location + 1) by simp only [u32]; omega,
        show u32 (u32 offset + first.underlying) = u32 (offset + first.underlying) by
          simp only [u32]; omega]
      rw [ih (location + 1) (offset + first.underlying) i each h]
      simp only [List.take_succ_cons, List.map_cons, List.sum_cons]
      congr 2 <;> congr 1 <;> omega

theorem vertex_attribute_descriptions_length (attributes : List VertexAttribute) :
    ∀ location offset : Nat,
      (vertex_attribute_descriptions location offset attributes).length = attributes.length := by
  induction attributes with
  | nil => intro location offset; rfl
  | cons each rest ih =>
    intro location offset
    simp [vertex_attribute_descriptions, ih]

/-- C30: `Pipeline::create` builds one attribute description per attribute; the i-th has
location i, binding 0, the float format of its width and as byte offset the sum of the
byte sizes of the attributes before it, and the binding has index 0 and as stride the sum
of all byte sizes, the counters and sums being taken modulo 2^32.  For two `vec3` the
offsets are 0 and 12 and the stride is 24. -/
theorem vertex_input_layout (attributes : List VertexAttribute) :
    (vertex_attribute_descriptions 0 0 attributes).length = attributes.length
    ∧ (∀ (i : Nat) (each : VertexAttribute), attributes[i]? = some each →
        (vertex_attribute_descriptions 0 0 attributes)[i]? = some
          { location := i % 2 ^ 32
            binding := 0
            format :=
              match each with
              | .vec1 => VK_FORMAT_R32_SFLOAT
              | .vec2 => VK_FORMAT_R32G32_SFLOAT
              | .vec3 => VK_FORMAT_R32G32B32_SFLOAT
              | .vec4 => VK_FORMAT_R32G32B32A32_SFLOAT
            offset := ((attributes.take i).map (·.underlying)).sum % 2 ^ 32 })
    ∧ (attributes.length ≤ 2 ^ 32 →
        (vertex_attribute_descriptions 0 0 attributes).map (·.location)
          = List.range attributes.length)
    ∧ (vertex_binding_description attributes).binding = 0
    ∧ (vertex_binding_description attributes).stride
        = (attributes.map (·.underlying)).sum % 2 ^ 32
    ∧ vertex_attribute_descriptions 0 0 [.vec3, .vec3]
        = [⟨0, 0, VK_FORMAT_R32G32B32_SFLOAT, 0⟩, ⟨1, 0, VK_FORMAT_R32G32B32_SFLOAT, 12⟩]
    ∧ (vertex_binding_description [.vec3, .vec3]).stride = 24 := by
  have hget : ∀ (i : Nat) (each : VertexAttribute), attributes[i]? = some each →
      (vertex_attribute_descriptions 0 0 attributes)[i]? = some
        { location := i % 2 ^ 32, binding := 0, format := attribute_format each,
          offset := ((attributes.take i).map (·.underlying)).sum % 2 ^ 32 } := by
    intro i each h
    have := vertex_attribute_descriptions_getElem? attributes 0 0 i each h
    simpa [u32] using this
  refine ⟨vertex_attribute_descriptions_length attributes 0 0, ?_, ?_, rfl, ?_, rfl, rfl⟩
  · intro i each h
    rw [hget i each h]
    cases each <;> rfl
  · intro hcount
    apply List.ext_getElem?
    intro i
    by_cases hi : i < attributes.length
    · rw [List.getElem?_map, hget i attributes[i] (List.getElem?_eq_getElem hi)]
      simp only [Option.map_some', List.getElem?_range hi, Option.some.injEq]
      exact Nat.mod_eq_of_lt (by omega)
    · rw [List.getElem?_eq_none (by simpa [vertex_attribute_descriptions_length] using hi),
        List.getElem?_eq_none (by simpa using hi)]
  · have := accumulate_underlying attributes 0
    simpa [u32, vertex_binding_description] using this

/-- The layout of `vertex_input_layout` for the attributes vec2, vec4, vec1: the third
description has location 2, format R32 and offset 24. -/
theorem vertex_input_layout_witness :
    ([.vec2, .vec4, .vec1] : List VertexAttribute)[2]? = some .vec1
    ∧ (vertex_attribute_descriptions 0 0 [.vec2, .vec4, .vec1])[2]?
        = some ⟨2, 0, VK_FORMAT_R32_SFLOAT, 24⟩ :=
  ⟨rfl, (vertex_input_layout [.vec2, .vec4, .vec1]).2.1 2 .vec1 rfl⟩

end gfx

namespace gfx

/-! ## Sizes of the staging buffers, the destination buffers and the copies -/

end gfx

namespace gfx

/-! ## The commands of one frame -/

/-- A sequence of two fallible steps returns only when both do. -/
theorem except_bind_ok {α β : Type} (x : Except Fault α) (f : α → Except Fault β) (b : β)
    (h : x >>= f = .ok b) : ∃ a, x = .ok a ∧ f a = .ok b := by
  cases x with
  | error e => simp [bind, Except.bind] at h
  | ok a => exact ⟨a, rfl, h⟩

theorem qz_vulkan_check_accepted (debug : Bool) (result : Int)
    (h : debug = true → result = VK_SUCCESS) : qz_vulkan_check debug result = .ok () := by
  cases debug with
  | false => rfl
  | true => simp [qz_vulkan_check, h rfl]

/-- What `draw_if_ready` leaves recorded when it returns. -/
theorem draw_if_ready_ok (debug : Bool) (at_query at_read : qz.assets.Registry)
    (handle : meta.Handle) (indices : Nat) (recording result : Recording)
    (h : draw_if_ready debug at_query at_read handle indices recording = .ok result) :
    ∃ (ready : Bool) (mesh : StaticMesh),
      qz.assets.is_ready debug at_query handle = .ok ready
      ∧ (ready = true → qz.assets.from_handle debug at_read handle = .ok mesh)
      ∧ result._active_pass = recording._active_pass
      ∧ result.commands = recording.commands ++
          (if ready = true then
            [.vkCmdBindVertexBuffers 0 [mesh.geometry.handle] [0],
              .vkCmdBindIndexBuffer mesh.indices.handle 0 VK_INDEX_TYPE_UINT32,
              .vkCmdDrawIndexed indices 1 0 0 0]
          else []) := by
  unfold draw_if_ready at h
  obtain ⟨ready, hready, h⟩ := except_bind_ok _ _ _ h
  cases ready with
  | false =>
    simp only [Bool.false_eq_true, if_false, pure, Except.pure, Except.ok.injEq] at h
    subst h
    exact ⟨false, StaticMesh.empty, hready, by simp, rfl, by simp⟩
  | true =>
    simp only [if_true] at h
    cases hmesh : qz.assets.from_handle debug at_read handle with
    | error e => simp [hmesh, Except.map] at h
    | ok mesh =>
      simp only [hmesh, Except.map, Except.ok.injEq] at h
      subst h
      exact ⟨true, mesh, hready, fun _ => rfl, rfl,
        by simp [Recording.draw_indexed, Recording.bind_static_mesh, Recording.bind_index_buffer,
          Recording.bind_vertex_buffer, Recording.push]⟩

/-- With an issued handle `draw_if_ready` returns. -/
theorem draw_if_ready_returns (debug : Bool) (at_query at_read : qz.assets.Registry)
    (handle : meta.Handle) (indices : Nat) (recording : Recording)
    (hquery : handle.index < at_query.length) (hread : handle.index < at_read.length) :
    ∃ result, draw_if_ready debug at_query at_read handle indices recording = .ok result := by
  have h1 := qz.assets.is_ready_of_get debug at_query handle _ (List.getElem?_eq_getElem hquery)
  have h2 := qz.assets.from_handle_of_get debug at_read handle _ (List.getElem?_eq_getElem hread)
  simp only [draw_if_ready, h1, h2, bind, Except.bind, Except.map, pure, Except.pure]
  split <;> exact ⟨_, rfl⟩

theorem framebuffer_ok (debug : Bool) (render_pass : RenderPass) (idx framebuffer : Nat)
    (h : render_pass.framebuffer debug idx = .ok framebuffer) :
    render_pass._framebuffers[idx]? = some framebuffer := by
  unfold RenderPass.framebuffer at h
  obtain ⟨_, _, h⟩ := except_bind_ok _ _ _ h
  split at h
  · rename_i fb hfb
    simp only [Except.ok.injEq] at h
    rw [← h]
    exact hfb
  · simp at h

theorem insert_layout_transition_ok (info : ImageMemoryBarrier) (recording result : Recording)
    (h : recording.insert_layout_transition info = .ok result) :
    ∃ image, info.image = some image
      ∧ result.commands = recording.commands ++
          [.vkCmdPipelineBarrier info.source_stage info.dest_stage 0
            [{ srcAccessMask := info.source_access, dstAccessMask := info.dest_access,
               oldLayout := info.old_layout, newLayout := info.new_layout,
               srcQueueFamilyIndex := info.source_family,
               dstQueueFamilyIndex := info.dest_family,
               image := image.handle, aspectMask := image.aspect, baseMipLevel := 0,
               levelCount := image.mips, baseArrayLayer := 0, layerCount := 1 }]] := by
  unfold Recording.insert_layout_transition at h
  split at h
  · simp at h
  · rename_i image himage
    simp only [Except.ok.injEq] at h
    subst h
    exact ⟨image, himage, rfl⟩

/-- C25: whenever the frame loop finishes recording a frame, the recorded commands are:
begin, begin of the Pass on framebuffer 0 over its full extent, full viewport, full
scissor, bind pipeline; then, exactly when `is_ready(triangle)` returned true, the vertex
and index buffer binds of the triangle and an indexed draw of 3 indices; then, exactly when
`is_ready(quad)` returned true, the binds of the quad and an indexed draw of 6 indices;
then end of the Pass, a barrier UNDEFINED to TRANSFER_DST_OPTIMAL on the acquired image,
the copy of the image of the attachment "color" into the acquired image, a barrier
TRANSFER_DST_OPTIMAL to PRESENT_SRC_KHR on the acquired image, and end.  The commands
around the draws do not depend on readiness.  The recording finishes whenever the device
accepts begin and end, the Pass has a framebuffer and an attachment "color", the frame
points at a swapchain image and both handles were issued. -/
theorem frame_commands_follow_readiness (debug : Bool) (begin_result end_result : Int)
    (render_pass : RenderPass) (pipeline : Pipeline) (swapchain : Swapchain)
    (registry : FrameAssets) (triangle quad : meta.Handle) (command_buffer : CommandBuffer)
    (frame : FrameInfo) :
    ((debug = true → begin_result = VK_SUCCESS ∧ end_result = VK_SUCCESS) →
      render_pass._framebuffers ≠ [] →
      "color" ∈ render_pass._attachments.map (·.name) →
      frame.image < swapchain.images.length →
      triangle.index < registry.triangle_query.length →
      triangle.index < registry.triangle_read.length →
      quad.index < registry.quad_query.length →
      quad.index < registry.quad_read.length →
      ∃ recording,
        record_frame debug begin_result end_result render_pass pipeline swapchain registry
          triangle quad command_buffer frame = .ok recording)
    ∧ ∀ recording,
        record_frame debug begin_result end_result render_pass pipeline swapchain registry
          triangle quad command_buffer frame = .ok recording →
        ∃ (triangle_ready quad_ready : Bool) (triangle_mesh quad_mesh : StaticMesh)
          (framebuffer : Nat) (extent : VkExtent2D) (color : Attachment) (image : Image),
          qz.assets.is_ready debug registry.triangle_query triangle = .ok triangle_ready
          ∧ qz.assets.is_ready debug registry.quad_query quad = .ok quad_ready
          ∧ (triangle_ready = true →
              qz.assets.from_handle debug registry.triangle_read triangle = .ok triangle_mesh)
          ∧ (quad_ready = true →
              qz.assets.from_handle debug registry.quad_read quad = .ok quad_mesh)
          ∧ render_pass._framebuffers[0]? = some framebuffer
          ∧ render_pass.extent = .ok extent
          ∧ render_pass.attachment "color" = .ok color
          ∧ swapchain.images[frame.image]? = some image
          ∧ recording.commands =
              [.vkBeginCommandBuffer VK_COMMAND_BUFFER_USAGE_ONE_TIME_SUBMIT_BIT,
                .vkCmdBeginRenderPass render_pass._handle framebuffer ⟨0, 0, extent⟩
                  render_pass.clears VK_SUBPASS_CONTENTS_INLINE,
                .vkCmdSetViewport 0 [⟨0, 0, extent.width, extent.height, 0, 1⟩],
                .vkCmdSetScissor 0 [⟨0, 0, extent⟩],
                .vkCmdBindPipeline VK_PIPELINE_BIND_POINT_GRAPHICS pipeline.handle]
              ++ (if triangle_ready = true then
                    [.vkCmdBindVertexBuffers 0 [triangle_mesh.geometry.handle] [0],
                      .vkCmdBindIndexBuffer triangle_mesh.indices.handle 0 VK_INDEX_TYPE_UINT32,
                      .vkCmdDrawIndexed 3 1 0 0 0]
                  else [])
              ++ (if quad_ready = true then
                    [.vkCmdBindVertexBuffers 0 [quad_mesh.geometry.handle] [0],
                      .vkCmdBindIndexBuffer quad_mesh.indices.handle 0 VK_INDEX_TYPE_UINT32,
                      .vkCmdDrawIndexed 6 1 0 0 0]
                  else [])
              ++ [.vkCmdEndRenderPass,
                .vkCmdPipelineBarrier VK_PIPELINE_STAGE_COLOR_ATTACHMENT_OUTPUT_BIT
                  VK_PIPELINE_STAGE_TRANSFER_BIT 0
                  [{ srcAccessMask := VK_ACCESS_COLOR_ATTACHMENT_WRITE_BIT
                     dstAccessMask := VK_ACCESS_TRANSFER_WRITE_BIT
                     oldLayout := VK_IMAGE_LAYOUT_UNDEFINED
                     newLayout := VK_IMAGE_LAYOUT_TRANSFER_DST_OPTIMAL
                     srcQueueFamilyIndex := meta.family_ignored
                     dstQueueFamilyIndex := meta.family_ignored
                     image := image.handle, aspectMask := image.aspect, baseMipLevel := 0
                     levelCount := image.mips, baseArrayLayer := 0, layerCount := 1 }],
                .vkCmdCopyImage color.image.handle VK_IMAGE_LAYOUT_TRANSFER_SRC_OPTIMAL
                  image.handle VK_IMAGE_LAYOUT_TRANSFER_DST_OPTIMAL
                  [{ srcSubresource := ⟨color.image.aspect, 0, 0, 1⟩
                     dstSubresource := ⟨image.aspect, 0, 0, 1⟩
                     width := color.image.width, height := color.image.height, depth := 1 }],
                .vkCmdPipelineBarrier VK_PIPELINE_STAGE_TRANSFER_BIT
                  VK_PIPELINE_STAGE_BOTTOM_OF_PIPE_BIT 0
                  [{ srcAccessMask := VK_ACCESS_TRANSFER_WRITE_BIT
                     dstAccessMask := 0
                     oldLayout := VK_IMAGE_LAYOUT_TRANSFER_DST_OPTIMAL
                     newLayout := VK_IMAGE_LAYOUT_PRESENT_SRC_KHR
                     srcQueueFamilyIndex := meta.family_ignored
                     dstQueueFamilyIndex := meta.family_ignored
                     image := image.handle, aspectMask := image.aspect, baseMipLevel := 0
                     levelCount := image.mips, baseArrayLayer := 0, layerCount := 1 }],
                .vkEndCommandBuffer]
          ∧ ((Command.vkCmdDrawIndexed 3 1 0 0 0 ∈ recording.commands) ↔ triangle_ready = true)
          ∧ ((Command.vkCmdDrawIndexed 6 1 0 0 0 ∈ recording.commands) ↔ quad_ready = true) := by
  constructor
  · intro hdevice hframebuffers hcolor himage ht1 ht2 hq1 hq2
    have hbegin := qz_vulkan_check_accepted debug begin_result (fun h => (hdevice h).1)
    have hend := qz_vulkan_check_accepted debug end_result (fun h => (hdevice h).2)
    obtain ⟨fb, fbs, hfbs⟩ := List.exists_cons_of_ne_nil hframebuffers
    have hfb : render_pass.framebuffer debug 0 = .ok fb := by
      cases debug <;> simp [RenderPass.framebuffer, qz_assert, hfbs, bind, Except.bind]
    obtain ⟨color, hc⟩ : ∃ color, render_pass.attachment "color" = .ok color := by
      rcases attachment_scan_total render_pass._attachments "color" with ⟨_, h⟩ | ⟨h, _⟩
      · exact h
      · exact absurd hcolor h
    obtain ⟨extent, hextent⟩ : ∃ extent, render_pass.extent = .ok extent := by
      unfold RenderPass.extent
      cases hatt : render_pass._attachments with
      | nil => simp [hatt] at hcolor
      | cons first rest => exact ⟨_, rfl⟩
    have hdest : swapchain.image_at frame.image = .ok swapchain.images[frame.image] := by
      simp [Swapchain.image_at, List.getElem?_eq_getElem himage]
    obtain ⟨r5, h5⟩ := draw_if_ready_returns debug registry.triangle_query
      registry.triangle_read triangle 3
      (Recording.bind_pipeline pipeline
        (((((⟨some render_pass, command_buffer._handle, []⟩ : Recording).push
            (.vkBeginCommandBuffer VK_COMMAND_BUFFER_USAGE_ONE_TIME_SUBMIT_BIT)).push
            (.vkCmdBeginRenderPass render_pass._handle fb ⟨0, 0, extent⟩ render_pass.clears
              VK_SUBPASS_CONTENTS_INLINE)).push
            (.vkCmdSetViewport 0 [⟨0, 0, extent.width, extent.height, 0, 1⟩])).push
            (.vkCmdSetScissor 0 [⟨0, 0, extent⟩]))) ht1 ht2
    obtain ⟨r6, h6⟩ := draw_if_ready_returns debug registry.quad_query
      registry.quad_read quad 6 r5 hq1 hq2
    obtain ⟨_, _, _, _, ha5, _⟩ := draw_if_ready_ok _ _ _ _ _ _ _ h5
    obtain ⟨_, _, _, _, ha6, _⟩ := draw_if_ready_ok _ _ _ _ _ _ _ h6
    have hactive : r6._active_pass = some render_pass := by
      rw [ha6, ha5]
      rfl
    simp only [record_frame, Recording.begin, Recording.begin_render_pass,
      Recording.set_viewport, Recording.set_scissor, Recording.end_render_pass,
      Recording.insert_layout_transition, Recording.finish, Recording.push, hbegin, hend, hfb,
      hextent, hc, hdest, List.getElem?_eq_getElem himage, bind, Except.bind, pure,
      Except.pure, Recording.bind_pipeline, List.nil_append, List.cons_append]
    simp only [Recording.push, Recording.bind_pipeline, List.nil_append, List.cons_append] at h5
    simp only [h5, h6, hactive, qz_assert, Option.isSome_some, Bool.not_true, Bool.and_false,
      Bool.false_eq_true, if_false]
    exact ⟨_, rfl⟩
  · intro recording h
    unfold record_frame at h
    obtain ⟨r1, h1, k1⟩ := except_bind_ok _ _ _ h
    obtain ⟨r2, h2, k2⟩ := except_bind_ok _ _ _ k1
    obtain ⟨r3, h3, k3⟩ := except_bind_ok _ _ _ k2
    obtain ⟨r4, h4, k4⟩ := except_bind_ok _ _ _ k3
    obtain ⟨r5, h5, k5⟩ := except_bind_ok _ _ _ k4
    obtain ⟨r6, h6, k6⟩ := except_bind_ok _ _ _ k5
    obtain ⟨r7, h7, k7⟩ := except_bind_ok _ _ _ k6
    obtain ⟨r8, h8, k8⟩ := except_bind_ok _ _ _ k7
    obtain ⟨color, hcolor, k9⟩ := except_bind_ok _ _ _ k8
    obtain ⟨dest, hdest, k10⟩ := except_bind_ok _ _ _ k9
    obtain ⟨r9, h9, k11⟩ := except_bind_ok _ _ _ k10
    obtain ⟨_, _, hlast⟩ := except_bind_ok _ _ _ k11
    clear h k1 k2 k3 k4 k5 k6 k7 k8 k9 k10 k11
    obtain ⟨_, _, h1⟩ := except_bind_ok _ _ _ h1
    obtain ⟨framebuffer, hfb, h2⟩ := except_bind_ok _ _ _ h2
    obtain ⟨extent, hextent, h2⟩ := except_bind_ok _ _ _ h2
    obtain ⟨triangle_ready, triangle_mesh, ht, htm, hta, htc⟩ := draw_if_ready_ok _ _ _ _ _ _ _ h5
    obtain ⟨quad_ready, quad_mesh, hq, hqm, hqa, hqc⟩ := draw_if_ready_ok _ _ _ _ _ _ _ h6
    obtain ⟨_, _, h7⟩ := except_bind_ok _ _ _ h7
    obtain ⟨image, himage, h8c⟩ := insert_layout_transition_ok _ _ _ h8
    obtain ⟨image', himage', h9c⟩ := insert_layout_transition_ok _ _ _ h9
    simp only [pure, Except.pure, Except.ok.injEq] at hlast h1 h2 h7
    subst h1 h2
    simp only [Recording.set_viewport, Recording.push, hextent, bind, Except.bind, pure,
      Except.pure, Except.ok.injEq] at h3
    subst h3
    simp only [Recording.set_scissor, Recording.push, hextent, bind, Except.bind, pure,
      Except.pure, Except.ok.injEq] at h4
    subst h4
    subst h7 hlast
    simp only at himage himage'
    have hsame : image' = image := by
      rw [himage] at himage'
      exact (Option.some.inj himage').symm
    subst hsame
    have hdest' : dest = image' := by
      simp only [Swapchain.image_at, himage] at hdest
      exact (Except.ok.inj hdest).symm
    subst hdest'
    have hcommands : ({ r6 with _active_pass := none }.push Command.vkCmdEndRenderPass).commands
        = r6.commands ++ [.vkCmdEndRenderPass] := rfl
    refine ⟨triangle_ready, quad_ready, triangle_mesh, quad_mesh, framebuffer, extent, color,
      dest, ht, hq, htm, hqm, framebuffer_ok _ _ _ _ hfb, hextent, hcolor, himage, ?_, ?_, ?_⟩
    · simp only [Recording.push, h9c, Recording.copy_image, h8c, hqc, htc,
        Recording.bind_pipeline, List.nil_append, List.cons_append, List.append_assoc]
    · simp only [Recording.push, h9c, Recording.copy_image, h8c, hqc, htc,
        Recording.bind_pipeline, List.nil_append, List.cons_append, List.append_assoc]
      cases triangle_ready <;> cases quad_ready <;> simp
    · simp only [Recording.push, h9c, Recording.copy_image, h8c, hqc, htc,
        Recording.bind_pipeline, List.nil_append, List.cons_append, List.append_assoc]
      cases triangle_ready <;> cases quad_ready <;> simp

end gfx

namespace gfx

/-- The commands of `frame_commands_follow_readiness` for a frame in which the triangle is
ready and the quad is pending: the recording finishes, holds the indexed draw of 3
indices and no indexed draw of 6 indices. -/
theorem frame_commands_follow_readiness_witness :
    ∃ recording,
      record_frame true 0 0
        ⟨1, compile_attachments 0
          [⟨⟨10, 11, 12, 1, 44, 1, 1280, 720⟩, "color", 0, true, false, 6, .color ⟨⟨0, 0, 0, 0⟩⟩⟩],
          [100]⟩
        ⟨5, 6⟩ ⟨2, 3, ⟨1280, 720⟩, 44, [⟨30, 31, 0, 1, 44, 1, 1280, 720⟩]⟩
        ⟨[⟨⟨⟨1002, 72, 1002, 1002⟩, ⟨1003, 12, 1003, 1003⟩⟩, true⟩, ⟨StaticMesh.empty, false⟩],
          [⟨⟨⟨1002, 72, 1002, 1002⟩, ⟨1003, 12, 1003, 1003⟩⟩, true⟩, ⟨StaticMesh.empty, false⟩],
          [⟨⟨⟨1002, 72, 1002, 1002⟩, ⟨1003, 12, 1003, 1003⟩⟩, true⟩, ⟨StaticMesh.empty, false⟩],
          [⟨⟨⟨1002, 72, 1002, 1002⟩, ⟨1003, 12, 1003, 1003⟩⟩, true⟩, ⟨StaticMesh.empty, false⟩]⟩
        ⟨0⟩ ⟨1⟩ ⟨none, 7, 4⟩ ⟨0, 0, 9, 11, 13, 0⟩ = .ok recording
      ∧ Command.vkCmdDrawIndexed 3 1 0 0 0 ∈ recording.commands
      ∧ Command.vkCmdDrawIndexed 6 1 0 0 0 ∉ recording.commands := by
  obtain ⟨hreturns, hcommands⟩ := frame_commands_follow_readiness true 0 0
    ⟨1, compile_attachments 0
      [⟨⟨10, 11, 12, 1, 44, 1, 1280, 720⟩, "color", 0, true, false, 6, .color ⟨⟨0, 0, 0, 0⟩⟩⟩],
      [100]⟩
    ⟨5, 6⟩ ⟨2, 3, ⟨1280, 720⟩, 44, [⟨30, 31, 0, 1, 44, 1, 1280, 720⟩]⟩
    ⟨[⟨⟨⟨1002, 72, 1002, 1002⟩, ⟨1003, 12, 1003, 1003⟩⟩, true⟩, ⟨StaticMesh.empty, false⟩],
      [⟨⟨⟨1002, 72, 1002, 1002⟩, ⟨1003, 12, 1003, 1003⟩⟩, true⟩, ⟨StaticMesh.empty, false⟩],
      [⟨⟨⟨1002, 72, 1002, 1002⟩, ⟨1003, 12, 1003, 1003⟩⟩, true⟩, ⟨StaticMesh.empty, false⟩],
      [⟨⟨⟨1002, 72, 1002, 1002⟩, ⟨1003, 12, 1003, 1003⟩⟩, true⟩, ⟨StaticMesh.empty, false⟩]⟩
    ⟨0⟩ ⟨1⟩ ⟨none, 7, 4⟩ ⟨0, 0, 9, 11, 13, 0⟩
  obtain ⟨recording, hrecording⟩ := hreturns (fun _ => ⟨rfl, rfl⟩) (by decide) (by decide)
    (by decide) (by decide) (by decide) (by decide) (by decide)
  obtain ⟨triangle_ready, quad_ready, _, _, _, _, _, _, ht, hq, _, _, _, _, _, _, _, hdt, hdq⟩ :=
    hcommands recording hrecording
  have htrue : triangle_ready = true := (Except.ok.inj ht).symm
  have hfalse : quad_ready = false := (Except.ok.inj hq).symm
  exact ⟨recording, hrecording, hdt.mpr htrue, fun hmem => by
    rw [hdq.mp hmem] at hfalse
    cases hfalse⟩

end gfx

namespace gfx

/-! ## The calls made at shutdown -/

/-- The calls `free_all_resources` makes: for every record, in order, the destruction of
its geometry buffer and of its index buffer. -/
theorem free_all_resources_calls (allocator : Nat) (records : qz.assets.Registry) :
    ∀ calls : List TeardownCall,
      (qz.assets.free_all_resources (Buffer.destroy_call allocator) calls records).1
        = calls ++ records.flatMap (fun each =>
            [.vmaDestroyBuffer allocator each.object.geometry.handle
                each.object.geometry.allocation,
              .vmaDestroyBuffer allocator each.object.indices.handle
                each.object.indices.allocation]) := by
  induction records with
  | nil => intro calls; simp [qz.assets.free_all_resources]
  | cons each rest ih =>
    intro calls
    simp [qz.assets.free_all_resources, ih, Buffer.destroy_call]

/-- C21 (as stated, refuted): a program with one registry record, one worker command pool
and the queues 2 (graphics) and 3 (transfer) shuts down with exactly one wait-idle, on the
graphics queue; the transfer queue is never waited on, nothing drains the workers, and the
registry buffers and the worker command pool are destroyed right after the wait. -/
theorem shutdown_waits_on_graphics_queue_only :
    ∃ calls,
      shutdown false 0
        { window := 90, context := ⟨1, 2, 3, 4⟩, allocator := 5, vulkan_instance := 6,
          validation := 0,
          renderer := ⟨⟨50, 51, ⟨1280, 720⟩, 44, [⟨30, 31, 0, 1, 44, 1, 1280, 720⟩]⟩, 0, 0,
            ⟨⟨none, 7, 4⟩, ⟨none, 8, 4⟩⟩, ⟨9, 10⟩, ⟨11, 12⟩, ⟨13, 14⟩⟩,
          render_pass := ⟨20, [], [100]⟩, pipeline := ⟨60, 61⟩, command_pools := [70],
          assets := [⟨⟨⟨1002, 72, 1002, 1002⟩, ⟨1003, 12, 1003, 1003⟩⟩, true⟩] } = .ok calls
      ∧ calls.filter (fun call => !call.destroys) = [.vkQueueWaitIdle 2]
      ∧ TeardownCall.vkQueueWaitIdle 3 ∉ calls
      ∧ calls.take 4 = [.vkQueueWaitIdle 2, .vmaDestroyBuffer 5 1002 1002,
          .vmaDestroyBuffer 5 1003 1003, .vkDestroyCommandPool 1 70] :=
  ⟨_, rfl, by decide, by decide, rfl⟩

/-- C21 (amended): the shutdown sequence returns whenever the device accepts the wait, and
then its first call is the wait-idle on the graphics queue, so no destroy call precedes it.
The calls that follow the wait directly are the destruction of both buffers of every
registry record and then of every per-worker command pool, with no drain of the worker
pool between them; the pipeline, its layout, the Pass and the semaphores and fences of the
renderer are destroyed later in the sequence. -/
theorem shutdown_waits_for_graphics_queue (debug : Bool) (wait_result : Int)
    (program : Program) :
    ((debug = true → wait_result = VK_SUCCESS) →
      ∃ calls, shutdown debug wait_result program = .ok calls)
    ∧ ∀ calls, shutdown debug wait_result program = .ok calls →
        calls[0]? = some (.vkQueueWaitIdle program.context.graphics)
        ∧ (∀ (i : Nat) (call : TeardownCall),
            calls[i]? = some call → call.destroys = true → 0 < i)
        ∧ (∃ later,
            calls = [.vkQueueWaitIdle program.context.graphics]
              ++ program.assets.flatMap (fun each =>
                  [.vmaDestroyBuffer program.allocator each.object.geometry.handle
                      each.object.geometry.allocation,
                    .vmaDestroyBuffer program.allocator each.object.indices.handle
                      each.object.indices.allocation])
              ++ program.command_pools.map (fun each =>
                  TeardownCall.vkDestroyCommandPool program.context.device each)
              ++ later
            ∧ .vkDestroyPipeline program.context.device program.pipeline.handle ∈ later
            ∧ .vkDestroyPipelineLayout program.context.device program.pipeline.layout ∈ later
            ∧ (program.render_pass._handle ≠ 0 →
                .vkDestroyRenderPass program.context.device program.render_pass._handle ∈ later)
            ∧ (∀ framebuffer ∈ program.render_pass._framebuffers,
                .vkDestroyFramebuffer program.context.device framebuffer ∈ later)
            ∧ (∀ semaphore ∈ [program.renderer.img_ready.e0, program.renderer.img_ready.e1,
                  program.renderer.gfx_done.e0, program.renderer.gfx_done.e1],
                .vkDestroySemaphore program.context.device semaphore ∈ later)
            ∧ (∀ fence ∈ [program.renderer.cmd_wait.e0, program.renderer.cmd_wait.e1],
                .vkDestroyFence program.context.device fence ∈ later)) := by
  constructor
  · intro haccepted
    simp only [shutdown, wait_queue, qz_vulkan_check_accepted debug wait_result haccepted, bind,
      Except.bind, pure, Except.pure]
    exact ⟨_, rfl⟩
  · intro calls h
    unfold shutdown at h
    obtain ⟨waited, hwaited, h⟩ := except_bind_ok _ _ _ h
    unfold wait_queue at hwaited
    obtain ⟨_, _, hwaited⟩ := except_bind_ok _ _ _ hwaited
    simp only [pure, Except.pure, Except.ok.injEq] at h hwaited
    subst hwaited
    rw [free_all_resources_calls, List.nil_append] at h
    subst h
    refine ⟨by simp, ?_, ?_⟩
    · intro i call hcall hdestroys
      rcases Nat.eq_zero_or_pos i with rfl | hpos
      · simp only [List.append_assoc, List.singleton_append, List.cons_append,
          List.getElem?_cons_zero, Option.some.injEq] at hcall
        subst hcall
        simp [TeardownCall.destroys] at hdestroys
      · exact hpos
    · refine ⟨Pipeline.destroy program.context program.pipeline
        ++ RenderPass.destroy program.context program.allocator program.render_pass
        ++ Renderer.destroy program.context program.vulkan_instance program.renderer
        ++ Context.destroy debug program.context program.allocator program.vulkan_instance
            program.validation
        ++ Window.destroy program.window
        ++ terminate_window_system, ?_, ?_, ?_, ?_, ?_, ?_, ?_⟩
      · simp only [qz.task.destroy_scheduler, List.append_assoc]
      · simp [Pipeline.destroy]
      · simp [Pipeline.destroy]
      · intro hhandle
        simp [RenderPass.destroy, hhandle]
      · intro framebuffer hframebuffer
        simp [RenderPass.destroy, hframebuffer]
      · intro semaphore hsemaphore
        simp only [List.mem_cons, List.mem_singleton, List.not_mem_nil, or_false] at hsemaphore
        rcases hsemaphore with rfl | rfl | rfl | rfl <;> simp [Renderer.destroy]
      · intro fence hfence
        simp only [List.mem_cons, List.mem_singleton, List.not_mem_nil, or_false] at hfence
        rcases hfence with rfl | rfl <;> simp [Renderer.destroy]

/-- The sequence of `shutdown_waits_for_graphics_queue` for a program with one registry
record and one worker command pool: the shutdown returns and its first call is the wait
on the graphics queue 2. -/
theorem shutdown_waits_for_graphics_queue_witness :
    ∃ calls,
      shutdown true 0
        { window := 90, context := ⟨1, 2, 3, 4⟩, allocator := 5, vulkan_instance := 6,
          validation := 15,
          renderer := ⟨⟨50, 51, ⟨1280, 720⟩, 44, [⟨30, 31, 0, 1, 44, 1, 1280, 720⟩]⟩, 0, 0,
            ⟨⟨none, 7, 4⟩, ⟨none, 8, 4⟩⟩, ⟨9, 10⟩, ⟨11, 12⟩, ⟨13, 14⟩⟩,
          render_pass := ⟨20, [], [100]⟩, pipeline := ⟨60, 61⟩, command_pools := [70],
          assets := [⟨⟨⟨1002, 72, 1002, 1002⟩, ⟨1003, 12, 1003, 1003⟩⟩, true⟩] } = .ok calls
      ∧ calls[0]? = some (.vkQueueWaitIdle 2) := by
  obtain ⟨hreturns, hcalls⟩ := shutdown_waits_for_graphics_queue true 0
    { window := 90, context := ⟨1, 2, 3, 4⟩, allocator := 5, vulkan_instance := 6,
      validation := 15,
      renderer := ⟨⟨50, 51, ⟨1280, 720⟩, 44, [⟨30, 31, 0, 1, 44, 1, 1280, 720⟩]⟩, 0, 0,
        ⟨⟨none, 7, 4⟩, ⟨none, 8, 4⟩⟩, ⟨9, 10⟩, ⟨11, 12⟩, ⟨13, 14⟩⟩,
      render_pass := ⟨20, [], [100]⟩, pipeline := ⟨60, 61⟩, command_pools := [70],
      assets := [⟨⟨⟨1002, 72, 1002, 1002⟩, ⟨1003, 12, 1003, 1003⟩⟩, true⟩] }
  obtain ⟨calls, hshutdown⟩ := hreturns (fun _ => rfl)
  exact ⟨calls, hshutdown, (hcalls calls hshutdown).1⟩

end gfx

namespace gfx

/-! ## Submissions to the transfer queue -/

theorem TransferState.exclusive_set (state : TransferState) (worker : Nat)
    (old new : TransferStage) (hold : state.workers[worker]? = some old)
    (hinside : old.inside = true) (h : state.exclusive) :
    ∀ (i : Nat) (stage : TransferStage),
      (state.workers.set worker new)[i]? = some stage → stage.inside = true →
      state.transfer_mutex = some i := by
  intro i stage hstage hin
  by_cases hi : worker = i
  · subst hi
    exact h.1 worker old hold hinside
  · rw [List.getElem?_set_ne hi] at hstage
    exact h.1 i stage hstage hin

theorem TransferState.step_exclusive (debug : Bool) (state next : TransferState) (move : Move)
    (h : state.exclusive) (hstep : state.step debug move = .ok next) : next.exclusive := by
  unfold TransferState.step at hstep
  cases hworker : state.workers[move.worker]? with
  | none =>
    simp only [hworker, Except.ok.injEq] at hstep
    subst hstep
    exact h
  | some stage =>
    cases stage with
    | before =>
      simp only [hworker] at hstep
      cases hmutex : state.transfer_mutex with
      | some owner =>
        simp only [hmutex, Except.ok.injEq] at hstep
        subst hstep
        exact h
      | none =>
        simp only [hmutex, Except.ok.injEq] at hstep
        subst hstep
        refine ⟨?_, h.2⟩
        intro i stage hstage hin
        by_cases hi : move.worker = i
        · rw [hi]
        · rw [List.getElem?_set_ne hi] at hstage
          have := h.1 i stage hstage hin
          rw [hmutex] at this
          cases this
    | locked =>
      simp only [hworker] at hstep
      obtain ⟨_, _, hstep⟩ := except_bind_ok _ _ _ hstep
      simp only [pure, Except.pure, Except.ok.injEq] at hstep
      subst hstep
      refine ⟨TransferState.exclusive_set state move.worker .locked _ hworker rfl h, ?_⟩
      intro entry hentry
      rcases List.mem_append.mp hentry with hentry | hentry
      · exact h.2 entry hentry
      · rw [List.mem_singleton.mp hentry]
        exact h.1 move.worker .locked hworker rfl
    | submitted =>
      simp only [hworker] at hstep
      split at hstep
      · simp only [Except.ok.injEq] at hstep
        subst hstep
        exact h
      · simp only [Except.ok.injEq] at hstep
        subst hstep
        exact ⟨TransferState.exclusive_set state move.worker .submitted _ hworker rfl h, h.2⟩
    | signalled =>
      simp only [hworker, Except.ok.injEq] at hstep
      subst hstep
      exact ⟨TransferState.exclusive_set state move.worker .signalled _ hworker rfl h, h.2⟩
    | reset =>
      simp only [hworker, Except.ok.injEq] at hstep
      subst hstep
      exact ⟨TransferState.exclusive_set state move.worker .reset _ hworker rfl h, h.2⟩
    | destroyed =>
      simp only [hworker, Except.ok.injEq] at hstep
      subst hstep
      refine ⟨?_, h.2⟩
      intro i stage hstage hin
      by_cases hi : move.worker = i
      · subst hi
        have hlt : move.worker < state.workers.length := by
          by_contra hge
          rw [List.getElem?_eq_none (by omega)] at hworker
          cases hworker
        rw [List.getElem?_set_self hlt] at hstage
        cases hstage
        cases hin
      · rw [List.getElem?_set_ne hi] at hstage
        have h1 := h.1 i stage hstage hin
        have h2 := h.1 move.worker .destroyed hworker rfl
        rw [h1] at h2
        exact absurd (Option.some.inj h2).symm hi
    | after =>
      simp only [hworker, Except.ok.injEq] at hstep
      subst hstep
      exact h

theorem TransferState.run_exclusive (debug : Bool) (moves : List Move) :
    ∀ state next : TransferState, state.exclusive →
      TransferState.run debug state moves = .ok next → next.exclusive := by
  induction moves with
  | nil =>
    intro state next h hrun
    simp only [TransferState.run, Except.ok.injEq] at hrun
    subst hrun
    exact h
  | cons move rest ih =>
    intro state next h hrun
    simp only [TransferState.run] at hrun
    obtain ⟨middle, hstep, hrun⟩ := except_bind_ok _ _ _ hrun
    exact ih middle next (TransferState.step_exclusive debug state middle move h hstep) hrun

/-- C24: on every schedule of the workers through lines 81-87, started with the mutex
free, every `vkQueueSubmit` on the transfer queue is made by the worker that owns
`transfer_mutex` at that moment, and at no time are two workers between the constructor
and the destructor of the `lock_guard`; so no two submissions run at the same time. -/
theorem transfer_submits_hold_mutex (debug : Bool) (count : Nat) (moves : List Move)
    (state : TransferState)
    (hrun : TransferState.run debug (TransferState.initial count) moves = .ok state) :
    (∀ entry ∈ state.submits, entry.2 = some entry.1)
    ∧ (∀ (i j : Nat) (first second : TransferStage),
        state.workers[i]? = some first → state.workers[j]? = some second →
        first.inside = true → second.inside = true → i = j) := by
  have hinitial : (TransferState.initial count).exclusive := by
    refine ⟨?_, by simp [TransferState.initial]⟩
    intro i stage hstage hin
    simp only [TransferState.initial] at hstage
    obtain ⟨_, hvalue⟩ := List.getElem?_eq_some.mp hstage
    simp only [List.getElem_replicate] at hvalue
    subst hvalue
    cases hin
  have h := TransferState.run_exclusive debug moves _ state hinitial hrun
  refine ⟨h.2, ?_⟩
  intro i j first second hfirst hsecond hin1 hin2
  have h1 := h.1 i first hfirst hin1
  have h2 := h.1 j second hsecond hin2
  rw [h1] at h2
  exact Option.some.inj h2

/-- The schedule of `transfer_submits_hold_mutex` with two workers: worker 1 takes the
mutex, worker 0 tries and has to wait, worker 1 submits, polls twice and leaves, then
worker 0 enters and submits.  Both submits are logged with their maker as owner. -/
theorem transfer_submits_hold_mutex_witness :
    ∃ state,
      TransferState.run true (TransferState.initial 2)
        [⟨1, 0⟩, ⟨0, 0⟩, ⟨1, 0⟩, ⟨0, 0⟩, ⟨1, 1⟩, ⟨1, 0⟩, ⟨1, 0⟩, ⟨1, 0⟩, ⟨1, 0⟩, ⟨0, 0⟩, ⟨0, 0⟩]
        = .ok state
      ∧ state.submits = [(1, some 1), (0, some 0)]
      ∧ state.workers = [.submitted, .after]
      ∧ ∀ entry ∈ state.submits, entry.2 = some entry.1 :=
  ⟨_, rfl, rfl, rfl,
    (transfer_submits_hold_mutex true 2
      [⟨1, 0⟩, ⟨0, 0⟩, ⟨1, 0⟩, ⟨0, 0⟩, ⟨1, 1⟩, ⟨1, 0⟩, ⟨1, 0⟩, ⟨1, 0⟩, ⟨1, 0⟩, ⟨0, 0⟩, ⟨0, 0⟩]
      _ rfl).1⟩

end gfx

namespace gfx

/-! ## The lock of the registry, ready payloads and live objects -/

/-- C23 (defect in the code): in lines 88-92 of the streaming job the destination buffers
are written into the record through the reference `from_handle` returned, after the
`lock_guard` of `from_handle` has released `done_mutex`: the write of the payload is made
without the lock, and only the write of the flag by `finalize` is made under it.  The
frame loop reads the payload through such a reference without the lock as well, and
`free_all_resources` takes no lock at all. -/
theorem job_writes_payload_without_lock :
    (TaskData.store ⟨⟨0⟩, [0x3F800000, 0xBF000000], [0, 1, 2]⟩ ⟨false, []⟩).accesses
        = [{ index := 0, payload := true, write := true, done_mutex_held := false },
            { index := 0, payload := false, write := true, done_mutex_held := true }]
    ∧ (draw_accesses ⟨0⟩ true ⟨false, []⟩).accesses
        = [{ index := 0, payload := false, write := false, done_mutex_held := true },
            { index := 0, payload := true, write := false, done_mutex_held := false }]
    ∧ (qz.assets.Thread.free_all_resources ⟨false, []⟩ 1).accesses
        = [{ index := 0, payload := true, write := false, done_mutex_held := false },
            { index := 0, payload := true, write := true, done_mutex_held := false }] :=
  ⟨rfl, rfl, rfl⟩

/-- C27 (defect in the code): three requests are made; the job of the second has obtained
its reference (into the array of two records) when the third request makes `emplace_back`
move the records to a new array, where the slot of handle 1 holds the default-empty
payload.  The job's assignment then goes through the dangling reference, which is
undefined and does not reach the slot that `finalize` marks ready next.  When no request
falls between the job's `from_handle` and its assignment, handle 1 is ready with the
destination buffers of its own job. -/
theorem ready_payload_lost_on_reallocation :
    World.run true qz.assets.doubling (World.initial [70, 71])
        [.request ⟨[1, 2, 3], [0, 1, 2]⟩, .request ⟨[4], [0]⟩, .advance 1 1, .advance 1 1,
          .advance 1 1, .request ⟨[5, 6], [1, 0]⟩, .advance 1 1] = .error .undefined
    ∧ (∃ world handles,
        World.run true qz.assets.doubling (World.initial [70, 71])
          [.request ⟨[1, 2, 3], [0, 1, 2]⟩, .request ⟨[4], [0]⟩, .advance 1 1, .advance 1 1,
            .advance 1 1, .request ⟨[5, 6], [1, 0]⟩] = .ok (world, handles)
        ∧ world.tasks.map (fun job => (job.stage, job.reference))
            = [(Stage.queued, ⟨0, 0⟩), (Stage.referenced, ⟨2, 1⟩), (Stage.queued, ⟨0, 0⟩)]
        ∧ world.assets.block = 3
        ∧ world.assets.records[1]? = some ⟨StaticMesh.empty, false⟩)
    ∧ (∃ world handles,
        World.run true qz.assets.doubling (World.initial [70, 71])
          [.request ⟨[1, 2, 3], [0, 1, 2]⟩, .request ⟨[4], [0]⟩, .request ⟨[5, 6], [1, 0]⟩,
            .advance 1 1, .advance 1 1, .advance 1 1, .advance 1 1, .advance 1 1]
          = .ok (world, handles)
        ∧ world.tasks.map (fun job => (job.stage, job.geometry, job.indices))
            = [(Stage.queued, ⟨0, 0, 0, 0⟩, ⟨0, 0, 0, 0⟩),
                (Stage.finalized, ⟨1003, 4, 1003, 1003⟩, ⟨1004, 4, 1004, 1004⟩),
                (Stage.queued, ⟨0, 0, 0, 0⟩, ⟨0, 0, 0, 0⟩)]
        ∧ qz.assets.is_ready true world.assets.records ⟨1⟩ = .ok true
        ∧ qz.assets.from_handle true world.assets.records ⟨1⟩
            = .ok ⟨⟨1003, 4, 1003, 1003⟩, ⟨1004, 4, 1004, 1004⟩⟩) := by
  refine ⟨rfl, ⟨_, _, rfl, rfl, rfl, rfl⟩, ⟨_, _, rfl, rfl, rfl, rfl⟩⟩

/-- C22 (defect in the code): two requests are made, the second while the first job holds
the reference of `from_handle`; the second job runs to completion, and the first job's
assignment is undefined, so its two destination buffers do not reach the record that
`free_all_resources` would destroy them from.  When no request falls between a job's
`from_handle` and its assignment, both jobs run to completion, four destination buffers
are alive, and after `free_all_resources` nothing is. -/
theorem live_count_after_reallocation_race :
    World.run false qz.assets.doubling (World.initial [70])
        [.request ⟨[1, 2, 3], [0, 1, 2]⟩, .advance 0 0, .advance 0 0, .advance 0 0,
          .request ⟨[4], [0]⟩, .advance 1 0, .advance 1 0, .advance 1 0, .advance 1 0,
          .advance 1 0, .advance 1 0, .advance 0 0] = .error .undefined
    ∧ (∃ world handles,
        World.run false qz.assets.doubling (World.initial [70])
          [.request ⟨[1, 2, 3], [0, 1, 2]⟩, .advance 0 0, .advance 0 0, .advance 0 0,
            .request ⟨[4], [0]⟩, .advance 1 0, .advance 1 0, .advance 1 0, .advance 1 0,
            .advance 1 0, .advance 1 0] = .ok (world, handles)
        ∧ world.tasks.map (fun job => (job.stage, job.reference.block))
            = [(Stage.referenced, 1), (Stage.released, 2)]
        ∧ world.assets.block = 2
        ∧ world.assets.records.map (·.object.geometry.handle) = [0, 1009])
    ∧ (∃ world handles,
        World.run false qz.assets.doubling (World.initial [70])
          [.request ⟨[1, 2, 3], [0, 1, 2]⟩, .advance 0 0, .advance 0 0, .advance 0 0,
            .advance 0 0, .advance 0 0, .advance 0 0, .request ⟨[4], [0]⟩, .advance 1 0,
            .advance 1 0, .advance 1 0, .advance 1 0, .advance 1 0, .advance 1 0]
          = .ok (world, handles)
        ∧ world.tasks.map (·.stage) = [Stage.released, Stage.released]
        ∧ live_count world.device = 4
        ∧ live_count world.free_all_resources.device = 0) := by
  refine ⟨rfl, ⟨_, _, rfl, rfl, rfl, rfl⟩, ⟨_, _, rfl, rfl, rfl, rfl⟩⟩

end gfx

namespace gfx

/-! ## Schedules on which no assignment goes through a dangling reference -/

theorem DeviceState.store_keys (device : DeviceState) (handle : Nat) (bytes : List Nat) :
    (device.store handle bytes).buffers.map (·.1) = device.buffers.map (·.1) := by
  simp only [DeviceState.store, List.map_map]
  apply List.map_congr_left
  intro entry _
  simp only [Function.comp]
  split
  · rename_i h
    exact h.symm
  · rfl

theorem DeviceState.execute_all_keys (commands : List CopyCommand) :
    ∀ device : DeviceState,
      (commands.foldl DeviceState.execute device).buffers.map (·.1) = device.buffers.map (·.1)
      ∧ (commands.foldl DeviceState.execute device).command_buffers = device.command_buffers
      ∧ (commands.foldl DeviceState.execute device).fences = device.fences
      ∧ (commands.foldl DeviceState.execute device).next = device.next := by
  induction commands with
  | nil => intro device; exact ⟨rfl, rfl, rfl, rfl⟩
  | cons command rest ih =>
    intro device
    obtain ⟨h1, h2, h3, h4⟩ := ih (device.execute command)
    simp only [List.foldl_cons]
    exact ⟨h1.trans (DeviceState.store_keys _ _ _), h2, h3, h4⟩

/-- What lines 31-79 leave on the device. -/
theorem Job.record_effect (world next : World) (job after : Job) (thread_index : Nat)
    (h : job.record world thread_index = .ok (next, after)) :
    next.assets = world.assets ∧ next.tasks = world.tasks ∧ after.data = job.data
      ∧ after.stage = .recorded
      ∧ next.device.buffers.map (·.1) = world.device.buffers.map (·.1)
          ++ [after.vertex_staging.handle, after.index_staging.handle, after.geometry.handle,
            after.indices.handle]
      ∧ next.device.command_buffers
          = world.device.command_buffers ++ [after.command_buffer._handle]
      ∧ next.device.fences = world.device.fences ++ [after.done] := by
  simp only [Job.record] at h
  split at h
  · simp at h
  simp only [Except.ok.injEq, Prod.mk.injEq] at h
  obtain ⟨hworld, hjob⟩ := h
  subst hworld hjob
  refine ⟨rfl, rfl, rfl, rfl, ?_, rfl, rfl⟩
  simp only [Buffer.create, memcpy, CommandBuffer.allocate, CommandBuffer.from_raw,
    List.map_append, List.map_cons, List.map_nil, DeviceState.store_keys, List.append_assoc,
    List.singleton_append, List.cons_append, List.nil_append]

end gfx

namespace gfx

theorem owned_set (tasks : List Job) (task : Nat) (job after : Job) (live : Job → List Nat)
    (handles later : List Nat) (hjob : tasks[task]? = some job)
    (h : owned tasks live handles)
    (hstep : ∀ x ∈ later, x ∈ live after ∨ (x ∈ handles ∧ (x ∈ live job → x ∈ live after))) :
    owned (tasks.set task after) live later := by
  have hlt : task < tasks.length := (List.getElem?_eq_some.mp hjob).1
  intro x hx
  rcases hstep x hx with hnew | ⟨hold, hkeep⟩
  · exact ⟨task, after, List.getElem?_set_self hlt, hnew⟩
  · obtain ⟨k, owner, howner, hlive⟩ := h x hold
    by_cases hk : task = k
    · subst hk
      rw [hjob] at howner
      cases howner
      exact ⟨task, after, List.getElem?_set_self hlt, hkeep hlive⟩
    · exact ⟨k, owner, by rw [List.getElem?_set_ne hk]; exact howner, hlive⟩

/-- A step of a task that leaves the records of the other tasks alone keeps the world
consistent, provided the task's own record and its device objects follow its stage. -/
theorem World.consistent_advance (world next : World) (task : Nat) (job after : Job)
    (h : world.consistent) (hjob : world.tasks[task]? = some job)
    (htasks : next.tasks = world.tasks.set task after)
    (hdata : after.data = job.data)
    (hlength : next.assets.records.length = world.assets.records.length)
    (hother : ∀ i, i ≠ task → next.assets.records[i]? = world.assets.records[i]?)
    (hself : (after.stage = .referenced → after.reference.index = task)
      ∧ ∃ record, next.assets.records[task]? = some record
          ∧ record.done = after.finalized
          ∧ (after.stored = true → record.object = ⟨after.geometry, after.indices⟩))
    (hbuffers : ∀ x ∈ next.device.buffers.map (·.1),
      x ∈ after.buffers ∨ (x ∈ world.device.buffers.map (·.1)
        ∧ (x ∈ job.buffers → x ∈ after.buffers)))
    (hcommands : ∀ x ∈ next.device.command_buffers,
      x ∈ after.command_buffers ∨ (x ∈ world.device.command_buffers
        ∧ (x ∈ job.command_buffers → x ∈ after.command_buffers)))
    (hfences : ∀ x ∈ next.device.fences,
      x ∈ after.fences ∨ (x ∈ world.device.fences ∧ (x ∈ job.fences → x ∈ after.fences))) :
    next.consistent := by
  obtain ⟨h1, h2, h3, h4, h5⟩ := h
  have hlt : task < world.tasks.length := (List.getElem?_eq_some.mp hjob).1
  unfold World.consistent
  rw [htasks]
  refine ⟨by simp [hlength, h1], ?_, owned_set _ _ _ _ _ _ _ hjob h3 hbuffers,
    owned_set _ _ _ _ _ _ _ hjob h4 hcommands, owned_set _ _ _ _ _ _ _ hjob h5 hfences⟩
  intro i current hcurrent
  by_cases hi : task = i
  · subst hi
    rw [List.getElem?_set_self hlt] at hcurrent
    cases hcurrent
    exact ⟨by rw [hdata]; exact (h2 task job hjob).1, hself⟩
  · rw [List.getElem?_set_ne hi] at hcurrent
    obtain ⟨ha, hb, hc⟩ := h2 i current hcurrent
    exact ⟨ha, hb, by simpa only [hother i (Ne.symm hi)] using hc⟩

end gfx

namespace gfx

/-- A request keeps the world consistent. -/
theorem World.request_consistent (growth : Nat → Nat) (world : World)
    (info : StaticMesh.CreateInfo) (h : world.consistent) :
    (world.request_static_mesh growth info).1.consistent := by
  obtain ⟨h1, h2, h3, h4, h5⟩ := h
  have hrecords : ((world.assets.emplace_empty growth).1).records
      = world.assets.records ++ [⟨StaticMesh.empty, false⟩] := by
    simp only [qz.assets.Table.emplace_empty, qz.assets.emplace_empty]
    split <;> rfl
  have hhandle : (world.assets.emplace_empty growth).2 = ⟨world.tasks.length⟩ := by
    simp only [qz.assets.Table.emplace_empty, qz.assets.emplace_empty]
    split <;> simp [h1]
  have hgrow : ∀ (live : Job → List Nat) (handles : List Nat) (added : Job),
      owned world.tasks live handles → owned (world.tasks ++ [added]) live handles := by
    intro live handles added hown x hx
    obtain ⟨k, job, hjob, hlive⟩ := hown x hx
    have hk : k < world.tasks.length := (List.getElem?_eq_some.mp hjob).1
    exact ⟨k, job, by rw [List.getElem?_append_left hk]; exact hjob, hlive⟩
  simp only [World.request_static_mesh]
  refine ⟨by simp [hrecords, h1], ?_, hgrow _ _ _ h3, hgrow _ _ _ h4, hgrow _ _ _ h5⟩
  intro i job hjob
  simp only at hjob
  by_cases hi : i < world.tasks.length
  · rw [List.getElem?_append_left hi] at hjob
    obtain ⟨ha, hb, hc⟩ := h2 i job hjob
    refine ⟨ha, hb, ?_⟩
    simp only [hrecords]
    rw [List.getElem?_append_left (by omega)]
    exact hc
  · have hlen := (List.getElem?_eq_some.mp hjob).1
    simp only [List.length_append, List.length_singleton] at hlen
    have hi' : i = world.tasks.length := by omega
    subst hi'
    rw [List.getElem?_append_right (by omega)] at hjob
    simp only [Nat.sub_self, List.getElem?_cons_zero, Option.some.injEq] at hjob
    subst hjob
    refine ⟨hhandle, (fun hstage => by cases hstage), ?_⟩
    simp only [hrecords]
    rw [List.getElem?_append_right (by omega)]
    simp [h1, Job.queued, Job.finalized, Job.stored]

end gfx

namespace gfx

/-- A step of a task that returns keeps the world consistent. -/
theorem Job.step_consistent (debug : Bool) (world next : World) (task thread_index : Nat)
    (job after : Job) (h : world.consistent) (hjob : world.tasks[task]? = some job)
    (hstep : job.step debug world thread_index = .ok (next, after)) :
    World.consistent { next with tasks := next.tasks.set task after } := by
  obtain ⟨hhandle, hreference, record, hrecord, hdone, hobject⟩ := h.2.1 task job hjob
  unfold Job.step at hstep
  cases hstage : job.stage with
  | queued =>
    simp only [hstage] at hstep
    obtain ⟨ha, ht, hd, hs, hb, hc, hf⟩ := Job.record_effect world next job after _ hstep
    refine World.consistent_advance world _ task job after h hjob (by simp [ht]) hd
      (by simp [ha]) (fun i _ => by simp [ha]) ⟨by simp [hs], record, by simpa [ha] using hrecord,
        by simpa [Job.finalized, hs, hstage] using hdone, by simp [Job.stored, hs]⟩ ?_ ?_ ?_
    · intro x hx
      simp only [hb, List.mem_append] at hx
      rcases hx with hx | hx
      · exact Or.inr ⟨hx, by simp [Job.buffers, hstage]⟩
      · exact Or.inl (by simpa [Job.buffers, hs] using hx)
    · intro x hx
      simp only [hc, List.mem_append] at hx
      rcases hx with hx | hx
      · exact Or.inr ⟨hx, by simp [Job.command_buffers, hstage]⟩
      · exact Or.inl (by simpa [Job.command_buffers, hs] using hx)
    · intro x hx
      simp only [hf, List.mem_append] at hx
      rcases hx with hx | hx
      · exact Or.inr ⟨hx, by simp [Job.fences, hstage]⟩
      · exact Or.inl (by simpa [Job.fences, hs] using hx)
  | recorded =>
    simp only [hstage, Job.transfer, Except.ok.injEq, Prod.mk.injEq] at hstep
    obtain ⟨hnext, hafter⟩ := hstep
    subst hnext hafter
    obtain ⟨k1, k2, k3, _⟩ := DeviceState.execute_all_keys job.commands world.device
    refine World.consistent_advance world _ task job _ h hjob rfl rfl rfl (fun i _ => rfl)
      ⟨by simp, record, hrecord, by simpa [Job.finalized, hstage] using hdone,
        by simp [Job.stored]⟩ ?_ ?_ ?_
    · intro x hx
      simp only [k1] at hx
      exact Or.inr ⟨hx, by simp [Job.buffers, hstage]⟩
    · intro x hx
      simp only [k2] at hx
      exact Or.inr ⟨hx, by simp [Job.command_buffers, hstage]⟩
    · intro x hx
      simp only [List.mem_filter, k3, decide_eq_true_eq] at hx
      exact Or.inr ⟨hx.1, by simp [Job.fences, hstage, hx.2]⟩
  | transferred =>
    simp only [hstage] at hstep
    obtain ⟨reference, href, hstep⟩ := except_bind_ok _ _ _ hstep
    simp only [pure, Except.pure, Except.ok.injEq, Prod.mk.injEq] at hstep
    obtain ⟨hnext, hafter⟩ := hstep
    subst hnext hafter
    have hindex : reference.index = task := by
      unfold qz.assets.Table.from_handle at href
      obtain ⟨_, _, href⟩ := except_bind_ok _ _ _ href
      simp only [pure, Except.pure, Except.ok.injEq] at href
      rw [← href, hhandle]
    refine World.consistent_advance world _ task job _ h hjob rfl rfl rfl (fun i _ => rfl)
      ⟨fun _ => hindex, record, hrecord, by simpa [Job.finalized, hstage] using hdone,
        by simp [Job.stored]⟩ ?_ ?_ ?_
    · intro x hx
      exact Or.inr ⟨hx, by simp [Job.buffers, hstage]⟩
    · intro x hx
      exact Or.inr ⟨hx, by simp [Job.command_buffers, hstage]⟩
    · intro x hx
      exact Or.inr ⟨hx, by simp [Job.fences, hstage]⟩
  | referenced =>
    simp only [hstage] at hstep
    obtain ⟨assets, hassign, hstep⟩ := except_bind_ok _ _ _ hstep
    simp only [pure, Except.pure, Except.ok.injEq, Prod.mk.injEq] at hstep
    obtain ⟨hnext, hafter⟩ := hstep
    subst hnext hafter
    have hindex := hreference hstage
    unfold qz.assets.Table.assign at hassign
    split at hassign
    · rw [hindex, hrecord] at hassign
      simp only [Except.ok.injEq] at hassign
      subst hassign
      have hlt : task < world.assets.records.length := (List.getElem?_eq_some.mp hrecord).1
      refine World.consistent_advance world _ task job _ h hjob rfl rfl (by simp)
        (fun i hi => by simp [List.getElem?_set_ne (Ne.symm hi)])
        ⟨by simp, _, List.getElem?_set_self hlt,
          by simpa [Job.finalized, hstage] using hdone, fun _ => rfl⟩ ?_ ?_ ?_
      · intro x hx
        exact Or.inr ⟨hx, by simp [Job.buffers, hstage]⟩
      · intro x hx
        exact Or.inr ⟨hx, by simp [Job.command_buffers, hstage]⟩
      · intro x hx
        exact Or.inr ⟨hx, by simp [Job.fences, hstage]⟩
    · simp at hassign
  | assigned =>
    simp only [hstage] at hstep
    obtain ⟨assets, hfinalize, hstep⟩ := except_bind_ok _ _ _ hstep
    simp only [pure, Except.pure, Except.ok.injEq, Prod.mk.injEq] at hstep
    obtain ⟨hnext, hafter⟩ := hstep
    subst hnext hafter
    unfold qz.assets.Table.finalize at hfinalize
    obtain ⟨records, hrecords, hfinalize⟩ := except_bind_ok _ _ _ hfinalize
    simp only [pure, Except.pure, Except.ok.injEq] at hfinalize
    subst hfinalize
    rw [qz.assets.finalize_of_get debug world.assets.records job.data.handle record
      (by rw [hhandle]; exact hrecord)] at hrecords
    simp only [Except.ok.injEq] at hrecords
    subst hrecords
    have hlt : task < world.assets.records.length := (List.getElem?_eq_some.mp hrecord).1
    refine World.consistent_advance world _ task job _ h hjob rfl rfl (by simp)
      (fun i hi => by simp [hhandle, List.getElem?_set_ne (Ne.symm hi)])
      ⟨by simp, _, by simp only [hhandle]; exact List.getElem?_set_self hlt,
        by simp [Job.finalized], fun _ => by simpa [Job.stored, hstage] using hobject⟩ ?_ ?_ ?_
    · intro x hx
      exact Or.inr ⟨hx, by simp [Job.buffers, hstage]⟩
    · intro x hx
      exact Or.inr ⟨hx, by simp [Job.command_buffers, hstage]⟩
    · intro x hx
      exact Or.inr ⟨hx, by simp [Job.fences, hstage]⟩
  | finalized =>
    simp only [hstage, Job.release, Except.ok.injEq, Prod.mk.injEq] at hstep
    obtain ⟨hnext, hafter⟩ := hstep
    subst hnext hafter
    refine World.consistent_advance world _ task job _ h hjob rfl rfl rfl (fun i _ => rfl)
      ⟨by simp, record, hrecord, by simpa [Job.finalized, hstage] using hdone,
        fun _ => by simpa [Job.stored, hstage] using hobject⟩ ?_ ?_ ?_
    · intro x hx
      simp only [CommandBuffer.destroy, Buffer.destroy, List.mem_map, List.mem_filter,
        decide_eq_true_eq] at hx
      obtain ⟨entry, ⟨⟨hentry, hne1⟩, hne2⟩, rfl⟩ := hx
      refine Or.inr ⟨List.mem_map.mpr ⟨entry, hentry, rfl⟩, ?_⟩
      intro hlive
      simp only [Job.buffers, hstage, List.mem_cons, List.mem_singleton, List.not_mem_nil,
        or_false] at hlive ⊢
      rcases hlive with hl | hl | hl | hl
      · exact absurd hl hne1
      · exact absurd hl hne2
      · exact Or.inl hl
      · exact Or.inr hl
    · intro x hx
      simp only [CommandBuffer.destroy, Buffer.destroy, List.mem_filter,
        decide_eq_true_eq] at hx
      exact Or.inr ⟨hx.1, by simp [Job.command_buffers, hstage, hx.2]⟩
    · intro x hx
      exact Or.inr ⟨hx, by simp [Job.fences, hstage]⟩
  | released =>
    simp only [hstage, Except.ok.injEq, Prod.mk.injEq] at hstep
    obtain ⟨hnext, hafter⟩ := hstep
    subst hnext hafter
    refine World.consistent_advance world _ task job _ h hjob rfl rfl rfl (fun i _ => rfl)
      ⟨hreference, record, hrecord, hdone, hobject⟩ ?_ ?_ ?_
    · intro x hx
      exact Or.inr ⟨hx, id⟩
    · intro x hx
      exact Or.inr ⟨hx, id⟩
    · intro x hx
      exact Or.inr ⟨hx, id⟩

end gfx

namespace gfx

theorem World.schedule_step_consistent (debug : Bool) (growth : Nat → Nat) (world next : World)
    (step : Step) (issued : Option meta.Handle) (h : world.consistent)
    (hstep : world.step debug growth step = .ok (next, issued)) : next.consistent := by
  cases step with
  | request info =>
    simp only [World.step, Except.ok.injEq, Prod.mk.injEq] at hstep
    rw [← hstep.1]
    exact World.request_consistent growth world info h
  | advance task thread_index =>
    simp only [World.step] at hstep
    cases hjob : world.tasks[task]? with
    | none =>
      simp only [hjob, Except.ok.injEq, Prod.mk.injEq] at hstep
      rw [← hstep.1]
      exact h
    | some job =>
      simp only [hjob] at hstep
      obtain ⟨result, hresult, hstep⟩ := except_bind_ok _ _ _ hstep
      simp only [pure, Except.pure, Except.ok.injEq, Prod.mk.injEq] at hstep
      rw [← hstep.1]
      exact Job.step_consistent debug world result.1 task thread_index job result.2 h hjob
        hresult

theorem World.run_consistent (debug : Bool) (growth : Nat → Nat) (schedule : List Step) :
    ∀ (world final : World) (handles : List meta.Handle), world.consistent →
      World.run debug growth world schedule = .ok (final, handles) → final.consistent := by
  induction schedule with
  | nil =>
    intro world final handles h hrun
    simp only [World.run, Except.ok.injEq, Prod.mk.injEq] at hrun
    rw [← hrun.1]
    exact h
  | cons step rest ih =>
    intro world final handles h hrun
    simp only [World.run] at hrun
    obtain ⟨next, hnext, hrun⟩ := except_bind_ok _ _ _ hrun
    obtain ⟨result, hresult, hrun⟩ := except_bind_ok _ _ _ hrun
    simp only [pure, Except.pure, Except.ok.injEq, Prod.mk.injEq] at hrun
    rw [← hrun.1]
    exact ih next.1 result.1 result.2 (World.schedule_step_consistent debug growth world next.1 step
      next.2 h hnext) hresult

theorem World.initial_consistent (command_pools : List Nat) :
    (World.initial command_pools).consistent := by
  refine ⟨rfl, ?_, ?_, ?_, ?_⟩
  · intro i job hjob
    simp [World.initial] at hjob
  all_goals
    intro x hx
    simp [World.initial] at hx

/-- On every schedule that runs without an assignment through a dangling reference, a
handle that `is_ready` reports ready belongs to a task that has passed `finalize`, and
`from_handle` yields the destination buffers of that task. -/
theorem World.ready_holds_own_buffers (debug : Bool) (growth : Nat → Nat)
    (command_pools : List Nat) (schedule : List Step) (world : World)
    (handles : List meta.Handle) (handle : meta.Handle)
    (hrun : World.run debug growth (World.initial command_pools) schedule = .ok (world, handles))
    (hready : qz.assets.is_ready debug world.assets.records handle = .ok true) :
    ∃ job, world.tasks[handle.index]? = some job
      ∧ job.data.handle = handle
      ∧ job.finalized = true
      ∧ qz.assets.from_handle debug world.assets.records handle
          = .ok ⟨job.geometry, job.indices⟩ := by
  have h := World.run_consistent debug growth schedule _ world handles
    (World.initial_consistent command_pools) hrun
  unfold qz.assets.is_ready at hready
  obtain ⟨record, hchecked, hready⟩ := except_bind_ok _ _ _ hready
  simp only [pure, Except.pure, Except.ok.injEq] at hready
  have hrecord := qz.assets.checked_index_ok debug _ _ _ hchecked
  have hlt : handle.index < world.tasks.length := by
    rw [← h.1]
    exact (List.getElem?_eq_some.mp hrecord).1
  obtain ⟨hhandle, _, stored, hstored, hdone, hobject⟩ :=
    h.2.1 handle.index _ (List.getElem?_eq_getElem hlt)
  rw [hrecord] at hstored
  cases hstored
  have hfinal : (world.tasks[handle.index]).finalized = true := by rw [← hdone]; exact hready
  have hst : (world.tasks[handle.index]).stored = true := by
    revert hfinal
    simp only [Job.finalized, Job.stored]
    cases (world.tasks[handle.index]).stage <;> simp
  refine ⟨_, List.getElem?_eq_getElem hlt, hhandle, hfinal, ?_⟩
  rw [qz.assets.from_handle_of_get debug _ _ _ hrecord, hobject hst]

end gfx

namespace gfx

/-- What `free_all_resources` leaves on the device: no buffer stored in a record, and the
command buffers and fences as they were. -/
theorem free_all_resources_device (records : qz.assets.Registry) :
    ∀ device : DeviceState,
      (qz.assets.free_all_resources Buffer.destroy device records).1.command_buffers
          = device.command_buffers
      ∧ (qz.assets.free_all_resources Buffer.destroy device records).1.fences = device.fences
      ∧ ∀ entry ∈ (qz.assets.free_all_resources Buffer.destroy device records).1.buffers,
          entry ∈ device.buffers
          ∧ ∀ record ∈ records, entry.1 ≠ record.object.geometry.handle
              ∧ entry.1 ≠ record.object.indices.handle := by
  induction records with
  | nil =>
    intro device
    exact ⟨rfl, rfl, fun entry hentry => ⟨hentry, fun record hrecord => by cases hrecord⟩⟩
  | cons each rest ih =>
    intro device
    obtain ⟨h1, h2, h3⟩ := ih (Buffer.destroy (Buffer.destroy device each.object.geometry)
      each.object.indices)
    simp only [qz.assets.free_all_resources]
    refine ⟨h1, h2, ?_⟩
    intro entry hentry
    obtain ⟨hmem, hrest⟩ := h3 entry hentry
    simp only [Buffer.destroy, List.mem_filter, decide_eq_true_eq] at hmem
    refine ⟨hmem.1.1, ?_⟩
    intro record hrecord
    rcases List.mem_cons.mp hrecord with rfl | hrecord
    · exact ⟨hmem.1.2, hmem.2⟩
    · exact hrest record hrecord

/-- On every schedule that runs without an assignment through a dangling reference and
ends with all tasks released, no buffer, command buffer or fence of the streaming
subsystem is alive after `free_all_resources`. -/
theorem World.drained_live_count (debug : Bool) (growth : Nat → Nat)
    (command_pools : List Nat) (schedule : List Step) (world : World)
    (handles : List meta.Handle)
    (hrun : World.run debug growth (World.initial command_pools) schedule = .ok (world, handles))
    (hreleased : ∀ job ∈ world.tasks, job.stage = .released) :
    live_count world.free_all_resources.device = 0 := by
  obtain ⟨h1, h2, h3, h4, h5⟩ := World.run_consistent debug growth schedule _ world handles
    (World.initial_consistent command_pools) hrun
  obtain ⟨k1, k2, k3⟩ := free_all_resources_device world.assets.records world.device
  have hcommands : world.device.command_buffers = [] := by
    rw [List.eq_nil_iff_forall_not_mem]
    intro x hx
    obtain ⟨k, job, hjob, hlive⟩ := h4 x hx
    simp [Job.command_buffers, hreleased job (List.getElem?_mem hjob)] at hlive
  have hfences : world.device.fences = [] := by
    rw [List.eq_nil_iff_forall_not_mem]
    intro x hx
    obtain ⟨k, job, hjob, hlive⟩ := h5 x hx
    simp [Job.fences, hreleased job (List.getElem?_mem hjob)] at hlive
  have hbuffers : (qz.assets.free_all_resources Buffer.destroy world.device
      world.assets.records).1.buffers = [] := by
    rw [List.eq_nil_iff_forall_not_mem]
    intro entry hentry
    obtain ⟨hmem, hnot⟩ := k3 entry hentry
    obtain ⟨k, job, hjob, hlive⟩ := h3 entry.1 (List.mem_map.mpr ⟨entry, hmem, rfl⟩)
    have hstage := hreleased job (List.getElem?_mem hjob)
    obtain ⟨_, _, record, hrecord, _, hobject⟩ := h2 k job hjob
    have hstored := hobject (by simp [Job.stored, hstage])
    obtain ⟨hg, hi⟩ := hnot record (List.getElem?_mem hrecord)
    rw [hstored] at hg hi
    simp only [Job.buffers, hstage, List.mem_cons, List.mem_singleton, List.not_mem_nil,
      or_false] at hlive
    rcases hlive with hl | hl
    · exact hg hl
    · exact hi hl
  simp only [live_count, World.free_all_resources, k1, k2, hcommands, hfences, hbuffers,
    List.length_nil]

end gfx

end qz
